import Mathlib

/-!
httpfs: a shallow embedding of the server dispatcher and the client adapter

Go strings are modelled as lists of characters, Go `int`/`int64` values as
`Int`, unsigned machine words as `Nat` reduced modulo the word size where
a wrap-around can happen.  Library functions of the Go standard library
that the program calls (`path.Clean`, `path.Join`, `strconv.ParseInt`,
`fmt.Sprintf("%d")`, the `net/http` response writer, `time` formatting) are
modelled after the behaviour of the standard library.
-/

namespace Httpfs

/-- A Go string, as the list of its characters. -/
abbrev GoString := List Char

/-! ## Go standard library: `path.Clean` and `path.Join` -/

/-- The `..` backtracking loop of `path.Clean`:
`for out.w > dotdot && out.index(out.w) != '/' { out.w-- }`, run on the
write index `w` of the buffer `out`. -/
def backtrackW (out : GoString) (dotdot : Nat) : Nat → Nat
  | 0 => 0
  | w + 1 =>
    if w + 1 > dotdot ∧ out.getD (w + 1) '/' ≠ '/' then backtrackW out dotdot w
    else w + 1

/-- The main loop `for r < n { switch ... }` of `path.Clean`.  `path` is the
unread input `path[r:]`, `out` the buffer written so far (`out.w` is its
length), `dotdot` the index where `..` must stop.  Every iteration consumes
at least one character, so `path.length + 1` units of fuel suffice. -/
def cleanLoop : Nat → Bool → GoString → GoString → Nat → GoString
  | 0, _, _, out, _ => out
  | fuel + 1, rooted, path, out, dotdot =>
    match path with
    | [] => out
    | c :: _ =>
      if c = '/' then
        -- empty path element
        cleanLoop fuel rooted (path.drop 1) out dotdot
      else if c = '.' ∧ (path.length = 1 ∨ path.get? 1 = some '/') then
        -- . element
        cleanLoop fuel rooted (path.drop 1) out dotdot
      else if c = '.' ∧ path.get? 1 = some '.' ∧
          (path.length = 2 ∨ path.get? 2 = some '/') then
        -- .. element: remove to last /
        if out.length > dotdot then
          -- can backtrack
          cleanLoop fuel rooted (path.drop 2)
            (out.take (backtrackW out dotdot (out.length - 1))) dotdot
        else if ¬ rooted then
          -- cannot backtrack, but not rooted, so append .. element
          let out1 := if out.length > 0 then out ++ ['/'] else out
          let out2 := out1 ++ ['.', '.']
          cleanLoop fuel rooted (path.drop 2) out2 out2.length
        else
          cleanLoop fuel rooted (path.drop 2) out dotdot
      else
        -- real path element: add slash if needed, then copy the element
        let out1 :=
          if (rooted ∧ out.length ≠ 1) ∨ (¬ rooted ∧ out.length ≠ 0) then out ++ ['/']
          else out
        cleanLoop fuel rooted (path.dropWhile (fun x => x != '/'))
          (out1 ++ path.takeWhile (fun x => x != '/')) dotdot

/-- Go's `path.Clean` (on Unix also `filepath.Clean`): the shortest path
name equivalent to `path` by purely lexical processing. -/
def Clean (path : GoString) : GoString :=
  if path = [] then ['.']
  else
    let rooted : Bool := path.head? = some '/'
    let out :=
      if rooted then cleanLoop (path.length + 1) true (path.drop 1) ['/'] 1
      else cleanLoop (path.length + 1) false path [] 0
    -- Turn empty string into "."
    if out = [] then ['.'] else out

/-- Go's `path.Join` (on Unix also `filepath.Join`): the non-leading empty
elements are kept as empty segments, the leading empty ones are skipped,
the rest is joined with `/` and cleaned; no non-empty element gives `""`. -/
def Join (elem : List GoString) : GoString :=
  if (elem.map List.length).sum = 0 then []
  else
    Clean (elem.foldl
      (fun buf e =>
        if buf.length > 0 ∨ e ≠ [] then
          (if buf.length > 0 then buf ++ ['/'] else buf) ++ e
        else buf) [])

/-- The stay-inside-the-root relation the dispatcher is meant to keep:
`p` is the cleaned root itself or lies below it. -/
def insideRoot (dir p : GoString) : Prop :=
  p = Clean dir ∨ (Clean dir ++ ['/']) <+: p

instance (dir p : GoString) : Decidable (insideRoot dir p) := by
  unfold insideRoot; exact inferInstance

/-! ## Go standard library: `strconv` and `fmt` -/

/-- The two kinds of `*strconv.NumError`: `ErrSyntax` and `ErrRange`. -/
inductive NumErr
  | errSyntax
  | errRange
  deriving DecidableEq, Repr

/-- The overflow cutoff of `strconv.ParseUint` in base 10: the smallest
number such that `cutoff * 10 > maxUint64`. -/
def cutoff64 : Nat := (2 ^ 64 - 1) / 10 + 1

/-- The digit loop of `strconv.ParseUint(s, 10, bitSize)` with
`maxVal = 1<<bitSize - 1`, `n` the `uint64` accumulator.  It returns the
value and the error, as the Go function does. -/
def parseUintLoop (maxVal : Nat) : GoString → Nat → Nat × Option NumErr
  | [], n => (n, none)
  | c :: cs, n =>
    if 48 ≤ c.toNat ∧ c.toNat ≤ 57 then
      let d := c.toNat - 48
      if n ≥ cutoff64 then
        -- n*base overflows
        (maxVal, some .errRange)
      else
        let n10 := n * 10
        let n1 := (n10 + d) % 2 ^ 64
        if n1 < n10 ∨ n1 > maxVal then
          -- n+d overflows
          (maxVal, some .errRange)
        else parseUintLoop maxVal cs n1
    else
      -- a letter is a digit of value 10 or more, anything else no digit
      (0, some .errSyntax)

/-- Go's `strconv.ParseUint(s, 10, bitSize)`. -/
def ParseUint (s : GoString) (bitSize : Nat) : Nat × Option NumErr :=
  if s = [] then (0, some .errSyntax)
  else parseUintLoop (2 ^ bitSize - 1) s 0

/-- Go's `strconv.ParseInt(s, 10, bitSize)`: an optional sign, then
`ParseUint`, then the range check against `1 << (bitSize-1)`. -/
def ParseInt (s : GoString) (bitSize : Nat) : Except NumErr Int :=
  if s = [] then .error .errSyntax
  else
    let neg : Bool := s.head? = some '-'
    let s1 := if s.head? = some '+' ∨ s.head? = some '-' then s.drop 1 else s
    match ParseUint s1 bitSize with
    | (_, some .errSyntax) => .error .errSyntax
    | (un, _) =>
      let cutoff := 2 ^ (bitSize - 1)
      if ¬ neg ∧ un ≥ cutoff then .error .errRange
      else if neg ∧ un > cutoff then .error .errRange
      else .ok (if neg then - (un : Int) else (un : Int))

/-- Go's `strconv.ParseBool`. -/
def ParseBool (s : GoString) : Option Bool :=
  if s ∈ ["1".toList, "t".toList, "T".toList, "TRUE".toList, "true".toList, "True".toList] then
    some true
  else if s ∈ ["0".toList, "f".toList, "F".toList, "FALSE".toList, "false".toList,
      "False".toList] then
    some false
  else none

/-- The character of a decimal digit. -/
def digitChar : Nat → Char
  | 0 => '0' | 1 => '1' | 2 => '2' | 3 => '3' | 4 => '4'
  | 5 => '5' | 6 => '6' | 7 => '7' | 8 => '8' | _ => '9'

/-- The decimal digits of `n`, most significant first, without leading
zeros (`"0"` for zero); the fuel `n + 1` is never used up. -/
def fmtNatAux : Nat → Nat → GoString
  | 0, _ => []
  | fuel + 1, n =>
    if n < 10 then [digitChar n]
    else fmtNatAux fuel (n / 10) ++ [digitChar (n % 10)]

/-- The verb `%d` of `fmt.Sprintf` on an unsigned value. -/
def fmtNat (n : Nat) : GoString := fmtNatAux (n + 1) n

/-- The verb `%d` of `fmt.Sprintf` on a signed value. -/
def fmtInt : Int → GoString
  | Int.ofNat n => fmtNat n
  | Int.negSucc n => '-' :: fmtNat (n + 1)

/-- The verb `%t` of `fmt.Sprintf`. -/
def fmtBool (b : Bool) : GoString := if b then "true".toList else "false".toList

/-- A decimal integer literal: an optional sign, then one or more decimal
digits. -/
def isDecimalInteger (s : GoString) : Bool :=
  let digits := if s.head? = some '+' ∨ s.head? = some '-' then s.drop 1 else s
  decide (digits ≠ []) && digits.all (fun c => decide (48 ≤ c.toNat ∧ c.toNat ≤ 57))

/-! ## Go standard library: package `time` (UTC, whole seconds) -/

/-- The table `shortDayNames` of package `time`. -/
def shortDayNames : List GoString :=
  ["Sun".toList, "Mon".toList, "Tue".toList, "Wed".toList, "Thu".toList, "Fri".toList,
    "Sat".toList]

/-- The table `longDayNames` of package `time`. -/
def longDayNames : List GoString :=
  ["Sunday".toList, "Monday".toList, "Tuesday".toList, "Wednesday".toList,
    "Thursday".toList, "Friday".toList, "Saturday".toList]

/-- The table `shortMonthNames` of package `time`. -/
def shortMonthNames : List GoString :=
  ["Jan".toList, "Feb".toList, "Mar".toList, "Apr".toList, "May".toList, "Jun".toList,
    "Jul".toList, "Aug".toList, "Sep".toList, "Oct".toList, "Nov".toList, "Dec".toList]

/-- Leap years of the Gregorian calendar (`isLeap` of package `time`). -/
def isLeap (year : Int) : Bool :=
  year % 4 = 0 ∧ (year % 100 ≠ 0 ∨ year % 400 = 0)

/-- The table `daysBefore` of package `time`: the days of a non-leap year
before each month, and the days of the whole year. -/
def daysBefore : List Nat := [0, 31, 59, 90, 120, 151, 181, 212, 243, 273, 304, 334, 365]

/-- The cycle arithmetic of `absDate` of package `time` on the day `d` of
a 400-year cycle: the year of the cycle (from 0) and the day of that year
(from 0). -/
def cycleYear (d : Nat) : Nat × Nat :=
  -- Cut off 100-year cycles.  The last cycle has one extra leap year, so on
  -- the last day of that year, d / daysPer100Years will be 4 instead of 3.
  let n100a := d / 36524
  let n100 := n100a - n100a / 4
  let d2 := d - 36524 * n100
  -- Cut off 4-year cycles.
  let n4 := d2 / 1461
  let d3 := d2 - 1461 * n4
  -- Cut off years within a 4-year cycle.
  let n1a := d3 / 365
  let n1 := n1a - n1a / 4
  (100 * n100 + 4 * n4 + n1, d3 - 365 * n1)

/-- The year and the day of the year (from 0) of the day `days` days after
1970-01-01: the first half of `absDate` of package `time`.  Go counts the
days from an absolute epoch a multiple of 400 years before year 1, so that
they are never negative; here they are counted from 0001-01-01 and the
400-year cycles are cut off by floor division. -/
def yearDay (days : Int) : Int × Nat :=
  let d0 := days + 719162
  -- Account for 400 year cycles.
  let n400 := d0 / 146097
  let cy := cycleYear (d0 % 146097).toNat
  (400 * n400 + (cy.1 : Int) + 1, cy.2)

/-- The end of `absDate`: the month (1..12) and the day of the month of day
`day` (from 0) of a year without leap day. -/
def monthOfDay (day : Nat) : Nat × Nat :=
  -- Estimate month on assumption that every month has 31 days.
  -- The estimate may be too low by at most one month, so adjust.
  let month := day / 31
  let end_ := daysBefore.getD (month + 1) 0
  if day ≥ end_ then (month + 2, day - end_ + 1)
  else (month + 1, day - daysBefore.getD month 0 + 1)

/-- The month (1..12) and the day of the month of day `yday` of `year`: the
second half of `absDate`. -/
def monthDay (year : Int) (yday : Nat) : Nat × Nat :=
  if isLeap year ∧ yday = 31 + 29 - 1 then
    -- Leap day.
    (2, 29)
  else
    -- After leap day; pretend it wasn't there.
    monthOfDay (if isLeap year ∧ yday > 31 + 29 - 1 then yday - 1 else yday)

/-- The civil date (year, month 1..12, day 1..31) of the day `days` days
after 1970-01-01 (`Time.Date` in UTC). -/
def civilFromDays (days : Int) : Int × Nat × Nat :=
  let (year, yday) := yearDay days
  let (month, day) := monthDay year yday
  (year, month, day)

/-- The days before year `y` (from 0) of a 400-year cycle: the 100-year,
4-year and 1-year steps of `daysSinceEpoch` of package `time`. -/
def cycleDays (y : Nat) : Nat :=
  -- Add in 100-year cycles.
  let n100 := y / 100
  let y2 := y - 100 * n100
  -- Add in 4-year cycles.
  let n4 := y2 / 4
  let y3 := y2 - 4 * n4
  -- Add in non-leap years.
  36524 * n100 + 1461 * n4 + 365 * y3

/-- The function `daysSinceEpoch` of package `time`, counted from
0001-01-01. -/
def daysSinceEpoch (year : Int) : Int :=
  let y0 := year - 1
  -- Add in days from 400-year cycles.
  146097 * (y0 / 400) + (cycleDays (y0 % 400).toNat : Int)

/-- The number of days from 1970-01-01 to the civil date `year`-`month`-`day`
(`time.Date` followed by `Time.Unix`, for a month and a day in range). -/
def daysFromCivil (year : Int) (month day : Nat) : Int :=
  daysSinceEpoch year + (daysBefore.getD (month - 1) 0 : Nat) +
    (if isLeap year ∧ month ≥ 3 then 1 else 0) + ((day - 1 : Nat) : Int) - 719162

/-- The function `daysIn` of package `time`: the days of month `m` in `year`. -/
def daysIn (m : Nat) (year : Int) : Nat :=
  if m = 2 ∧ isLeap year then 29
  else daysBefore.getD m 0 - daysBefore.getD (m - 1) 0

/-- The function `appendInt` of package `time`: the decimal of `x`, padded
with zeros to at least `width` digits, after a minus sign when negative. -/
def appendInt (x : Int) (width : Nat) : GoString :=
  let u := x.natAbs
  let ds := fmtNat u
  (if x < 0 then ['-'] else []) ++ List.replicate (width - ds.length) '0' ++ ds

/-- The method `Time.Format` with the layout `http.TimeFormat`
(`"Mon, 02 Jan 2006 15:04:05 GMT"`) on the UTC time `t` seconds after the
epoch. -/
def formatHTTPTime (t : Int) : GoString :=
  let days := t / 86400
  let secs := (t % 86400).toNat
  let (y, m, d) := civilFromDays days
  let wd := ((days + 4) % 7).toNat
  shortDayNames.getD wd [] ++ ", ".toList ++ appendInt d 2 ++ " ".toList ++
    shortMonthNames.getD (m - 1) [] ++ " ".toList ++ appendInt y 4 ++ " ".toList ++
    appendInt (secs / 3600 : Nat) 2 ++ ":".toList ++ appendInt (secs / 60 % 60 : Nat) 2 ++
    ":".toList ++ appendInt (secs % 60 : Nat) 2 ++ " GMT".toList

/-- Lower case of an ASCII letter as `match` of package `time` computes
it: `c |= 'a' - 'A'`. -/
def lowerBit (c : Char) : Nat := c.toNat ||| 0x20

/-- The function `match` of package `time`: equality ignoring ASCII case of
two strings of the same length. -/
def matchFold : GoString → GoString → Bool
  | c1 :: s1, c2 :: s2 =>
    (c1 = c2 ∨ (lowerBit c1 = lowerBit c2 ∧ 97 ≤ lowerBit c1 ∧ lowerBit c1 ≤ 122)) ∧
      matchFold s1 s2
  | _, _ => true

/-- The loop of `lookup` of package `time`, `i` the index of the head of
`tab`. -/
def lookupFrom (i : Nat) : List GoString → GoString → Option (Nat × GoString)
  | [], _ => none
  | v :: tab, val =>
    if val.length ≥ v.length ∧ matchFold (val.take v.length) v then some (i, val.drop v.length)
    else lookupFrom (i + 1) tab val

/-- The function `lookup` of package `time`: the index of the first name of
`tab` that `val` starts with, ignoring case, and the rest of `val`. -/
def lookup (tab : List GoString) (val : GoString) : Option (Nat × GoString) :=
  lookupFrom 0 tab val

/-- The function `cutspace` of package `time`. -/
def cutspace (s : GoString) : GoString := s.dropWhile (fun c => c = ' ')

/-- The function `skip` of package `time`: remove the layout text `pre`
from the front of `value`; a run of spaces in the layout matches any run of
spaces.  `inRun` says that the preceding layout character was a space, whose
run has been cut already. -/
def skipAux : GoString → Bool → GoString → Option GoString
  | [], _, value => some value
  | p :: pre, inRun, value =>
    if p = ' ' then
      if inRun then skipAux pre true value
      else if value ≠ [] ∧ value.head? ≠ some ' ' then none
      else skipAux pre true (cutspace value)
    else
      match value with
      | [] => none
      | c :: rest => if c = p then skipAux pre false rest else none

/-- The function `skip` of package `time`. -/
def skip (value pre : GoString) : Option GoString := skipAux pre false value

/-- The function `isDigit` of package `time` at index 0. -/
def isDigit (c : Char) : Bool := 48 ≤ c.toNat ∧ c.toNat ≤ 57

/-- The function `getnum` of package `time`: a number of one or two digits,
of exactly two when `fixed`. -/
def getnum (s : GoString) (fixed : Bool) : Option (Nat × GoString) :=
  match s with
  | [] => none
  | c0 :: rest =>
    if ¬ isDigit c0 then none
    else
      match rest with
      | c1 :: rest1 =>
        if isDigit c1 then some ((c0.toNat - 48) * 10 + (c1.toNat - 48), rest1)
        else if fixed then none else some (c0.toNat - 48, rest)
      | [] => if fixed then none else some (c0.toNat - 48, rest)

/-- The chunk `2006` (`stdLongYear`) of `time.Parse`: exactly four
characters, all digits. -/
def getYear4 (s : GoString) : Option (Int × GoString) :=
  if s.length < 4 ∨ ¬ (s.head?.map isDigit = some true) then none
  else
    let p := s.take 4
    if p.all isDigit then
      some ((p.foldl (fun acc c => acc * 10 + (c.toNat - 48)) 0 : Nat), s.drop 4)
    else none

/-- Seconds in the input but none in the layout: after the seconds,
`time.Parse` accepts a period or comma and digits. -/
def skipFraction (s : GoString) : GoString :=
  match s with
  | c :: d :: rest =>
    if (c = '.' ∨ c = ',') ∧ isDigit d then rest.dropWhile isDigit else s
  | _ => s

/-- The chunks `02 Jan 2006` of the layout: day, month (1..12) and year. -/
def parseDayMonthYear (v : GoString) : Option ((Nat × Nat × Int) × GoString) :=
  (getnum v true).bind fun (day, v) =>
  (skip v " ".toList).bind fun v =>
  (lookup shortMonthNames v).bind fun (mi, v) =>
  (skip v " ".toList).bind fun v =>
  (getYear4 v).bind fun (year, v) => some ((day, mi + 1, year), v)

/-- The chunks `15:04:05` of the layout, each with its range check: the
second of the day. -/
def parseClock (v : GoString) : Option (Nat × GoString) :=
  (getnum v false).bind fun (hour, v) =>
  if 24 ≤ hour then none
  else
    (skip v ":".toList).bind fun v =>
    (getnum v true).bind fun (mn, v) =>
    if 60 ≤ mn then none
    else
      (skip v ":".toList).bind fun v =>
      (getnum v true).bind fun (sec, v) =>
      if 60 ≤ sec then none
      else some (hour * 3600 + mn * 60 + sec, skipFraction v)

/-- The function `time.Parse` with the layout `http.TimeFormat`, followed by
`Time.Unix`: the seconds since the epoch, `none` on a parse error. -/
def parseTimeFormat (value : GoString) : Option Int :=
  (lookup shortDayNames value).bind fun (_, v) =>
  (skip v ", ".toList).bind fun v =>
  (parseDayMonthYear v).bind fun ((day, month, year), v) =>
  (skip v " ".toList).bind fun v =>
  (parseClock v).bind fun (secs, v) =>
  (skip v " GMT".toList).bind fun v =>
  -- extra text after the layout
  if v ≠ [] then none
  -- validate the day of the month
  else if day < 1 ∨ day > daysIn month year then none
  else some (daysFromCivil year month day * 86400 + (secs : Int))

/-- The parts of `time.Parse` that the program reaches only through the two
fallback layouts of `http.ParseTime` and that are not modelled: the parse of
the layout `time.RFC850` after its leading weekday name, and of `time.ANSIC`
after its weekday name and the space that follows it. -/
structure FallbackLayouts where
  rfc850Rest : GoString → Option Int
  ansicRest : GoString → Option Int

/-- The function `time.Parse` with the layout `time.RFC850`
(`"Monday, 02-Jan-06 15:04:05 MST"`): the long weekday name, then the rest. -/
def parseRFC850 (fl : FallbackLayouts) (value : GoString) : Option Int :=
  (lookup longDayNames value).bind fun (_, v) => fl.rfc850Rest v

/-- The function `time.Parse` with the layout `time.ANSIC`
(`"Mon Jan _2 15:04:05 2006"`): the short weekday name, a space, then the
rest. -/
def parseANSIC (fl : FallbackLayouts) (value : GoString) : Option Int :=
  (lookup shortDayNames value).bind fun (_, v) =>
  (skip v " ".toList).bind fun v => fl.ansicRest v

/-- Go's `http.ParseTime` followed by `Time.Unix`: the layouts
`http.TimeFormat`, `time.RFC850` and `time.ANSIC` are tried in this order. -/
def httpParseTime (fl : FallbackLayouts) (text : GoString) : Option Int :=
  match parseTimeFormat text with
  | some t => some t
  | none =>
    match parseRFC850 fl text with
    | some t => some t
    | none => parseANSIC fl text

/-! ## Errors -/

/-- The `fuse.Errno` values the client adapter returns. -/
inductive Errno
  | ENOENT | EPERM | EIO | ENOTSUP | ENOSYS | EEXIST | EINVAL
  deriving DecidableEq, Repr

/-- Go `error` values that occur in the program: system call errors and
their wrappers from package `os`, `fuse.Errno` values, `strconv` errors
and all others (network, URL escaping, ...). -/
inductive GoError
  | sysErrno (n : Nat)
  | errPermission
  | errExist
  | errNotExist
  | pathError (err : GoError)
  | linkError (err : GoError)
  | syscallError (err : GoError)
  | fuseErrno (e : Errno)
  | numError (e : NumErr)
  | other (msg : GoString)
  deriving DecidableEq, Repr

/-- The unwrapping `underlyingError` of package `os`: one layer of
`*PathError`, `*LinkError` or `*SyscallError`. -/
def underlyingError : GoError → GoError
  | .pathError e => e
  | .linkError e => e
  | .syscallError e => e
  | e => e

/-- Go's `os.IsPermission`: `ErrPermission`, `EACCES` (13) or `EPERM` (1). -/
def osIsPermission (err : GoError) : Bool :=
  match underlyingError err with
  | .errPermission => true
  | .sysErrno n => n = 13 || n = 1
  | _ => false

/-- Go's `os.IsNotExist`: `ErrNotExist` or `ENOENT` (2). -/
def osIsNotExist (err : GoError) : Bool :=
  match underlyingError err with
  | .errNotExist => true
  | .sysErrno n => n = 2
  | _ => false

/-- Go's `os.IsExist`: `ErrExist`, `EEXIST` (17) or `ENOTEMPTY` (39). -/
def osIsExist (err : GoError) : Bool :=
  match underlyingError err with
  | .errExist => true
  | .sysErrno n => n = 17 || n = 39
  | _ => false

/-! ## Go standard library: the `net/http` response writer -/

/-- A header map with canonical keys. -/
abbrev Header := List (GoString × GoString)

/-- The method `Header.Get`: the value stored under `key`, `""` when absent. -/
def Header.Get (h : Header) (key : GoString) : GoString :=
  match h.find? (fun kv => kv.1 = key) with
  | some kv => kv.2
  | none => []

/-- The method `Header.Set`: replace the value stored under `key`. -/
def Header.Set (h : Header) (key value : GoString) : Header :=
  (key, value) :: h.filter (fun kv => kv.1 ≠ key)

/-- The state of an `http.ResponseWriter`: the header map, whether the
status line has been sent, the status sent, and the body written. -/
structure ResponseWriter where
  header : Header := []
  wroteHeader : Bool := false
  status : Nat := 0
  body : GoString := []
  deriving DecidableEq, Repr

/-- The method `WriteHeader`: only the first call sends a status; a later
call is superfluous and ignored. -/
def ResponseWriter.WriteHeader (w : ResponseWriter) (code : Nat) : ResponseWriter :=
  if w.wroteHeader then w else { w with wroteHeader := true, status := code }

/-- The method `Write`: the first write sends status 200 when no status
was sent before, then the bytes are appended to the body. -/
def ResponseWriter.Write (w : ResponseWriter) (b : GoString) : ResponseWriter :=
  let w1 := if w.wroteHeader then w else w.WriteHeader 200
  { w1 with body := w1.body ++ b }

/-- Go's `http.Error`: set the headers of a plain text reply, send the
status `code`, write the message and a newline. -/
def httpError (w : ResponseWriter) (msg : GoString) (code : Nat) : ResponseWriter :=
  let h := (w.header.Set "Content-Type".toList "text/plain; charset=utf-8".toList).Set
    "X-Content-Type-Options".toList "nosniff".toList
  ({ w with header := h }.WriteHeader code).Write (msg ++ ['\n'])

/-- The status the client receives once the handler has returned: the one
sent, or 200 when the handler never sent any. -/
def ResponseWriter.finalStatus (w : ResponseWriter) : Nat :=
  if w.wroteHeader then w.status else 200

/-! ## Package `utils` -/

/-- The function `utils.SafeParseInt`: `strconv.ParseInt(s, 10, 32)`, the
default `d` on error. -/
def utils.SafeParseInt (s : GoString) (d : Int) : Int :=
  match ParseInt s 32 with
  | .ok n => n
  | .error _ => d

/-- The function `utils.SafeParseInt64`: `strconv.ParseInt(s, 10, 64)`, the
default `d` on error. -/
def utils.SafeParseInt64 (s : GoString) (d : Int) : Int :=
  match ParseInt s 64 with
  | .ok n => n
  | .error _ => d

/-- The function `utils.SafeParseBool`: `strconv.ParseBool(s)`, the default
`d` on error. -/
def utils.SafeParseBool (s : GoString) (d : Bool) : Bool :=
  match ParseBool s with
  | some b => b
  | none => d

/-! ## Go standard library: `url.QueryUnescape` -/

/-- The value of a hexadecimal digit, `none` for any other character
(`ishex` and `unhex` of package `net/url`). -/
def unhex (c : Char) : Option Nat :=
  if 48 ≤ c.toNat ∧ c.toNat ≤ 57 then some (c.toNat - 48)
  else if 97 ≤ c.toNat ∧ c.toNat ≤ 102 then some (c.toNat - 97 + 10)
  else if 65 ≤ c.toNat ∧ c.toNat ≤ 70 then some (c.toNat - 65 + 10)
  else none

/-- Go's `url.QueryUnescape`: `%XX` becomes the byte `XX`, `+` a space; a
`%` not followed by two hexadecimal digits is an error (`none`). -/
def QueryUnescape : GoString → Option GoString
  | [] => some []
  | '%' :: a :: b :: rest =>
    match unhex a, unhex b with
    | some x, some y => (QueryUnescape rest).map (fun t => Char.ofNat (x * 16 + y) :: t)
    | _, _ => none
  | '%' :: _ => none
  | '+' :: rest => (QueryUnescape rest).map (fun t => ' ' :: t)
  | c :: rest => (QueryUnescape rest).map (fun t => c :: t)

/-! ## Server dispatcher (`webapi/handlers.go`) -/

/-- The function `toHTTPError`: the message and the status for an error
of a filesystem call. -/
def toHTTPError (err : GoError) : GoString × Nat :=
  if osIsPermission err then ("Forbidden".toList, 403)
  else if osIsNotExist err then ("File Not Found".toList, 404)
  else if osIsExist err then ("File Already Exists".toList, 409)
  else ("Internal Server Error".toList, 500)

/-- An `os.FileInfo` as the program uses it, and the client's struct
`fileStat`: name, size, mode bits (`os.FileMode`, 32 bits), modification
time in seconds since the epoch, and the directory flag. -/
structure FileStat where
  name : GoString
  size : Int
  mode : Nat
  mtime : Int
  isdir : Bool
  deriving DecidableEq, Repr

/-- One step of `addStatHeaders`: set the header `key` unless it has a
value already. -/
def setIfEmpty (h : Header) (key value : GoString) : Header :=
  if h.Get key = [] then h.Set key value else h

/-- The function `addStatHeaders`. -/
def addStatHeaders (w : ResponseWriter) (stat : FileStat) : ResponseWriter :=
  let h1 := setIfEmpty w.header "Content-Length".toList (fmtInt stat.size)
  let h2 := setIfEmpty h1 "Last-Modified".toList (formatHTTPTime stat.mtime)
  let h3 := setIfEmpty h2 "X-File-Mode".toList (fmtNat stat.mode)
  let h4 := setIfEmpty h3 "X-Is-Dir".toList (fmtBool stat.isdir)
  { w with header := h4 }

/-- The first two lines of the handler returned by `FileServer(dir)`:
`urlPath := path.Clean(r.URL.Path); localPath := path.Join(dir, urlPath)`. -/
def localPath (dir urlPath : GoString) : GoString :=
  Join [dir, Clean urlPath]

/-- The target path of `LINK` and `RENAME`:
`namePath := path.Clean(nameReq); toPath := path.Join(dir, namePath)`. -/
def toPath (dir nameReq : GoString) : GoString :=
  Join [dir, Clean nameReq]

/-- The calls into the local filesystem the dispatcher makes for the verbs
modelled here, with the paths it hands over. -/
inductive Syscall
  | openFile (name : GoString) (flags : Int) (perm : Int)
  | seek (offset : Int) (whence : Nat)
  | copy
  | symlink (oldname newname : GoString)
  | link (oldname newname : GoString)
  | rename (oldpath newpath : GoString)
  | mkdir (name : GoString) (perm : Int)
  deriving DecidableEq, Repr

/-- The paths a filesystem call receives. -/
def Syscall.paths : Syscall → List GoString
  | .openFile name _ _ => [name]
  | .seek _ _ => []
  | .copy => []
  | .symlink o n => [o, n]
  | .link o n => [o, n]
  | .rename o n => [o, n]
  | .mkdir name _ => [name]

/-- A request as the handler sees it: `r.URL.Path`, the decoded query
parameters (`r.URL.Query()`), and the request headers. -/
structure Request where
  urlPath : GoString
  query : Header := []
  header : Header := []
  deriving DecidableEq, Repr

/-- The outcome of the filesystem calls of one `PUT`: the error of
`os.OpenFile` and the result `(n, err)` of `io.Copy(f, r.Body)`. -/
structure PutOutcome where
  openErr : Option GoError := none
  copyN : Int := 0
  copyErr : Option GoError := none
  deriving DecidableEq, Repr

/-- The open flags `os.O_WRONLY|os.O_CREATE|os.O_EXCL` on Linux. -/
def defaultPutFlags : Int := ((0x1 ||| 0x40 ||| 0x80 : Nat) : Int)

/-- The negation `-x` of an `int64`, which wraps: the negation of the least
value, -2^63, is that value again. -/
def negInt64 (x : Int) : Int :=
  (-x + 2 ^ 63) % 2 ^ 64 - 2 ^ 63

/-- The branch `case "PUT"` of the handler: the trace of filesystem calls
and the response writer when the handler returns. -/
def handlePUT (dir : GoString) (r : Request) (fs : PutOutcome)
    (w : ResponseWriter) : List Syscall × ResponseWriter :=
  let lp := localPath dir r.urlPath
  let perm := utils.SafeParseInt (r.query.Get "perm".toList) 0o666
  let flags := utils.SafeParseInt (r.query.Get "flags".toList) defaultPutFlags
  let offset := utils.SafeParseInt64 (r.query.Get "offset".toList) 0
  match fs.openErr with
  | some err =>
    let (msg, code) := toHTTPError err
    ([.openFile lp flags perm], httpError w msg code)
  | none =>
    -- io.SeekStart = 0, io.SeekEnd = 2
    let sk : Syscall := if offset < 0 then .seek (negInt64 offset) 2 else .seek offset 0
    let cl := utils.SafeParseInt64 (r.header.Get "Content-Length".toList) 0
    match fs.copyErr with
    | some err =>
      let (msg, code) := toHTTPError err
      ([.openFile lp flags perm, sk, .copy], httpError w msg code)
    | none =>
      if cl ≠ 0 ∧ fs.copyN = cl then
        ([.openFile lp flags perm, sk, .copy], w)
      else
        ([.openFile lp flags perm, sk, .copy],
          httpError (w.Write (fmtInt fs.copyN)) "Partial Content".toList 206)

/-- The branch `case "LINK"` of the handler; `err` is the result of the
`os.Symlink` or `os.Link` call. -/
def handleLINK (dir : GoString) (r : Request) (err : Option GoError)
    (w : ResponseWriter) : List Syscall × ResponseWriter :=
  let lp := localPath dir r.urlPath
  let nameReq := r.query.Get "name".toList
  if nameReq = [] then ([], httpError w "Bad Request".toList 400)
  else
    match QueryUnescape nameReq with
    | none =>
      -- an url.EscapeError is no filesystem error
      let (msg, code) := toHTTPError (.other "invalid URL escape".toList)
      ([], httpError w msg code)
    | some nameReq =>
      let soft := utils.SafeParseBool (r.query.Get "soft".toList) false
      let tp := toPath dir nameReq
      let call : Syscall := if soft then .symlink lp tp else .link lp tp
      match err with
      | some e =>
        let (msg, code) := toHTTPError e
        ([call], httpError w msg code)
      | none => ([call], w)

/-- The branch `case "RENAME"` of the handler; `err` is the result of the
`os.Rename` call. -/
def handleRENAME (dir : GoString) (r : Request) (err : Option GoError)
    (w : ResponseWriter) : List Syscall × ResponseWriter :=
  let lp := localPath dir r.urlPath
  let nameReq := r.query.Get "name".toList
  if nameReq = [] then ([], httpError w "Bad Request".toList 400)
  else
    let tp := toPath dir nameReq
    match err with
    | some e =>
      let (msg, code) := toHTTPError e
      ([.rename lp tp], httpError w msg code)
    | none => ([.rename lp tp], w)

/-- The branch `case "MKDIR"` of the handler; `err` is the result of the
`os.Mkdir` call. -/
def handleMKDIR (dir : GoString) (r : Request) (err : Option GoError)
    (w : ResponseWriter) : List Syscall × ResponseWriter :=
  let lp := localPath dir r.urlPath
  let perm := utils.SafeParseInt (r.query.Get "perm".toList) 0o777
  match err with
  | some e =>
    let (msg, code) := toHTTPError e
    ([.mkdir lp perm], httpError w msg code)
  | none => ([.mkdir lp perm], w)

/-- The branch `case "HEAD"` of the handler; `st` is the result of
`os.Lstat(localPath)`. -/
def handleHEAD (st : Except GoError FileStat) (w : ResponseWriter) : ResponseWriter :=
  match st with
  | .error err =>
    let (msg, code) := toHTTPError err
    httpError w msg code
  | .ok d => addStatHeaders w d

/-! ## Client transport (`fsapi/client.go`) -/

/-- A request the client hands to `http.Client.Do`: the method, the path
appended to the base URL, the query parameters added, the headers set and
the body.  `Client.Stat` and `Client.Symlink`, which receive a name that
comes straight from the kernel, build their request with `Client.NewRequest`
below, which may return nil.  The other methods are called on the path of a
node (the root `/`, or a path that has been through `Client.Stat` in
`Dir.Lookup` or `Dir.exists`) or on a path `Dir.exists` has just looked at,
so that `http.NewRequest` succeeds on it again, and their request is given
as a value. -/
structure HTTPRequest where
  method : GoString
  path : GoString
  query : Header := []
  header : Header := []
  body : GoString := []
  deriving DecidableEq, Repr

/-- A response received: status code, headers, the bytes `ioutil.ReadAll`
obtains from the body and the error it reports, if any. -/
structure HTTPResponse where
  status : Nat
  header : Header := []
  body : GoString := []
  bodyErr : Option GoError := none
  deriving DecidableEq, Repr

/-- The network and the server as seen from the client: the answer to a
request, which may depend on all requests sent before.  An error stands
for a failed `http.Client.Do` (no response is obtained). -/
abbrev Transport := List HTTPRequest → HTTPRequest → Except GoError HTTPResponse

/-- The call `c.client.Do(req)`: the answer, and the log of requests sent
extended by `req`. -/
def Client.Do (t : Transport) (log : List HTTPRequest) (req : HTTPRequest) :
    Except GoError HTTPResponse × List HTTPRequest :=
  (t log req, log ++ [req])

/-- The function `ErrorFromStatus`. -/
def ErrorFromStatus (code : Nat) : Errno :=
  match code with
  | 404 => .ENOENT
  | 403 => .EPERM
  | _ => Errno.EIO

/-- The function `fsapi.SafeParseInt64`: `strconv.ParseInt(s, 10, 64)`, 0 on
error. -/
def SafeParseInt64 (s : GoString) : Int :=
  match ParseInt s 64 with
  | .ok n => n
  | .error _ => 0

/-- The function `fsapi.SafeParseBool`: `strconv.ParseBool(s)`, false on
error. -/
def SafeParseBool (s : GoString) : Bool :=
  match ParseBool s with
  | some b => b
  | none => false

/-- A result that may also be a Go panic (`fault`). -/
inductive Outcome (α : Type)
  | ret (a : α)
  | fault
  deriving DecidableEq, Repr

/-- The value returned, if the call returned at all. -/
def Outcome.toOption {α : Type} : Outcome α → Option α
  | .ret a => some a
  | .fault => none

/-- The built-in `copy(dst, src)`: the contents of `dst` afterwards. -/
def goCopy (dst src : GoString) : GoString :=
  src.take (min dst.length src.length) ++ dst.drop (min dst.length src.length)

/-- The names of the four stat headers. -/
def statHeaderKeys : List GoString :=
  ["Content-Length".toList, "Last-Modified".toList, "X-File-Mode".toList, "X-Is-Dir".toList]

/-- The function `stringContainsCTLByte` of package `net/url`: whether the
string has a byte below 0x20 or the byte 0x7f. -/
def stringContainsCTLByte (s : GoString) : Bool :=
  s.any (fun c => decide (c.toNat < 0x20 ∨ c.toNat = 0x7f))

/-- Whether `unescape(s, encodePath)` of package `net/url` succeeds (the
same for `encodeFragment`): every `%` is followed by two hexadecimal
digits. -/
def validEscapes : GoString → Bool
  | [] => true
  | '%' :: a :: b :: rest => (unhex a).isSome && (unhex b).isSome && validEscapes rest
  | '%' :: _ => false
  | _ :: rest => validEscapes rest

/-- Whether `http.NewRequest(method, c.baseURL+path, body)` succeeds, that
is whether `url.Parse` accepts the URL, for a base URL of the form
`scheme://host:port` and a path that begins with a slash (every path the
client builds is a `Join` with the rooted path of a directory).  `url.Parse`
(Go 1.12 and later) rejects a control byte before the first `#`, a malformed
escape in the path, which ends at the first `?`, and a malformed escape in
the fragment after the first `#`. -/
def requestURLValid (path : GoString) : Bool :=
  let u := path.takeWhile (fun c => c != '#')
  let frag := (path.dropWhile (fun c => c != '#')).drop 1
  !stringContainsCTLByte u && validEscapes (u.takeWhile (fun c => c != '?')) &&
    validEscapes frag

/-- The method `Client.NewRequest`: `req, _ := http.NewRequest(...)`, the
error is dropped, so that the result is nil (`none`) when the URL does not
parse. -/
def Client.NewRequest (method path body : GoString) : Option HTTPRequest :=
  if requestURLValid path then some { method := method, path := path, body := body }
  else none

/-- The method `Client.Head`: `c.NewRequest("HEAD", path, nil)`. -/
def Client.Head (path : GoString) : Option HTTPRequest :=
  Client.NewRequest "HEAD".toList path []

/-- The request `c.Head(path)` returns when it does not return nil. -/
def headRequest (path : GoString) : HTTPRequest :=
  { method := "HEAD".toList, path := path }

/-- The conversion `uint32(n)` of an `int64`. -/
def toUint32 (n : Int) : Nat := (n % 2 ^ 32).toNat

/-- The method `Client.Stat`: a `HEAD` request, then the stat is read from
the headers of a 200 response.  When `c.Head(path)` is nil,
`c.client.Do(nil)` panics and nothing is sent. -/
def Client.Stat (fl : FallbackLayouts) (t : Transport) (log : List HTTPRequest)
    (path : GoString) : Outcome (Except GoError FileStat) × List HTTPRequest :=
  match Client.Head path with
  | none => (.fault, log)
  | some req =>
    match Client.Do t log req with
    | (.error e, log1) => (.ret (.error e), log1)
    | (.ok r, log1) =>
      if r.status ≠ 200 then (.ret (.error (.fuseErrno (ErrorFromStatus r.status))), log1)
      else
        let mtime : Int :=
          match httpParseTime fl (r.header.Get "Last-Modified".toList) with
          | none => 0
          | some t => t
        let size := SafeParseInt64 (r.header.Get "Content-Length".toList)
        let mode := toUint32 (SafeParseInt64 (r.header.Get "X-File-Mode".toList))
        let isdir := SafeParseBool (r.header.Get "X-Is-Dir".toList)
        (.ret (.ok { name := path, size := size, mode := mode, mtime := mtime,
                     isdir := isdir }), log1)

/-- The shape shared by `Client.Truncate`, `Client.Chmod` and the other
methods without a result: send the request, return the error of `Do`, or
the translated status when it is not 200. -/
def Client.call (t : Transport) (log : List HTTPRequest) (req : HTTPRequest) :
    Option GoError × List HTTPRequest :=
  match Client.Do t log req with
  | (.error e, log1) => (some e, log1)
  | (.ok r, log1) =>
    if r.status ≠ 200 then (some (.fuseErrno (ErrorFromStatus r.status)), log1)
    else (none, log1)

/-- The request of `Client.Truncate(path, size)`. -/
def truncateRequest (path : GoString) (size : Nat) : HTTPRequest :=
  { method := "TRUNCATE".toList, path := path, query := [("size".toList, fmtNat size)] }

/-- The request of `Client.Chmod(path, mode)`. -/
def chmodRequest (path : GoString) (mode : Nat) : HTTPRequest :=
  { method := "CHMOD".toList, path := path, query := [("mode".toList, fmtNat mode)] }

/-- The method `Client.Truncate`. -/
def Client.Truncate (t : Transport) (log : List HTTPRequest) (path : GoString) (size : Nat) :
    Option GoError × List HTTPRequest :=
  Client.call t log (truncateRequest path size)

/-- The method `Client.Chmod`. -/
def Client.Chmod (t : Transport) (log : List HTTPRequest) (path : GoString) (mode : Nat) :
    Option GoError × List HTTPRequest :=
  Client.call t log (chmodRequest path mode)

/-- The request of `Client.Mkdir(path, perm)`: the permission travels under
the query key `mode`. -/
def mkdirRequest (path : GoString) (perm : Nat) : HTTPRequest :=
  { method := "MKDIR".toList, path := path, query := [("mode".toList, fmtNat perm)] }

/-- The request of `Client.Link(path, name)`. -/
def linkRequest (path name : GoString) : HTTPRequest :=
  { method := "LINK".toList, path := path, query := [("name".toList, name)] }

/-- The request of `Client.Symlink(target, name)`. -/
def symlinkRequest (target name : GoString) : HTTPRequest :=
  { method := "LINK".toList, path := target,
    query := [("name".toList, name), ("soft".toList, "1".toList)] }

/-- The request of `Client.Rename(oldpath, newpath)`. -/
def renameRequest (oldpath newpath : GoString) : HTTPRequest :=
  { method := "RENAME".toList, path := oldpath, query := [("name".toList, newpath)] }

/-- The request of `Client.Delete(path)`. -/
def deleteRequest (path : GoString) : HTTPRequest :=
  { method := "DELETE".toList, path := path }

/-- The method `Client.Mkdir`. -/
def Client.Mkdir (t : Transport) (log : List HTTPRequest) (path : GoString) (perm : Nat) :
    Option GoError × List HTTPRequest :=
  Client.call t log (mkdirRequest path perm)

/-- The method `Client.Link`. -/
def Client.Link (t : Transport) (log : List HTTPRequest) (path name : GoString) :
    Option GoError × List HTTPRequest :=
  Client.call t log (linkRequest path name)

/-- The method `Client.Symlink`.  When `c.NewRequest("LINK", target, nil)`
is nil, `req.URL.Query()` panics and nothing is sent. -/
def Client.Symlink (t : Transport) (log : List HTTPRequest) (target name : GoString) :
    Outcome (Option GoError) × List HTTPRequest :=
  match Client.NewRequest "LINK".toList target [] with
  | none => (.fault, log)
  | some req =>
    match Client.call t log
      { req with query := [("name".toList, name), ("soft".toList, "1".toList)] } with
    | (err, log1) => (.ret err, log1)

/-- The method `Client.Rename`. -/
def Client.Rename (t : Transport) (log : List HTTPRequest) (oldpath newpath : GoString) :
    Option GoError × List HTTPRequest :=
  Client.call t log (renameRequest oldpath newpath)

/-- The method `Client.Delete`. -/
def Client.Delete (t : Transport) (log : List HTTPRequest) (path : GoString) :
    Option GoError × List HTTPRequest :=
  Client.call t log (deleteRequest path)

/-- A path that reaches the handler as written: it begins with a slash, is
its own `path.Clean` (the `ServeMux` of the server redirects any other
path), and has no `?`, `#` or `%` and no control byte, so that `url.Parse`
on the client and on the server leaves it as it is. -/
def plainPath (path : GoString) : Bool :=
  decide (path.head? = some '/') && decide (Clean path = path) &&
    path.all (fun c => c != '?' && c != '#' && c != '%' &&
      !decide (c.toNat < 0x20 ∨ c.toNat = 0x7f))

/-- The header `Content-Length` the Go transport adds to an outgoing
request: the length of a body that is not empty; `0` for an empty body,
except for the methods `GET` and `HEAD`, which get none. -/
def contentLengthHeader (req : HTTPRequest) : Header :=
  if req.body ≠ [] then [("Content-Length".toList, fmtNat req.body.length)]
  else if req.method = "GET".toList ∨ req.method = "HEAD".toList then []
  else [("Content-Length".toList, "0".toList)]

/-- The request the server's handler sees for a client request with a plain
path and query keys that are all different: the path, the query parameters
(they are encoded by `q.Encode()` and decoded again by `r.URL.Query()`), and
the headers set by the client together with the `Content-Length` of the
transport.  Requests with another path are not modelled (`none`). -/
def HTTPRequest.atServer (req : HTTPRequest) : Option Request :=
  if plainPath req.path ∧ (req.query.map (fun p => p.1)).Nodup then
    some { urlPath := req.path, query := req.query,
           header := req.header ++ contentLengthHeader req }
  else none

/-! ## Client handle (`fsapi/handle.go`) -/

/-- The struct `Handle` without its pointers: the owning `File` and the
client are passed to the methods. -/
structure Handle where
  path : GoString
  flags : Nat
  perm : Nat
  deriving DecidableEq, Repr

/-- The result of `ReadAt`: the buffer afterwards, the count and the error
returned, and the log of requests sent. -/
structure ReadResult where
  buf : GoString
  n : Int
  err : Option GoError
  log : List HTTPRequest
  deriving DecidableEq, Repr

/-- The request `ReadAt` builds: `GET` of the handle's path with the header
`Range: bytes=<offset>-`. -/
def Handle.readRequest (h : Handle) (offset : Int) : HTTPRequest :=
  { method := "GET".toList, path := h.path,
    header := [("Range".toList, "bytes=".toList ++ fmtInt offset ++ "-".toList)] }

/-- The method `Handle.ReadAt`. -/
def Handle.ReadAt (t : Transport) (log : List HTTPRequest) (h : Handle)
    (buf : GoString) (offset : Int) : ReadResult :=
  match Client.Do t log (h.readRequest offset) with
  | (.error _, log1) => { buf := buf, n := 0, err := some (.fuseErrno Errno.EIO), log := log1 }
  | (.ok r, log1) =>
    if r.status ≠ 206 then
      { buf := buf, n := 0, err := some (.fuseErrno (ErrorFromStatus r.status)), log := log1 }
    else
      -- data, err := ioutil.ReadAll(r.Body); copy(buf, data); return len(buf), nil
      { buf := goCopy buf r.body, n := buf.length, err := none, log := log1 }

/-- The result of `WriteAt`: the count and the error returned, the flag
`created` of the owning file afterwards, and the log of requests sent. -/
structure WriteResult where
  n : Int
  err : Option GoError
  created : Bool
  log : List HTTPRequest
  deriving DecidableEq, Repr

/-- The open flag `os.O_CREATE` (Linux). -/
def O_CREATE : Nat := 0x40

/-- The open flag `os.O_EXCL` (Linux). -/
def O_EXCL : Nat := 0x80

/-- The request `WriteAt` builds: `PUT` of the handle's path with the query
parameters `flags`, `perm` and `offset` and the buffer as body; a freshly
created file adds `os.O_CREATE|os.O_EXCL` to the flags. -/
def Handle.writeRequest (h : Handle) (created : Bool) (buf : GoString) (flags : Nat)
    (offset : Int) : HTTPRequest :=
  let flags1 := if created then flags ||| (O_CREATE ||| O_EXCL) else flags
  { method := "PUT".toList, path := h.path, body := buf,
    query := [("flags".toList, fmtNat flags1), ("perm".toList, fmtNat h.perm),
      ("offset".toList, fmtInt offset)] }

/-- The method `Handle.WriteAt`; `created` is the flag `h.f.created` of the
owning file.  When `Do` fails the response is nil and the statement
`defer r.Body.Close()`, which precedes the error check, panics. -/
def Handle.WriteAt (t : Transport) (log : List HTTPRequest) (created : Bool) (h : Handle)
    (buf : GoString) (flags : Nat) (offset : Int) : Outcome WriteResult :=
  let created1 := if created then false else created
  match Client.Do t log (h.writeRequest created buf flags offset) with
  | (.error _, _) => .fault
  | (.ok r, log1) =>
    if r.status = 200 then
      .ret { n := buf.length, err := none, created := created1, log := log1 }
    else if r.status ≠ 206 then
      .ret { n := 0, err := some (.fuseErrno (ErrorFromStatus r.status)),
             created := created1, log := log1 }
    else
      match r.bodyErr with
      | some e => .ret { n := 0, err := some e, created := created1, log := log1 }
      | none =>
        match ParseInt r.body 32 with
        | .error e => .ret { n := 0, err := some (.numError e), created := created1, log := log1 }
        | .ok n => .ret { n := n, err := none, created := created1, log := log1 }

/-! ## Client filesystem root and nodes (`fsapi/httpfs.go`, `dir.go`, `file.go`) -/

/-- The fields of `fuse.Attr` the program sets. -/
structure Attr where
  inode : Nat
  size : Nat := 0
  atime : Int
  mtime : Int
  ctime : Int
  crtime : Int
  mode : Nat
  deriving DecidableEq, Repr

/-- The struct `Dir` (the lock and the pointers left out). -/
structure Dir where
  attr : Attr
  path : GoString
  deriving DecidableEq, Repr

/-- The struct `File`; `handle` is `none` for the nil pointer. -/
structure File where
  attr : Attr
  path : GoString
  created : Bool := false
  handle : Option Handle := none
  deriving DecidableEq, Repr

/-- The struct `HTTPFS`: the node counter `NodeID` (a `uint64`) and the
root directory, `none` until `NewHTTPFS` has set it. -/
structure HTTPFS where
  NodeID : Nat := 0
  root : Option Dir := none
  deriving DecidableEq, Repr

/-- The bit `os.ModeDir`. -/
def ModeDir : Nat := 2 ^ 31

/-- The bit `os.ModeSymlink`. -/
def ModeSymlink : Nat := 2 ^ 27

/-- The mask `os.ModeType`: directory, symlink, named pipe, socket, device,
character device and irregular. -/
def ModeType : Nat := 2 ^ 31 ||| 2 ^ 27 ||| 2 ^ 25 ||| 2 ^ 24 ||| 2 ^ 26 ||| 2 ^ 21 ||| 2 ^ 19

/-- The constant `DefaultFileMode`. -/
def DefaultFileMode : Nat := 0o777

/-- The method `nextID`: `atomic.AddUint64(&m.NodeID, 1)`, which returns the
new value; the addition wraps at 2^64. -/
def HTTPFS.nextID (m : HTTPFS) : Nat × HTTPFS :=
  let v := (m.NodeID + 1) % 2 ^ 64
  (v, { m with NodeID := v })

/-- The method `newDir`; `now` is the value of `time.Now()`. -/
def HTTPFS.newDir (m : HTTPFS) (now : Int) (path : GoString) (mode : Nat) : Dir × HTTPFS :=
  let (id, m1) := m.nextID
  ({ attr := { inode := id, atime := now, mtime := now, ctime := now, crtime := now,
               mode := ModeDir ||| mode },
     path := path }, m1)

/-- The method `newFile`; `now` is the value of `time.Now()`. -/
def HTTPFS.newFile (m : HTTPFS) (now : Int) (path : GoString) (mode : Nat) : File × HTTPFS :=
  let (id, m1) := m.nextID
  ({ attr := { inode := id, atime := now, mtime := now, ctime := now, crtime := now,
               mode := mode },
     path := path }, m1)

/-- The function `NewHTTPFS`: a zero counter, then the root directory; it
panics when the root did not get inode 1. -/
def NewHTTPFS (now : Int) : Outcome HTTPFS :=
  let fs : HTTPFS := {}
  let (root, fs1) := fs.newDir now "/".toList (ModeDir ||| DefaultFileMode)
  if root.attr.inode ≠ 1 then .fault
  else .ret { fs1 with root := some root }

/-- A call of one of the two node factories. -/
inductive AllocCall
  | newDir (path : GoString) (mode : Nat)
  | newFile (path : GoString) (mode : Nat)
  deriving DecidableEq, Repr

/-- Run a sequence of `newDir`/`newFile` calls on one `HTTPFS`: the inodes
of the nodes made, in order, and the `HTTPFS` afterwards. -/
def allocAll (now : Int) : HTTPFS → List AllocCall → List Nat × HTTPFS
  | m, [] => ([], m)
  | m, .newDir path mode :: rest =>
    let (d, m1) := m.newDir now path mode
    let (ids, m2) := allocAll now m1 rest
    (d.attr.inode :: ids, m2)
  | m, .newFile path mode :: rest =>
    let (f, m1) := m.newFile now path mode
    let (ids, m2) := allocAll now m1 rest
    (f.attr.inode :: ids, m2)

/-- The map `ignoreNames`. -/
def ignoreNames : List GoString :=
  ["DCIM".toList, "Backups.backupdb".toList, ".Spotlight-V100".toList, "mach_kernel".toList,
    ".metadata_never_index".toList, ".metadata_never_index_unless_rootfs".toList,
    ".DS_Store".toList, ".localized".toList, ".hidden".toList, "._.".toList]

/-- A node returned to the kernel binding. -/
inductive Node
  | dir (d : Dir)
  | file (f : File)
  deriving DecidableEq, Repr

/-- The result of `Dir.Lookup`: the node or the error returned, or the panic
raised, the `HTTPFS` afterwards and the log of requests sent. -/
structure LookupResult where
  node : Outcome (Except GoError Node)
  fs : HTTPFS
  log : List HTTPRequest

/-- The method `Dir.Lookup`; it panics when `Client.Stat` does, and on a stat
that is neither directory, symlink nor regular file. -/
def Dir.Lookup (fl : FallbackLayouts) (t : Transport) (log : List HTTPRequest)
    (fs : HTTPFS) (now : Int) (d : Dir) (name : GoString) : LookupResult :=
  if name ∉ ignoreNames ∧ ¬ ("._".toList <+: name) then
    let path := Join [d.path, name]
    match Client.Stat fl t log path with
    | (.fault, log1) => { node := .fault, fs := fs, log := log1 }
    | (.ret (.error _), log1) =>
      { node := .ret (.error (.fuseErrno .ENOENT)), fs := fs, log := log1 }
    | (.ret (.ok stats), log1) =>
      if stats.isdir then
        let (nd, fs1) := fs.newDir now path stats.mode
        { node := .ret (.ok (.dir nd)), fs := fs1, log := log1 }
      else if stats.mode &&& ModeSymlink = ModeSymlink then
        let (nf, fs1) := fs.newFile now path stats.mode
        { node := .ret (.ok (.file nf)), fs := fs1, log := log1 }
      else if stats.mode &&& ModeType = 0 then
        let (nf, fs1) := fs.newFile now path stats.mode
        { node := .ret (.ok (.file nf)), fs := fs1, log := log1 }
      else { node := .fault, fs := fs, log := log1 }
  else { node := .ret (.error (.fuseErrno .ENOENT)), fs := fs, log := log }

/-- The bit `fuse.SetattrMode`. -/
def SetattrMode : Nat := 2 ^ 0

/-- The bit `fuse.SetattrSize`. -/
def SetattrSize : Nat := 2 ^ 3

/-- The bit `fuse.SetattrHandle`. -/
def SetattrHandle : Nat := 2 ^ 6

/-- The bit `fuse.SetattrLockOwner`. -/
def SetattrLockOwner : Nat := 2 ^ 9

/-- Go's bit clear `a &^ b`. -/
def andNot (a b : Nat) : Nat := a ^^^ (a &&& b)

/-- The method `File.Setattr` on a request with the valid bits `valid`, the
size `size` and the mode `mode`: the error returned and the log of requests
sent. -/
def File.Setattr (t : Transport) (log : List HTTPRequest) (f : File)
    (valid size mode : Nat) : Option GoError × List HTTPRequest :=
  let afterSize : Option GoError × Nat × List HTTPRequest :=
    if valid &&& SetattrSize ≠ 0 then
      match Client.Truncate t log f.path size with
      | (some err, log1) => (some err, valid, log1)
      | (none, log1) => (none, andNot valid SetattrSize, log1)
    else (none, valid, log)
  match afterSize with
  | (some err, _, log1) => (some err, log1)
  | (none, valid1, log1) =>
    let afterMode : Option GoError × Nat × List HTTPRequest :=
      if valid1 &&& SetattrMode ≠ 0 then
        match Client.Chmod t log1 f.path mode with
        | (some err, log2) => (some err, valid1, log2)
        | (none, log2) => (none, andNot valid1 SetattrMode, log2)
      else (none, valid1, log1)
    match afterMode with
    | (some err, _, log2) => (some err, log2)
    | (none, valid2, log2) =>
      -- things we don't need to explicitly handle
      let valid3 := andNot valid2 (SetattrLockOwner ||| SetattrHandle)
      if valid3 ≠ 0 then
        -- don't let an unhandled operation slip by without error
        (some (.fuseErrno .ENOSYS), log2)
      else (none, log2)

/-! ## Directory listings (`types/types.go`, `Client.Readdir`) -/

/-- The struct `types.Entry`. -/
structure Entry where
  Name : GoString
  Size : Int := 0
  Mode : Nat := 0
  ModTime : Int := 0
  IsDir : Bool := false
  deriving DecidableEq, Repr

/-- The kinds of `html.Node` (`html.NodeType`). -/
inductive NodeType
  | errorNode | textNode | documentNode | elementNode | commentNode | doctypeNode
  deriving DecidableEq, Repr

/-- A pointer to an `html.Node` of package `golang.org/x/net/html`, with the
fields the program reads: `Type`, `Data`, `Attr` (key and value of each
attribute), `FirstChild` and `NextSibling`; `null` is the nil pointer. -/
inductive HtmlNode
  | null
  | node (type : NodeType) (data : GoString) (attr : List (GoString × GoString))
      (firstChild nextSibling : HtmlNode)
  deriving DecidableEq, Repr

/-- Go's `strings.TrimRight(s, "/")`: `s` without its trailing slashes. -/
def trimRightSlash (s : GoString) : GoString :=
  (s.reverse.dropWhile (fun c => c = '/')).reverse

/-- The body of `if n.Type == html.ElementNode && n.Data == "a"` in `walk`:
the first attribute with the key `href` appends one entry; the expression
`a.Val[len(a.Val)-1]` panics on an empty value. -/
def visitNode (type : NodeType) (data : GoString) (attr : List (GoString × GoString))
    (entries : List Entry) : Outcome (List Entry) :=
  if type = .elementNode ∧ data = "a".toList then
    match attr.find? (fun a => a.1 = "href".toList) with
    | none => .ret entries
    | some a =>
      -- on an error `url.QueryUnescape` returns the empty string
      let name := trimRightSlash ((QueryUnescape a.2).getD [])
      match a.2.getLast? with
      | none => .fault
      | some c => .ret (entries ++ [{ Name := name, IsDir := c = '/', ModTime := 0 }])
  else .ret entries

/-- The loop `for c := n; c != nil; c = c.NextSibling { walk(c) }`, where
`walk(c)` visits `c` and then runs this loop from `c.FirstChild`. -/
def walkFrom : HtmlNode → List Entry → Outcome (List Entry)
  | .null, entries => .ret entries
  | .node type data attr firstChild nextSibling, entries =>
    match visitNode type data attr entries with
    | .fault => .fault
    | .ret e1 =>
      match walkFrom firstChild e1 with
      | .fault => .fault
      | .ret e2 => walkFrom nextSibling e2

/-- The closure `walk` of `Client.Readdir` on the node `n`. -/
def walk (n : HtmlNode) (entries : List Entry) : Outcome (List Entry) :=
  match n with
  | .null => .fault
  | .node type data attr firstChild _ =>
    match visitNode type data attr entries with
    | .fault => .fault
    | .ret e1 => walkFrom firstChild e1

/-- The two decoders `Client.Readdir` calls, which are not modelled:
`html.Parse` of package `golang.org/x/net/html` and `json.Unmarshal` into a
slice of `types.Entry`. -/
structure Decoders where
  htmlParse : GoString → Except GoError HtmlNode
  jsonUnmarshal : GoString → Except GoError (List Entry)

/-- The request `c.Get(path)`. -/
def getRequest (path : GoString) : HTTPRequest :=
  { method := "GET".toList, path := path }

/-- The final loop of `Client.Readdir`: one `fileStat` per entry. -/
def entryStat (e : Entry) : FileStat :=
  { name := e.Name, size := e.Size, mode := e.Mode, mtime := e.ModTime, isdir := e.IsDir }

/-- The method `Client.Readdir`.  The statement `defer r.Body.Close()`
precedes the error check and panics when `Do` failed; a content type other
than `text/html` and `application/json` panics too. -/
def Client.Readdir (dec : Decoders) (t : Transport) (log : List HTTPRequest)
    (path : GoString) : Outcome (Except GoError (List FileStat)) × List HTTPRequest :=
  match Client.Do t log (getRequest path) with
  | (.error _, log1) => (.fault, log1)
  | (.ok r, log1) =>
    if r.status ≠ 200 then (.ret (.error (.fuseErrno (ErrorFromStatus r.status))), log1)
    else
      -- strings.SplitN(r.Header.Get("Content-Type"), ";", 2)[0]
      let ctype := (r.header.Get "Content-Type".toList).takeWhile (fun c => c != ';')
      if ctype = "text/html".toList then
        match r.bodyErr with
        | some err => (.ret (.error err), log1)
        | none =>
          match dec.htmlParse r.body with
          | .error err => (.ret (.error err), log1)
          | .ok doc =>
            match walk doc [] with
            | .fault => (.fault, log1)
            | .ret entries => (.ret (.ok (entries.map entryStat)), log1)
      else if ctype = "application/json".toList then
        match dec.jsonUnmarshal r.body with
        | .error err => (.ret (.error err), log1)
        | .ok entries => (.ret (.ok (entries.map entryStat)), log1)
      else (.fault, log1)

/-- The values of the first `href` attribute of the `a` elements reached
from `n` through children and following siblings, in document order. -/
def hrefsFrom : HtmlNode → List GoString
  | .null => []
  | .node type data attr firstChild nextSibling =>
    (if type = .elementNode ∧ data = "a".toList then
      match attr.find? (fun a => a.1 = "href".toList) with
      | none => []
      | some a => [a.2]
    else []) ++ hrefsFrom firstChild ++ hrefsFrom nextSibling

/-- The entry `walk` makes of a non-empty `href` value: the name is the
decoded value (empty when it cannot be decoded) without trailing slashes,
the directory flag says whether the value as written ends in a slash. -/
def hrefEntry (h : GoString) : Entry :=
  { Name := trimRightSlash ((QueryUnescape h).getD []), IsDir := h.getLast? = some '/' }

/-! ## Client directory and file operations (`fsapi/dir.go`, `fsapi/file.go`) -/

/-- The method `Dir.exists`: whether the stat of `Join(d.path, name)`
succeeds; it panics when `Client.Stat` does. -/
def Dir.exists (fl : FallbackLayouts) (t : Transport) (log : List HTTPRequest) (d : Dir)
    (name : GoString) : Outcome Bool × List HTTPRequest :=
  match Client.Stat fl t log (Join [d.path, name]) with
  | (.fault, log1) => (.fault, log1)
  | (.ret (.error _), log1) => (.ret false, log1)
  | (.ret (.ok _), log1) => (.ret true, log1)

/-- The result of `Dir.Create`: the node (also the handle) or the error, or
the panic raised, the attributes stored in the response, the `HTTPFS`
afterwards and the log of requests sent. -/
structure CreateResult where
  file : Outcome (Except GoError File)
  respAttr : Option Attr
  fs : HTTPFS
  log : List HTTPRequest

/-- The method `Dir.Create` on a request with the name `name`, the mode
`mode` and the open flags `flags`. -/
def Dir.Create (fl : FallbackLayouts) (t : Transport) (log : List HTTPRequest) (fs : HTTPFS)
    (now : Int) (d : Dir) (name : GoString) (mode flags : Nat) : CreateResult :=
  match Dir.exists fl t log d name with
  | (.fault, log1) => { file := .fault, respAttr := none, fs := fs, log := log1 }
  | (.ret true, log1) =>
    { file := .ret (.error (.fuseErrno .EEXIST)), respAttr := none, fs := fs, log := log1 }
  | (.ret false, log1) =>
    let path := Join [d.path, name]
    let (f, fs1) := fs.newFile now path mode
    let handle : Handle := { path := path, flags := flags, perm := mode }
    let f1 : File := { f with created := true, handle := some handle }
    { file := .ret (.ok f1), respAttr := some f1.attr, fs := fs1, log := log1 }

/-- The type assertion `x.(*Dir)` on a node interface value, nil being
`none`: it panics unless the value holds a directory. -/
def assertDir : Option Node → Outcome Dir
  | some (.dir d) => .ret d
  | _ => .fault

/-- The result of `Dir.Link`, `Dir.Symlink`: the node or the error returned,
or the panic raised, the receiver afterwards, and the log of requests sent. -/
structure LinkResult where
  node : Outcome (Except GoError Node)
  dir : Dir
  log : List HTTPRequest

/-- The statements of `Dir.Link` after its first line, `nd` being the
directory the first line obtained. -/
def Dir.linkBody (fl : FallbackLayouts) (t : Transport) (log : List HTTPRequest) (d nd : Dir)
    (newName : GoString) : LinkResult :=
  match Dir.exists fl t log d newName with
  | (.fault, log1) => { node := .fault, dir := d, log := log1 }
  | (.ret false, log1) => { node := .ret (.error (.fuseErrno .ENOENT)), dir := d, log := log1 }
  | (.ret true, log1) =>
    let newPath := Join [nd.path, newName]
    match Client.Link t log1 d.path newPath with
    | (some err, log2) => { node := .ret (.error err), dir := d, log := log2 }
    | (none, log2) => { node := .ret (.ok (.dir nd)), dir := d, log := log2 }

/-- The method `Dir.Link`.  Its first line, `nd := newNode.(*Dir)`, asserts
the type of the named result `newNode`, which is nil when the function
starts; `old` is the node argument. -/
def Dir.Link (fl : FallbackLayouts) (t : Transport) (log : List HTTPRequest) (d : Dir)
    (newName : GoString) (_old : Node) : LinkResult :=
  let newNode : Option Node := none
  match assertDir newNode with
  | .fault => { node := .fault, dir := d, log := log }
  | .ret nd => Dir.linkBody fl t log d nd newName

/-- The method `Dir.Symlink`.  Its first lines are `nd := d` and
`nd.attr.Mode |= os.ModeSymlink`, `nd` and `d` being the same pointer. -/
def Dir.Symlink (fl : FallbackLayouts) (t : Transport) (log : List HTTPRequest) (d : Dir)
    (target newName : GoString) : LinkResult :=
  let d1 : Dir := { d with attr := { d.attr with mode := d.attr.mode ||| ModeSymlink } }
  let nd := d1
  match Dir.exists fl t log d1 newName with
  | (.fault, log1) => { node := .fault, dir := d1, log := log1 }
  | (.ret true, log1) => { node := .ret (.error (.fuseErrno .ENOENT)), dir := d1, log := log1 }
  | (.ret false, log1) =>
    let targetPath := Join [d1.path, target]
    let newPath := Join [nd.path, newName]
    match Client.Symlink t log1 targetPath newPath with
    | (.fault, log2) => { node := .fault, dir := d1, log := log2 }
    | (.ret (some err), log2) => { node := .ret (.error err), dir := d1, log := log2 }
    | (.ret none, log2) => { node := .ret (.ok (.dir nd)), dir := d1, log := log2 }

/-- The method `Dir.Attr`: the cached attributes. -/
def Dir.Attr (d : Dir) : Attr := d.attr

/-- What one call does, in order: taking and releasing the write lock of
the directory with the given inode, and sending a request. -/
inductive Event
  | lock (inode : Nat)
  | unlock (inode : Nat)
  | request (req : HTTPRequest)
  deriving DecidableEq, Repr

/-- The result of `Dir.Rename`: the error returned or the panic raised, the
events of the call in order, and the log of requests sent. -/
structure RenameResult where
  err : Outcome (Option GoError)
  events : List Event
  log : List HTTPRequest

/-- The locking of `Dir.Rename` (and `Dir.Link`, `Dir.Symlink`): the locks
taken, in order, and the deferred unlocks in the order in which they run
when the function returns (last deferred first). -/
def lockPair (d nd : Dir) : List Event × List Event :=
  if d.attr.inode = nd.attr.inode then
    ([.lock d.attr.inode], [.unlock d.attr.inode])
  else if d.attr.inode < nd.attr.inode then
    ([.lock d.attr.inode, .lock nd.attr.inode], [.unlock nd.attr.inode, .unlock d.attr.inode])
  else
    ([.lock nd.attr.inode, .lock d.attr.inode], [.unlock d.attr.inode, .unlock nd.attr.inode])

/-- The method `Dir.Rename`; `newDir` is the node argument, whose type is
asserted first.  When `d.exists` panics the deferred unlocks still run. -/
def Dir.Rename (fl : FallbackLayouts) (t : Transport) (log : List HTTPRequest) (d : Dir)
    (oldName newName : GoString) (newDir : Node) : RenameResult :=
  match assertDir (some newDir) with
  | .fault => { err := .fault, events := [], log := log }
  | .ret nd =>
    let (locks, unlocks) := lockPair d nd
    match Dir.exists fl t log d oldName with
    | (.fault, log1) =>
      { err := .fault,
        events := locks ++ (log1.drop log.length).map Event.request ++ unlocks, log := log1 }
    | (.ret false, log1) =>
      { err := .ret (some (.fuseErrno .ENOENT)),
        events := locks ++ (log1.drop log.length).map Event.request ++ unlocks, log := log1 }
    | (.ret true, log1) =>
      let oldPath := Join [d.path, oldName]
      let newPath := Join [nd.path, newName]
      match Client.Rename t log1 oldPath newPath with
      | (err, log2) =>
        { err := .ret err,
          events := locks ++ (log2.drop log.length).map Event.request ++ unlocks, log := log2 }

/-- The method `File.Open` on a request with the open flags `flags`. -/
def File.Open (f : File) (flags : Nat) : File :=
  { f with handle := some { path := f.path, flags := flags, perm := f.attr.mode } }

/-- The method `Handle.Close`. -/
def Handle.Close (_h : Handle) : Option GoError := none

/-- The method `File.Release`: `return f.handle.Close()`, which dereferences
the handle pointer; the file afterwards is the file before. -/
def File.Release (f : File) : Outcome (Option GoError) × File :=
  match f.handle with
  | none => (.fault, f)
  | some h => (.ret h.Close, f)

/-- The result of `File.Read`: the data of the response, the error returned
and the log of requests sent. -/
structure FileReadResult where
  data : GoString
  err : Option GoError
  log : List HTTPRequest
  deriving DecidableEq, Repr

/-- The method `File.Read` on a request with the offset `offset` and the
size `size`; the response buffer has the capacity `size` and is zeroed. -/
def File.Read (t : Transport) (log : List HTTPRequest) (f : File) (offset : Int)
    (size : Nat) : FileReadResult :=
  match f.handle with
  | none => { data := [], err := some (.fuseErrno .ENOTSUP), log := log }
  | some h =>
    let buf := List.replicate size (Char.ofNat 0)
    let r := h.ReadAt t log buf offset
    match r.err with
    | some err => { data := r.buf, err := some err, log := r.log }
    | none => { data := r.buf.take r.n.toNat, err := none, log := r.log }

/-- The result of `File.Write`: the size stored in the response, the error
returned, the file afterwards and the log of requests sent. -/
structure FileWriteResult where
  size : Int
  err : Option GoError
  file : File
  log : List HTTPRequest
  deriving DecidableEq, Repr

/-- The method `File.Write` on a request with the data `data`, the flags
`fileFlags` and the offset `offset`. -/
def File.Write (t : Transport) (log : List HTTPRequest) (f : File) (data : GoString)
    (fileFlags : Nat) (offset : Int) : Outcome FileWriteResult :=
  match f.handle with
  | none => .ret { size := 0, err := some (.fuseErrno .ENOTSUP), file := f, log := log }
  | some h =>
    match h.WriteAt t log f.created data fileFlags offset with
    | .fault => .fault
    | .ret r =>
      match r.err with
      | some err =>
        .ret { size := 0, err := some err, file := { f with created := r.created }, log := r.log }
      | none =>
        .ret { size := r.n, err := none, file := { f with created := r.created }, log := r.log }

/-! ## Decimal and boolean literals -/

/-- The number a string of decimal digits denotes, of any size. -/
def decimalValue (ds : GoString) : Nat :=
  ds.foldl (fun a c => a * 10 + (c.toNat - 48)) 0

/-- The integer a base-10 integer literal denotes (an optional sign, then
one or more decimal digits), of any size; `none` for any other string. -/
def decimalLiteral (s : GoString) : Option Int :=
  if isDecimalInteger s then
    let digits := if s.head? = some '+' ∨ s.head? = some '-' then s.drop 1 else s
    some (if s.head? = some '-' then -(decimalValue digits : Int) else (decimalValue digits : Int))
  else none

/-- The strict integer parser of `bits` signed bits: the value of a base-10
integer literal that fits, `none` for every other string. -/
def strictParseInt (bits : Nat) (s : GoString) : Option Int :=
  match decimalLiteral s with
  | some n => if -(2 ^ (bits - 1) : Int) ≤ n ∧ n < (2 ^ (bits - 1) : Int) then some n else none
  | none => none

/-- The twelve boolean literals and their values. -/
def boolLiterals : List (GoString × Bool) :=
  [("1".toList, true), ("t".toList, true), ("T".toList, true), ("TRUE".toList, true),
   ("true".toList, true), ("True".toList, true), ("0".toList, false), ("f".toList, false),
   ("F".toList, false), ("FALSE".toList, false), ("false".toList, false),
   ("False".toList, false)]

/-- The strict boolean parser: the value of a boolean literal, `none` for
every other string. -/
def strictParseBool (s : GoString) : Option Bool :=
  (boolLiterals.find? (fun p => p.1 = s)).map (fun p => p.2)

/-! ## Theorems -/

/-! ### Go's `path.Clean` -/

theorem length_dropWhile_le (p : Char → Bool) (l : GoString) :
    (l.dropWhile p).length ≤ l.length := by
  induction l with
  | nil => simp
  | cons c cs ih =>
    rw [List.dropWhile_cons]
    split
    · simp only [List.length_cons]; omega
    · exact Nat.le_refl _

/-- The fuel of `cleanLoop` is never used up: any two amounts of fuel above
the length of the unread input give the same result, so the branch for
exhausted fuel is not reached from `Clean`. -/
theorem cleanLoop_fuel : ∀ (fuel fuel2 : Nat) (rooted : Bool) (path out : GoString)
    (dotdot : Nat), path.length < fuel → path.length < fuel2 →
    cleanLoop fuel rooted path out dotdot = cleanLoop fuel2 rooted path out dotdot := by
  intro fuel
  induction fuel with
  | zero => intro _ _ path _ _ h; omega
  | succ fuel ih =>
    intro fuel2 rooted path out dotdot h1 h2
    cases fuel2 with
    | zero => omega
    | succ fuel2 =>
      cases path with
      | nil => simp [cleanLoop]
      | cons c rest =>
        simp only [List.length_cons] at h1 h2
        have hd1 : ((c :: rest).drop 1).length < fuel ∧ ((c :: rest).drop 1).length < fuel2 := by
          simp only [List.drop_succ_cons, List.drop_zero]; omega
        have hd2 : ((c :: rest).drop 2).length < fuel ∧ ((c :: rest).drop 2).length < fuel2 := by
          simp only [List.drop_succ_cons, List.length_drop]; omega
        unfold cleanLoop
        simp only
        have hdw : ¬ c = '/' →
            ((c :: rest).dropWhile (fun x => x != '/')).length ≤ rest.length := by
          intro hc
          have hne : (c != '/') = true := by simpa using hc
          rw [List.dropWhile_cons, if_pos hne]
          exact length_dropWhile_le _ _
        split_ifs with hc
        all_goals first
          | exact ih _ _ _ _ _ hd1.1 hd1.2
          | exact ih _ _ _ _ _ hd2.1 hd2.2
          | exact ih _ _ _ _ _ (by have := hdw hc; omega) (by have := hdw hc; omega)


/-! ### Decimal numbers -/

theorem digitChar_toNat (d : Nat) (h : d < 10) :
    48 ≤ (digitChar d).toNat ∧ (digitChar d).toNat ≤ 57 ∧ (digitChar d).toNat - 48 = d := by
  interval_cases d <;> decide

theorem parseUintLoop_append (maxVal : Nat) (xs ys : GoString) (a : Nat) :
    parseUintLoop maxVal (xs ++ ys) a =
      match parseUintLoop maxVal xs a with
      | (m, none) => parseUintLoop maxVal ys m
      | e => e := by
  induction xs generalizing a with
  | nil => simp [parseUintLoop]
  | cons c cs ih =>
    simp only [List.cons_append, parseUintLoop]
    split_ifs <;> first | rfl | exact ih _

theorem parseUintLoop_fmtNatAux (maxVal : Nat) (hmax : maxVal < 2 ^ 64) :
    ∀ fuel n, n < fuel → n ≤ maxVal →
      parseUintLoop maxVal (fmtNatAux fuel n) 0 = (n, none) := by
  intro fuel
  induction fuel with
  | zero => intro n h; omega
  | succ fuel ih =>
    intro n hn hle
    unfold fmtNatAux
    by_cases h10 : n < 10
    · obtain ⟨h1, h2, h3⟩ := digitChar_toNat n h10
      simp only [h10, if_true, parseUintLoop, h1, h2, and_self, h3]
      have : ¬ (0 ≥ cutoff64) := by decide
      simp only [this, if_false]
      have hmod : (0 * 10 + n) % 2 ^ 64 = n := by omega
      rw [hmod]
      have : ¬ (n < 0 * 10 ∨ n > maxVal) := by omega
      simp only [this, if_false]
    · obtain ⟨h1, h2, h3⟩ := digitChar_toNat (n % 10) (Nat.mod_lt _ (by decide))
      simp only [h10, if_false]
      rw [parseUintLoop_append, ih (n / 10) (by omega) (by omega)]
      simp only [parseUintLoop, h1, h2, and_self, h3, if_true]
      have hc : ¬ (n / 10 ≥ cutoff64) := by
        have : cutoff64 = 1844674407370955162 := by decide
        omega
      simp only [hc, if_false]
      have hmod : (n / 10 * 10 + n % 10) % 2 ^ 64 = n := by omega
      rw [hmod]
      have : ¬ (n < n / 10 * 10 ∨ n > maxVal) := by omega
      simp only [this, if_false]


theorem fmtNatAux_head :
    ∀ fuel n, n < fuel →
      ∃ c cs, fmtNatAux fuel n = c :: cs ∧ 48 ≤ c.toNat ∧ c.toNat ≤ 57 := by
  intro fuel
  induction fuel with
  | zero => intro n h; omega
  | succ fuel ih =>
    intro n hn
    unfold fmtNatAux
    by_cases h10 : n < 10
    · obtain ⟨h1, h2, _⟩ := digitChar_toNat n h10
      exact ⟨digitChar n, [], by simp [h10], h1, h2⟩
    · obtain ⟨c, cs, hc, h1, h2⟩ := ih (n / 10) (by omega)
      exact ⟨c, cs ++ [digitChar (n % 10)], by simp [h10, hc], h1, h2⟩

theorem ParseUint_fmtNat (bitSize n : Nat) (hb : bitSize ≤ 64) (hn : n < 2 ^ bitSize) :
    ParseUint (fmtNat n) bitSize = (n, none) := by
  obtain ⟨c, cs, hc, _, _⟩ := fmtNatAux_head (n + 1) n (by omega)
  have hpow : 2 ^ bitSize ≤ 2 ^ 64 := Nat.pow_le_pow_right (by decide) hb
  have hpos : 0 < 2 ^ bitSize := Nat.pow_pos (by decide)
  unfold ParseUint fmtNat
  rw [if_neg (by rw [hc]; simp)]
  exact parseUintLoop_fmtNatAux _ (by omega) _ _ (by omega) (by omega)

theorem ParseInt_fmtInt (bitSize : Nat) (i : Int) (hb0 : 1 ≤ bitSize) (hb : bitSize ≤ 64)
    (hlo : -(2 ^ (bitSize - 1) : Int) ≤ i) (hhi : i < (2 ^ (bitSize - 1) : Int)) :
    ParseInt (fmtInt i) bitSize = .ok i := by
  have hpow : 2 ^ bitSize = 2 * 2 ^ (bitSize - 1) := by
    conv_lhs => rw [show bitSize = (bitSize - 1) + 1 by omega]
    rw [Nat.pow_succ]; ring
  have hpos : 0 < 2 ^ (bitSize - 1) := Nat.pow_pos (by decide)
  cases i with
  | ofNat n =>
    have hn : n < 2 ^ (bitSize - 1) := by
      have : ((n : Nat) : Int) < ((2 ^ (bitSize - 1) : Nat) : Int) := by
        push_cast; exact hhi
      exact_mod_cast this
    obtain ⟨c, cs, hc, h1, h2⟩ := fmtNatAux_head (n + 1) n (by omega)
    have hU := ParseUint_fmtNat bitSize n hb (by omega)
    have hne : fmtNat n ≠ [] := by unfold fmtNat; rw [hc]; simp
    have hplus : (fmtNat n).head? ≠ some '+' := by
      unfold fmtNat; rw [hc]; simp; intro h; rw [h] at h1; revert h1; decide
    have hminus : (fmtNat n).head? ≠ some '-' := by
      unfold fmtNat; rw [hc]; simp; intro h; rw [h] at h1; revert h1; decide
    simp only [fmtInt, ParseInt, hne, if_false, hplus, hminus, or_self, hU, decide_False]
    simp
    omega
  | negSucc n =>
    have hn : n + 1 ≤ 2 ^ (bitSize - 1) := by
      have : -((2 ^ (bitSize - 1) : Nat) : Int) ≤ Int.negSucc n := by
        push_cast; exact hlo
      rw [Int.negSucc_eq] at this
      omega
    have hU := ParseUint_fmtNat bitSize (n + 1) hb (by omega)
    simp only [fmtInt, ParseInt]
    simp [hU]
    rw [if_neg (by omega), Int.negSucc_eq]
    congr 1
    omega


theorem parseUintLoop_digits (maxVal : Nat) :
    ∀ (s : GoString) (a m : Nat), parseUintLoop maxVal s a = (m, none) →
      ∀ c ∈ s, 48 ≤ c.toNat ∧ c.toNat ≤ 57 := by
  intro s
  induction s with
  | nil => intro a m _ c hc; simp at hc
  | cons x xs ih =>
    intro a m h c hc
    simp only [parseUintLoop] at h
    split_ifs at h with h1 h2 h3
    · simp at h
    · simp at h
    · rcases List.mem_cons.mp hc with rfl | hmem
      · exact h1
      · exact ih _ _ h c hmem
    · simp at h

theorem parseUintLoop_fmtNatAux_big (maxVal : Nat) (hmax : maxVal < 2 ^ 64) :
    ∀ fuel n, n < fuel → maxVal < n →
      parseUintLoop maxVal (fmtNatAux fuel n) 0 = (maxVal, some .errRange) := by
  intro fuel
  induction fuel with
  | zero => intro n h; omega
  | succ fuel ih =>
    intro n hn hgt
    unfold fmtNatAux
    by_cases h10 : n < 10
    · obtain ⟨h1, h2, h3⟩ := digitChar_toNat n h10
      simp only [h10, if_true, parseUintLoop, h1, h2, and_self, h3]
      have : ¬ (0 ≥ cutoff64) := by decide
      simp only [this, if_false]
      have hmod : (0 * 10 + n) % 2 ^ 64 = n := by omega
      rw [hmod]
      have : (n < 0 * 10 ∨ n > maxVal) := by omega
      simp only [this, if_true]
    · obtain ⟨h1, h2, h3⟩ := digitChar_toNat (n % 10) (Nat.mod_lt _ (by decide))
      simp only [h10, if_false]
      rw [parseUintLoop_append]
      by_cases hq : maxVal < n / 10
      · rw [ih (n / 10) (by omega) hq]
      · rw [parseUintLoop_fmtNatAux maxVal hmax fuel (n / 10) (by omega) (by omega)]
        simp only [parseUintLoop, h1, h2, and_self, h3, if_true]
        have hcut : cutoff64 = 1844674407370955162 := by decide
        by_cases hc : n / 10 ≥ cutoff64
        · simp only [hc, if_true]
        · simp only [hc, if_false]
          have : ((n / 10 * 10 + n % 10) % 2 ^ 64 < n / 10 * 10 ∨
              (n / 10 * 10 + n % 10) % 2 ^ 64 > maxVal) := by
            rw [hcut] at hc
            by_cases hbig : n < 2 ^ 64
            · right; omega
            · left; omega
          simp only [this, if_true]

theorem ParseUint_fmtNat_big (bitSize n : Nat) (hb : bitSize ≤ 64) (hn : 2 ^ bitSize ≤ n) :
    ParseUint (fmtNat n) bitSize = (2 ^ bitSize - 1, some .errRange) := by
  obtain ⟨c, cs, hc, _, _⟩ := fmtNatAux_head (n + 1) n (by omega)
  have hpow : 2 ^ bitSize ≤ 2 ^ 64 := Nat.pow_le_pow_right (by decide) hb
  have hpos : 0 < 2 ^ bitSize := Nat.pow_pos (by decide)
  unfold ParseUint fmtNat
  rw [if_neg (by rw [hc]; simp)]
  exact parseUintLoop_fmtNatAux_big _ (by omega) _ _ (by omega) (by omega)

theorem ParseInt_fmtNat_big (bitSize n : Nat) (hb0 : 1 ≤ bitSize) (hb : bitSize ≤ 64)
    (hn : 2 ^ (bitSize - 1) ≤ n) :
    ParseInt (fmtNat n) bitSize = .error .errRange := by
  have hpow : 2 ^ bitSize = 2 * 2 ^ (bitSize - 1) := by
    conv_lhs => rw [show bitSize = (bitSize - 1) + 1 by omega]
    rw [Nat.pow_succ]; ring
  have hpos : 0 < 2 ^ (bitSize - 1) := Nat.pow_pos (by decide)
  obtain ⟨c, cs, hc, h1, h2⟩ := fmtNatAux_head (n + 1) n (by omega)
  have hne : fmtNat n ≠ [] := by unfold fmtNat; rw [hc]; simp
  have hplus : (fmtNat n).head? ≠ some '+' := by
    unfold fmtNat; rw [hc]; simp; intro h; rw [h] at h1; revert h1; decide
  have hminus : (fmtNat n).head? ≠ some '-' := by
    unfold fmtNat; rw [hc]; simp; intro h; rw [h] at h1; revert h1; decide
  by_cases hlt : n < 2 ^ bitSize
  · have hU := ParseUint_fmtNat bitSize n hb hlt
    simp only [ParseInt, hne, if_false, hplus, hminus, or_self, hU, decide_False]
    simp
    omega
  · have hU := ParseUint_fmtNat_big bitSize n hb (by omega)
    simp only [ParseInt, hne, if_false, hplus, hminus, or_self, hU, decide_False]
    simp
    omega


theorem parseUintLoop_err (maxVal : Nat) :
    ∀ (s : GoString) (a m : Nat) (e : NumErr), parseUintLoop maxVal s a = (m, some e) →
      e = .errSyntax ∨ m = maxVal := by
  intro s
  induction s with
  | nil => intro a m e h; simp [parseUintLoop] at h
  | cons x xs ih =>
    intro a m e h
    simp only [parseUintLoop] at h
    split_ifs at h with h1 h2 h3
    · right; simp at h; exact h.1.symm
    · right; simp at h; exact h.1.symm
    · exact ih _ _ _ h
    · left; simp at h; exact h.2.symm

theorem ParseInt_ok_isDecimalInteger (bitSize : Nat) (hb : 2 ≤ bitSize) (s : GoString) (i : Int)
    (h : ParseInt s bitSize = .ok i) : isDecimalInteger s = true := by
  have hpow : 2 ^ bitSize = 2 * 2 ^ (bitSize - 1) := by
    conv_lhs => rw [show bitSize = (bitSize - 1) + 1 by omega]
    rw [Nat.pow_succ]; ring
  have hpos : 2 ≤ 2 ^ (bitSize - 1) := by
    calc 2 = 2 ^ 1 := rfl
      _ ≤ 2 ^ (bitSize - 1) := Nat.pow_le_pow_right (by decide) (by omega)
  unfold ParseInt at h
  by_cases hs : s = []
  · rw [if_pos hs] at h; simp at h
  rw [if_neg hs] at h
  unfold isDecimalInteger
  simp only at h ⊢
  generalize (if s.head? = some '+' ∨ s.head? = some '-' then s.drop 1 else s) = s1 at h ⊢
  rcases hU : ParseUint s1 bitSize with ⟨un, e⟩
  rw [hU] at h
  unfold ParseUint at hU
  split_ifs at hU with hs1
  · simp at hU; obtain ⟨_, rfl⟩ := hU; simp at h
  · cases e with
    | none =>
      have hd := parseUintLoop_digits _ _ _ _ hU
      simp only [Bool.and_eq_true, decide_eq_true_eq, List.all_eq_true]
      exact ⟨hs1, hd⟩
    | some e =>
      rcases parseUintLoop_err _ _ _ _ _ hU with rfl | rfl
      · simp at h
      · exfalso
        cases e with
        | errSyntax => simp at h
        | errRange =>
          simp only at h
          by_cases hneg : (decide (s.head? = some '-')) = true
          · rw [if_neg (fun hh => hh.1 hneg), if_pos ⟨hneg, by omega⟩] at h
            simp at h
          · rw [if_pos ⟨hneg, by omega⟩] at h
            simp at h

/-! ### The calendar of package `time` -/

theorem cycleYear_spec (d : Nat) (h : d < 146097) :
    (cycleYear d).1 < 400 ∧ cycleDays (cycleYear d).1 + (cycleYear d).2 = d ∧
    ((cycleYear d).2 < 365 ∨ ((cycleYear d).2 = 365 ∧ ((cycleYear d).1 + 1) % 4 = 0 ∧
      (((cycleYear d).1 + 1) % 100 ≠ 0 ∨ (cycleYear d).1 + 1 = 400))) := by
  unfold cycleYear cycleDays
  simp only
  generalize hn100a : d / 36524 = n100a
  have h100a : n100a < 5 := by omega
  generalize hn100 : n100a - n100a / 4 = n100
  have h100 : n100 < 4 ∧ (n100a = n100 ∨ (n100a = 4 ∧ n100 = 3)) := by omega
  generalize hd2 : d - 36524 * n100 = d2
  have hd2b : d2 ≤ 36524 ∧ d = 36524 * n100 + d2 ∧ (n100 < 3 → d2 < 36524) := by omega
  generalize hn4 : d2 / 1461 = n4
  have h4 : n4 < 25 := by omega
  generalize hd3 : d2 - 1461 * n4 = d3
  have hd3b : d3 ≤ 1460 ∧ d2 = 1461 * n4 + d3 ∧ (n4 = 24 → d2 < 36524 → d3 < 1460) := by omega
  generalize hn1a : d3 / 365 = n1a
  have h1a : n1a < 5 := by omega
  generalize hn1 : n1a - n1a / 4 = n1
  have h1 : n1 < 4 ∧ (n1a = n1 ∨ (n1a = 4 ∧ n1 = 3)) := by omega
  have e1 : (100 * n100 + 4 * n4 + n1) / 100 = n100 := by omega
  rw [e1]
  have e2 : 100 * n100 + 4 * n4 + n1 - 100 * n100 = 4 * n4 + n1 := by omega
  rw [e2]
  have e3 : (4 * n4 + n1) / 4 = n4 := by omega
  rw [e3]
  have e4 : 4 * n4 + n1 - 4 * n4 = n1 := by omega
  rw [e4]
  refine ⟨by omega, by omega, ?_⟩
  omega

theorem yearDay_spec (days : Int) :
    daysSinceEpoch (yearDay days).1 + ((yearDay days).2 : Int) = days + 719162 ∧
    ((yearDay days).2 < 365 ∨ ((yearDay days).2 = 365 ∧ isLeap (yearDay days).1 = true)) := by
  unfold yearDay daysSinceEpoch isLeap
  simp only [decide_eq_true_eq]
  generalize days + 719162 = d0
  have hm0 : 0 ≤ d0 % 146097 := Int.emod_nonneg _ (by decide)
  have hm1 : d0 % 146097 < 146097 := Int.emod_lt_of_pos _ (by decide)
  have hdiv : 146097 * (d0 / 146097) + d0 % 146097 = d0 := Int.ediv_add_emod d0 146097
  have hnat : ((d0 % 146097).toNat : Int) = d0 % 146097 := Int.toNat_of_nonneg hm0
  obtain ⟨hk, hsum, hleap⟩ := cycleYear_spec (d0 % 146097).toNat (by omega)
  generalize (cycleYear (d0 % 146097).toNat).1 = k at hk hsum hleap ⊢
  generalize (cycleYear (d0 % 146097).toNat).2 = yday at hsum hleap ⊢
  have hK : (400 * (d0 / 146097) + (k : Int) + 1 - 1) / 400 = d0 / 146097 := by omega
  have hK2 : ((400 * (d0 / 146097) + (k : Int) + 1 - 1) % 400).toNat = k := by omega
  rw [hK, hK2]
  constructor
  · omega
  · omega

set_option maxRecDepth 100000 in
theorem monthOfDay_spec : ∀ day < 365,
    1 ≤ (monthOfDay day).1 ∧ (monthOfDay day).1 ≤ 12 ∧ 1 ≤ (monthOfDay day).2 ∧
    (monthOfDay day).2 ≤
      daysBefore.getD (monthOfDay day).1 0 - daysBefore.getD ((monthOfDay day).1 - 1) 0 ∧
    daysBefore.getD ((monthOfDay day).1 - 1) 0 + ((monthOfDay day).2 - 1) = day ∧
    (day < 59 ↔ (monthOfDay day).1 ≤ 2) := by
  decide

theorem monthDay_spec (year : Int) (yday : Nat)
    (h : yday < 365 ∨ (yday = 365 ∧ isLeap year = true)) :
    1 ≤ (monthDay year yday).1 ∧ (monthDay year yday).1 ≤ 12 ∧
    1 ≤ (monthDay year yday).2 ∧ (monthDay year yday).2 ≤ daysIn (monthDay year yday).1 year ∧
    ((daysBefore.getD ((monthDay year yday).1 - 1) 0 : Nat) : Int) +
      (if isLeap year = true ∧ (monthDay year yday).1 ≥ 3 then 1 else 0) +
      (((monthDay year yday).2 - 1 : Nat) : Int) = yday := by
  unfold monthDay daysIn
  cases hL : isLeap year
  · have hy : yday < 365 := by
      rcases h with h | ⟨_, h⟩
      · exact h
      · rw [hL] at h; simp at h
    simp only [Bool.false_eq_true, false_and, if_false, and_false]
    obtain ⟨h1, h2, h3, h4, h5, h6⟩ := monthOfDay_spec yday hy
    refine ⟨h1, h2, h3, h4, ?_⟩
    omega
  · have hy : yday ≤ 365 := by omega
    simp only [true_and, and_true]
    by_cases h59 : yday = 31 + 29 - 1
    · subst h59; simp [daysBefore]
    · rw [if_neg h59]
      by_cases hgt : yday > 31 + 29 - 1
      · rw [if_pos hgt]
        obtain ⟨h1, h2, h3, h4, h5, h6⟩ := monthOfDay_spec (yday - 1) (by omega)
        have hm : ¬ ((monthOfDay (yday - 1)).1 ≤ 2) := fun hh => by
          have := h6.mpr hh; omega
        have hm3 : (monthOfDay (yday - 1)).1 ≥ 3 := by omega
        have hm2 : ¬ ((monthOfDay (yday - 1)).1 = 2) := by omega
        rw [if_neg hm2, if_pos hm3]
        refine ⟨h1, h2, h3, h4, ?_⟩
        omega
      · rw [if_neg hgt]
        obtain ⟨h1, h2, h3, h4, h5, h6⟩ := monthOfDay_spec yday (by omega)
        have hm : (monthOfDay yday).1 ≤ 2 := h6.mp (by omega)
        have hm3 : ¬ ((monthOfDay yday).1 ≥ 3) := by omega
        rw [if_neg hm3]
        refine ⟨h1, h2, h3, ?_, by omega⟩
        split_ifs with hm2
        · rw [hm2] at h4; simp [daysBefore] at h4; omega
        · exact h4

/-! ### Formatting and parsing of times -/

theorem fmtNatAux_fuel : ∀ (fuel fuel2 n : Nat), n < fuel → n < fuel2 →
    fmtNatAux fuel n = fmtNatAux fuel2 n := by
  intro fuel
  induction fuel with
  | zero => intro _ n h; omega
  | succ fuel ih =>
    intro fuel2 n h1 h2
    cases fuel2 with
    | zero => omega
    | succ fuel2 =>
      unfold fmtNatAux
      by_cases h10 : n < 10
      · simp [h10]
      · simp only [h10, if_false]
        rw [ih fuel2 (n / 10) (by omega) (by omega)]

theorem fmtNat_lt_ten (n : Nat) (h : n < 10) : fmtNat n = [digitChar n] := by
  unfold fmtNat fmtNatAux
  simp [h]

theorem fmtNat_ge_ten (n : Nat) (h : 10 ≤ n) :
    fmtNat n = fmtNat (n / 10) ++ [digitChar (n % 10)] := by
  unfold fmtNat
  conv_lhs => unfold fmtNatAux
  rw [if_neg (by omega), fmtNatAux_fuel n (n / 10 + 1) (n / 10) (by omega) (by omega)]

theorem appendInt_two (n : Nat) (h : n < 100) :
    appendInt (n : Int) 2 = [digitChar (n / 10), digitChar (n % 10)] := by
  unfold appendInt
  have hneg : ¬ ((n : Int) < 0) := by omega
  simp only [hneg, if_false, Int.natAbs_ofNat, List.nil_append]
  by_cases h10 : n < 10
  · rw [fmtNat_lt_ten n h10]
    have e1 : n / 10 = 0 := by omega
    have e2 : n % 10 = n := by omega
    rw [e1, e2]; rfl
  · rw [fmtNat_ge_ten n (by omega), fmtNat_lt_ten (n / 10) (by omega)]
    rfl

theorem appendInt_four (n : Nat) (h : n < 10000) :
    appendInt (n : Int) 4 =
      [digitChar (n / 1000), digitChar (n / 100 % 10), digitChar (n / 10 % 10),
        digitChar (n % 10)] := by
  unfold appendInt
  have hneg : ¬ ((n : Int) < 0) := by omega
  simp only [hneg, if_false, Int.natAbs_ofNat, List.nil_append]
  by_cases h10 : n < 10
  · rw [fmtNat_lt_ten n h10]
    have e1 : n / 1000 = 0 := by omega
    have e2 : n / 100 % 10 = 0 := by omega
    have e3 : n / 10 % 10 = 0 := by omega
    have e4 : n % 10 = n := by omega
    rw [e1, e2, e3, e4]; rfl
  · rw [fmtNat_ge_ten n (by omega)]
    by_cases h100 : n < 100
    · rw [fmtNat_lt_ten (n / 10) (by omega)]
      have e1 : n / 1000 = 0 := by omega
      have e2 : n / 100 % 10 = 0 := by omega
      have e3 : n / 10 % 10 = n / 10 := by omega
      rw [e1, e2, e3]; rfl
    · rw [fmtNat_ge_ten (n / 10) (by omega)]
      by_cases h1000 : n < 1000
      · rw [fmtNat_lt_ten (n / 10 / 10) (by omega)]
        have e1 : n / 1000 = 0 := by omega
        have e2 : n / 100 % 10 = n / 10 / 10 := by omega
        rw [e1, e2]; rfl
      · rw [fmtNat_ge_ten (n / 10 / 10) (by omega),
          fmtNat_lt_ten (n / 10 / 10 / 10) (by omega)]
        have e1 : n / 1000 = n / 10 / 10 / 10 := by omega
        have e2 : n / 100 % 10 = n / 10 / 10 % 10 := by omega
        rw [e1, e2]; rfl

theorem isDigit_digitChar (d : Nat) (h : d < 10) : isDigit (digitChar d) = true := by
  interval_cases d <;> decide

theorem getnum_two (a b : Nat) (ha : a < 10) (hb : b < 10) (rest : GoString) (fixed : Bool) :
    getnum (digitChar a :: digitChar b :: rest) fixed = some (a * 10 + b, rest) := by
  obtain ⟨_, _, ea⟩ := digitChar_toNat a ha
  obtain ⟨_, _, eb⟩ := digitChar_toNat b hb
  simp [getnum, isDigit_digitChar a ha, isDigit_digitChar b hb, ea, eb]

theorem getYear4_four (a b c d : Nat) (ha : a < 10) (hb : b < 10) (hc : c < 10) (hd : d < 10)
    (rest : GoString) :
    getYear4 (digitChar a :: digitChar b :: digitChar c :: digitChar d :: rest) =
      some (((a * 1000 + b * 100 + c * 10 + d : Nat) : Int), rest) := by
  obtain ⟨_, _, ea⟩ := digitChar_toNat a ha
  obtain ⟨_, _, eb⟩ := digitChar_toNat b hb
  obtain ⟨_, _, ec⟩ := digitChar_toNat c hc
  obtain ⟨_, _, ed⟩ := digitChar_toNat d hd
  simp [getYear4, isDigit_digitChar a ha, isDigit_digitChar b hb, isDigit_digitChar c hc,
    isDigit_digitChar d hd, ea, eb, ec, ed]
  ring


theorem lookupFrom_three (tab : List GoString) (htab : ∀ v ∈ tab, v.length = 3)
    (i : Nat) (c1 c2 c3 : Char) (rest : GoString) :
    lookupFrom i tab (c1 :: c2 :: c3 :: rest) =
      (lookupFrom i tab [c1, c2, c3]).map (fun p => (p.1, rest)) := by
  induction tab generalizing i with
  | nil => rfl
  | cons v tab ih =>
    have hv : v.length = 3 := htab v (List.mem_cons_self _ _)
    have ht : ∀ u ∈ tab, u.length = 3 := fun u hu => htab u (List.mem_cons_of_mem _ hu)
    unfold lookupFrom
    simp only [hv, List.length_cons, List.length_nil, List.take_succ_cons, List.take_zero,
      List.drop_succ_cons, List.drop_zero]
    by_cases hm : matchFold [c1, c2, c3] v = true
    · simp [hm]
    · simp only [hm, and_false, if_false, Bool.false_eq_true]
      exact ih ht (i + 1)

theorem lookup_append (tab : List GoString) (htab : ∀ v ∈ tab, v.length = 3)
    (v rest : GoString) (hv : v.length = 3) :
    lookup tab (v ++ rest) = (lookup tab v).map (fun p => (p.1, rest)) := by
  match v, hv with
  | [c1, c2, c3], _ =>
    unfold lookup
    exact lookupFrom_three tab htab 0 c1 c2 c3 rest

theorem shortDayNames_facts :
    (∀ v ∈ shortDayNames, v.length = 3) ∧
    ∀ wd < 7, (shortDayNames.getD wd []).length = 3 ∧
      lookup shortDayNames (shortDayNames.getD wd []) = some (wd, []) := by
  decide

theorem shortMonthNames_facts :
    (∀ v ∈ shortMonthNames, v.length = 3) ∧
    ∀ i < 12, (shortMonthNames.getD i []).length = 3 ∧
      (shortMonthNames.getD i []).head? ≠ some ' ' ∧
      lookup shortMonthNames (shortMonthNames.getD i []) = some (i, []) := by
  decide

theorem cutspace_of_head (x : GoString) (h : x.head? ≠ some ' ') : cutspace x = x := by
  cases x with
  | nil => rfl
  | cons c cs =>
    have hc : c ≠ ' ' := fun e => h (by simp [e])
    simp [cutspace, List.dropWhile, hc]

theorem cutspace_space (x : GoString) (h : x.head? ≠ some ' ') : cutspace (' ' :: x) = x := by
  have : cutspace (' ' :: x) = cutspace x := by
    unfold cutspace
    rw [List.dropWhile_cons_of_pos (by decide)]
  rw [this, cutspace_of_head x h]

theorem skip_space (x : GoString) (h : x.head? ≠ some ' ') :
    skip (' ' :: x) " ".toList = some x := by
  have e : " ".toList = [' '] := rfl
  have hc : ¬ (' ' :: x ≠ [] ∧ (' ' :: x).head? ≠ some ' ') := by simp
  rw [e]
  unfold skip skipAux
  rw [if_pos rfl, if_neg (by decide), if_neg hc]
  unfold skipAux
  rw [cutspace_space x h]

theorem skip_comma_space (x : GoString) (h : x.head? ≠ some ' ') :
    skip (',' :: ' ' :: x) ", ".toList = some x := by
  have e : ", ".toList = [',', ' '] := rfl
  have hc : ¬ (' ' :: x ≠ [] ∧ (' ' :: x).head? ≠ some ' ') := by simp
  rw [e]
  unfold skip skipAux
  rw [if_neg (by decide)]
  simp only [if_true]
  unfold skipAux
  rw [if_pos rfl, if_neg (by decide), if_neg hc]
  unfold skipAux
  rw [cutspace_space x h]

theorem skip_colon (x : GoString) : skip (':' :: x) ":".toList = some x := by
  have : ":".toList = [':'] := rfl
  rw [this]
  simp [skip, skipAux]

theorem digitChar_ne_space (d : Nat) (rest : GoString) :
    (digitChar d :: rest).head? ≠ some ' ' := by
  unfold digitChar
  split <;> simp


theorem parseClock_fmt (hh mm ss : Nat) (h1 : hh < 24) (h2 : mm < 60) (h3 : ss < 60) :
    parseClock (appendInt (hh : Int) 2 ++ (':' :: (appendInt (mm : Int) 2 ++
        (':' :: (appendInt (ss : Int) 2 ++ " GMT".toList))))) =
      some (hh * 3600 + mm * 60 + ss, " GMT".toList) := by
  rw [appendInt_two hh (by omega), appendInt_two mm (by omega), appendInt_two ss (by omega)]
  have eh : hh / 10 * 10 + hh % 10 = hh := by omega
  have em : mm / 10 * 10 + mm % 10 = mm := by omega
  have es : ss / 10 * 10 + ss % 10 = ss := by omega
  have hh24 : ¬ (24 ≤ hh) := by omega
  have mm60 : ¬ (60 ≤ mm) := by omega
  have ss60 : ¬ (60 ≤ ss) := by omega
  have hfrac : skipFraction " GMT".toList = " GMT".toList := by decide
  unfold parseClock
  simp only [List.cons_append, List.nil_append]
  rw [getnum_two (hh / 10) (hh % 10) (by omega) (by omega)]
  simp only [Option.bind, eh, hh24, if_false, skip_colon]
  rw [getnum_two (mm / 10) (mm % 10) (by omega) (by omega)]
  simp only [em, mm60, if_false, skip_colon]
  rw [getnum_two (ss / 10) (ss % 10) (by omega) (by omega)]
  simp only [es, ss60, if_false, hfrac]

theorem parseDayMonthYear_fmt (d m yn : Nat) (rest : GoString) (hd : d < 100)
    (hm1 : 1 ≤ m) (hm2 : m ≤ 12) (hy : yn < 10000) :
    parseDayMonthYear (appendInt (d : Int) 2 ++ (' ' :: (shortMonthNames.getD (m - 1) [] ++
        (' ' :: (appendInt (yn : Int) 4 ++ rest))))) = some ((d, m, (yn : Int)), rest) := by
  rw [appendInt_two d hd, appendInt_four yn hy]
  obtain ⟨hlen, hi⟩ := shortMonthNames_facts
  obtain ⟨hl3, hsp, hlook⟩ := hi (m - 1) (by omega)
  have ed : d / 10 * 10 + d % 10 = d := by omega
  have ey : yn / 1000 * 1000 + yn / 100 % 10 * 100 + yn / 10 % 10 * 10 + yn % 10 = yn := by
    omega
  have hhead : (shortMonthNames.getD (m - 1) [] ++
      (' ' :: ([digitChar (yn / 1000), digitChar (yn / 100 % 10), digitChar (yn / 10 % 10),
        digitChar (yn % 10)] ++ rest))).head? ≠ some ' ' := by
    match hv : shortMonthNames.getD (m - 1) [], hl3 with
    | [c1, c2, c3], _ =>
      rw [hv] at hsp
      simpa using hsp
  have em : m - 1 + 1 = m := by omega
  unfold parseDayMonthYear
  simp only [List.cons_append, List.nil_append] at hhead ⊢
  rw [getnum_two (d / 10) (d % 10) (by omega) (by omega)]
  simp only [Option.bind, ed]
  rw [skip_space _ hhead]
  simp only
  rw [lookup_append shortMonthNames hlen _ _ hl3, hlook]
  simp only [Option.map, List.cons_append, List.nil_append]
  rw [skip_space _ (digitChar_ne_space _ _)]
  simp only
  rw [getYear4_four _ _ _ _ (by omega) (by omega) (by omega) (by omega), ey, em]


theorem cycleDays_eq (k : Nat) (h : k < 400) : cycleDays k = 365 * k + k / 4 - k / 100 := by
  unfold cycleDays
  simp only
  omega

theorem year_range (days : Int) (hlo : -719528 ≤ days) (hhi : days ≤ 2932896) :
    0 ≤ (yearDay days).1 ∧ (yearDay days).1 ≤ 9999 := by
  obtain ⟨hsum, hl⟩ := yearDay_spec days
  generalize (yearDay days).1 = year at hsum hl ⊢
  generalize (yearDay days).2 = yday at hsum hl
  unfold daysSinceEpoch at hsum
  unfold isLeap at hl
  simp only [decide_eq_true_eq] at hsum hl
  have hk0 : 0 ≤ (year - 1) % 400 := Int.emod_nonneg _ (by decide)
  have hk1 : (year - 1) % 400 < 400 := Int.emod_lt_of_pos _ (by decide)
  have hk : ((year - 1) % 400).toNat < 400 := by omega
  rw [cycleDays_eq _ hk] at hsum
  have hdivy : 400 * ((year - 1) / 400) + (year - 1) % 400 = year - 1 :=
    Int.ediv_add_emod (year - 1) 400
  obtain ⟨k, hkk⟩ : ∃ k : Nat, (year - 1) % 400 = (k : Int) :=
    ⟨((year - 1) % 400).toNat, by omega⟩
  rw [hkk] at hsum hdivy hk0 hk1 hk
  simp only [Int.toNat_ofNat] at hsum hk
  generalize (year - 1) / 400 = q at hsum hdivy
  have hS : k / 4 - k / 100 ≤ 96 := by omega
  have hS2 : k / 100 ≤ k / 4 := by omega
  constructor
  · by_contra hneg
    have hq : q ≤ -1 := by omega
    rcases hl with hl | ⟨hl, hl4, _⟩
    · by_cases hq1 : q = -1
      · subst hq1
        by_cases hk398 : k = 398
        · subst hk398; omega
        · have : k ≤ 397 := by omega
          omega
      · have : q ≤ -2 := by omega
        omega
    · by_cases hq1 : q = -1
      · subst hq1
        have : k ≤ 397 := by omega
        omega
      · have : q ≤ -2 := by omega
        omega
  · by_contra hneg
    have hq : 24 ≤ q := by omega
    by_cases hq24 : q = 24
    · subst hq24
      have : k = 399 := by omega
      subst this
      omega
    · have : 25 ≤ q := by omega
      omega

theorem civilFromDays_eq (days : Int) :
    civilFromDays days =
      ((yearDay days).1, (monthDay (yearDay days).1 (yearDay days).2).1,
        (monthDay (yearDay days).1 (yearDay days).2).2) := rfl

theorem daysIn_le (m : Nat) (year : Int) (h1 : 1 ≤ m) (h2 : m ≤ 12) : daysIn m year ≤ 31 := by
  unfold daysIn
  split_ifs
  · omega
  · interval_cases m <;> decide

theorem civil_roundtrip (days : Int) :
    daysFromCivil (civilFromDays days).1 (civilFromDays days).2.1 (civilFromDays days).2.2 = days ∧
    1 ≤ (civilFromDays days).2.1 ∧ (civilFromDays days).2.1 ≤ 12 ∧
    1 ≤ (civilFromDays days).2.2 ∧
    (civilFromDays days).2.2 ≤ daysIn (civilFromDays days).2.1 (civilFromDays days).1 := by
  rw [civilFromDays_eq]
  simp only
  obtain ⟨hsum, hl⟩ := yearDay_spec days
  obtain ⟨h1, h2, h3, h4, h5⟩ := monthDay_spec (yearDay days).1 (yearDay days).2 hl
  refine ⟨?_, h1, h2, h3, h4⟩
  unfold daysFromCivil
  omega

theorem formatHTTPTime_eq (t : Int) :
    formatHTTPTime t =
      shortDayNames.getD ((t / 86400 + 4) % 7).toNat [] ++ (',' :: ' ' ::
        (appendInt ((civilFromDays (t / 86400)).2.2 : Nat) 2 ++ (' ' ::
        (shortMonthNames.getD ((civilFromDays (t / 86400)).2.1 - 1) [] ++ (' ' ::
        (appendInt (civilFromDays (t / 86400)).1 4 ++ (' ' ::
        (appendInt (((t % 86400).toNat / 3600 : Nat) : Int) 2 ++ (':' ::
        (appendInt (((t % 86400).toNat / 60 % 60 : Nat) : Int) 2 ++ (':' ::
        (appendInt (((t % 86400).toNat % 60 : Nat) : Int) 2 ++ " GMT".toList)))))))))))) := by
  unfold formatHTTPTime
  simp only [List.append_assoc]
  rfl

/-- The round trip of a time through `Format(http.TimeFormat)` and
`time.Parse(http.TimeFormat, ...)` for the years 0000 to 9999. -/
theorem parseTimeFormat_formatHTTPTime (t : Int) (hlo : -62167219200 ≤ t)
    (hhi : t ≤ 253402300799) : parseTimeFormat (formatHTTPTime t) = some t := by
  rw [formatHTTPTime_eq]
  have hs0 : 0 ≤ t % 86400 := Int.emod_nonneg _ (by decide)
  have hs1 : t % 86400 < 86400 := Int.emod_lt_of_pos _ (by decide)
  have hdiv : 86400 * (t / 86400) + t % 86400 = t := Int.ediv_add_emod t 86400
  obtain ⟨hy0, hy1⟩ := year_range (t / 86400) (by omega) (by omega)
  obtain ⟨hrt, hm1, hm2, hd1, hd2⟩ := civil_roundtrip (t / 86400)
  have hyeq : (civilFromDays (t / 86400)).1 = (yearDay (t / 86400)).1 := by
    rw [civilFromDays_eq]
  rw [← hyeq] at hy0 hy1
  generalize civilFromDays (t / 86400) = c at hy0 hy1 hrt hm1 hm2 hd1 hd2 ⊢
  obtain ⟨y, m, d⟩ := c
  simp only at hy0 hy1 hrt hm1 hm2 hd1 hd2 ⊢
  obtain ⟨yn, rfl⟩ : ∃ yn : Nat, y = (yn : Int) := ⟨y.toNat, by omega⟩
  have hyn : yn < 10000 := by omega
  have hd31 := daysIn_le m (yn : Int) hm1 hm2
  have hd100 : d < 100 := by omega
  generalize hsecs : (t % 86400).toNat = secs
  have hsecs1 : secs < 86400 := by omega
  have hwd : ((t / 86400 + 4) % 7).toNat < 7 := by
    have := Int.emod_lt_of_pos (t / 86400 + 4) (show (0 : Int) < 7 by decide)
    have := Int.emod_nonneg (t / 86400 + 4) (show (7 : Int) ≠ 0 by decide)
    omega
  obtain ⟨hdlen, hdi⟩ := shortDayNames_facts
  obtain ⟨hdl3, hdlook⟩ := hdi _ hwd
  have hgmt : skip " GMT".toList " GMT".toList = some [] := by decide
  have hh1 : (appendInt (d : Int) 2 ++ (' ' :: (shortMonthNames.getD (m - 1) [] ++ (' ' ::
      (appendInt (yn : Int) 4 ++ (' ' :: (appendInt ((secs / 3600 : Nat) : Int) 2 ++ (':' ::
      (appendInt ((secs / 60 % 60 : Nat) : Int) 2 ++ (':' ::
      (appendInt ((secs % 60 : Nat) : Int) 2 ++ " GMT".toList))))))))))).head? ≠ some ' ' := by
    rw [appendInt_two d hd100]
    exact digitChar_ne_space _ _
  have hh2 : (appendInt ((secs / 3600 : Nat) : Int) 2 ++ (':' ::
      (appendInt ((secs / 60 % 60 : Nat) : Int) 2 ++ (':' ::
      (appendInt ((secs % 60 : Nat) : Int) 2 ++ " GMT".toList))))).head? ≠ some ' ' := by
    rw [appendInt_two (secs / 3600) (by omega)]
    exact digitChar_ne_space _ _
  have hday : ¬ (d < 1 ∨ d > daysIn m (yn : Int)) := by omega
  unfold parseTimeFormat
  rw [lookup_append shortDayNames hdlen _ _ hdl3, hdlook]
  simp only [Option.map, Option.bind]
  rw [skip_comma_space _ hh1]
  simp only
  rw [parseDayMonthYear_fmt d m yn _ hd100 hm1 hm2 hyn]
  simp only
  rw [skip_space _ hh2]
  simp only
  rw [parseClock_fmt _ _ _ (by omega) (by omega) (by omega)]
  simp only [hgmt]
  rw [if_neg (by simp), if_neg hday, hrt]
  congr 1
  omega

/-! ### Server: local paths -/

/-- C1 (failing input): with root `/srv/root`, the request
`RENAME /a?name=../x` makes the dispatcher call `os.Rename` with the target
`/srv/x`, and `LINK /a?name=../x&soft=1` makes it call `os.Symlink` with the
same target, which is neither the cleaned root nor below it. -/
theorem rename_target_escapes_root :
    (handleRENAME "/srv/root".toList
        { urlPath := "/a".toList, query := [("name".toList, "../x".toList)] } none {}).1
      = [Syscall.rename "/srv/root/a".toList "/srv/x".toList] ∧
    (handleLINK "/srv/root".toList
        { urlPath := "/a".toList,
          query := [("name".toList, "../x".toList), ("soft".toList, "1".toList)] } none {}).1
      = [Syscall.symlink "/srv/root/a".toList "/srv/x".toList] ∧
    insideRoot "/srv/root".toList (localPath "/srv/root".toList "/a".toList) ∧
    ¬ insideRoot "/srv/root".toList (toPath "/srv/root".toList "../x".toList) := by
  decide

/-! ### Server: error translation -/

/-- C6: `toHTTPError` is total and returns 403 for a permission error, else
404 for a not-exist error, else 409 for an already-exists error, else 500;
its status is always one of 403, 404, 409, 500. -/
theorem toHTTPError_status (err : GoError) :
    (toHTTPError err).2 =
        (if osIsPermission err then 403
         else if osIsNotExist err then 404
         else if osIsExist err then 409
         else 500) ∧
    (toHTTPError err).2 ∈ [403, 404, 409, 500] := by
  unfold toHTTPError
  cases osIsPermission err <;> cases osIsNotExist err <;> cases osIsExist err <;> simp


/-! ### Server: the response to `PUT` -/

/-- The response of the not-equal branch of `PUT`: the decimal count is
written first, which sends status 200, so the later `http.Error(w, ..., 206)`
cannot change the status any more and only appends its message. -/
theorem handlePUT_partial_branch (dir : GoString) (r : Request) (fs : PutOutcome)
    (hopen : fs.openErr = none) (hcopy : fs.copyErr = none)
    (hne : ¬ (utils.SafeParseInt64 (r.header.Get "Content-Length".toList) 0 ≠ 0 ∧
        fs.copyN = utils.SafeParseInt64 (r.header.Get "Content-Length".toList) 0)) :
    (handlePUT dir r fs {}).2.finalStatus = 200 ∧
    (handlePUT dir r fs {}).2.body = fmtInt fs.copyN ++ "Partial Content\n".toList := by
  simp only [handlePUT, hopen, hcopy]
  rw [if_neg hne]
  simp [httpError, ResponseWriter.Write, ResponseWriter.WriteHeader,
    ResponseWriter.finalStatus]


/-- The response of the equal branch of `PUT`: when the declared length is
not 0 and all of it was copied, the handler returns without writing, which
gives status 200 and an empty body. -/
theorem handlePUT_complete_branch (dir : GoString) (r : Request) (fs : PutOutcome)
    (hopen : fs.openErr = none) (hcopy : fs.copyErr = none)
    (heq : utils.SafeParseInt64 (r.header.Get "Content-Length".toList) 0 ≠ 0 ∧
        fs.copyN = utils.SafeParseInt64 (r.header.Get "Content-Length".toList) 0) :
    (handlePUT dir r fs {}).2.finalStatus = 200 ∧ (handlePUT dir r fs {}).2.body = [] := by
  simp only [handlePUT, hopen, hcopy]
  rw [if_pos heq]
  exact ⟨rfl, rfl⟩

/-- A negative offset is negated as an `int64`: the offset -2^63 stays
-2^63, and the handler seeks to it from the end of the file. -/
theorem handlePUT_seek_least_offset :
    (handlePUT "/srv".toList
        (Request.mk "/f".toList [("offset".toList, "-9223372036854775808".toList)]
          [("Content-Length".toList, "5".toList)])
        (PutOutcome.mk none 5 none) {}).1 =
      [Syscall.openFile "/srv/f".toList defaultPutFlags 0o666,
       Syscall.seek (-9223372036854775808) 2, Syscall.copy] := by
  decide

/-- C2: a `PUT` that declares `Content-Length: 5` and of which 3 bytes are
copied is answered with status 200 and the body `3Partial Content` and a
newline, not with status 206 and the body `3`: the count is written before
`http.Error(w, ..., 206)`, so the status 200 has gone out already and the
message of `http.Error` is appended to the count.  The same reply, with the
count 0, answers an empty `PUT` with `Content-Length: 0`, where n = cl.  A
5-byte body with `Content-Length: 5` is answered with 200 and an empty
body. -/
theorem put_partial_reply_is_200 :
    (handlePUT "/srv".toList
        (Request.mk "/f".toList [] [("Content-Length".toList, "5".toList)])
        (PutOutcome.mk none 3 none) {}).2.finalStatus = 200 ∧
    (handlePUT "/srv".toList
        (Request.mk "/f".toList [] [("Content-Length".toList, "5".toList)])
        (PutOutcome.mk none 3 none) {}).2.body = "3Partial Content\n".toList ∧
    (handlePUT "/srv".toList
        (Request.mk "/f".toList [] [("Content-Length".toList, "0".toList)])
        (PutOutcome.mk none 0 none) {}).2.finalStatus = 200 ∧
    (handlePUT "/srv".toList
        (Request.mk "/f".toList [] [("Content-Length".toList, "0".toList)])
        (PutOutcome.mk none 0 none) {}).2.body = "0Partial Content\n".toList ∧
    (handlePUT "/srv".toList
        (Request.mk "/f".toList [] [("Content-Length".toList, "5".toList)])
        (PutOutcome.mk none 5 none) {}).2.finalStatus = 200 ∧
    (handlePUT "/srv".toList
        (Request.mk "/f".toList [] [("Content-Length".toList, "5".toList)])
        (PutOutcome.mk none 5 none) {}).2.body = [] := by
  decide

/-! ### Client: status translation -/

/-- C5 (counterexample): status 400 is translated to `EIO`, not `EINVAL`,
and status 405 to `EIO`, not `ENOSYS`. -/
theorem errorFromStatus_400_405 :
    ErrorFromStatus 400 = Errno.EIO ∧ ErrorFromStatus 400 ≠ Errno.EINVAL ∧
    ErrorFromStatus 405 = Errno.EIO ∧ ErrorFromStatus 405 ≠ Errno.ENOSYS := by
  decide

/-- C5 (amended): `ErrorFromStatus` maps 403 to `EPERM`, 404 to `ENOENT` and
every other code, 400 and 405 included, to `EIO`. -/
theorem errorFromStatus_table (code : Nat) :
    ErrorFromStatus code =
      (if code = 403 then Errno.EPERM else if code = 404 then Errno.ENOENT else Errno.EIO) := by
  unfold ErrorFromStatus
  split <;> simp_all

/-! ### Client: `Handle.ReadAt` and `Handle.WriteAt` -/

/-- C3 (failing input): a 4-byte buffer and a 206 response with the 2-byte
body `ab`: two bytes are copied into the buffer, yet `ReadAt` returns the
count 4, the length of the buffer. -/
theorem readAt_short_body_returns_buffer_length :
    (Handle.ReadAt (fun _ _ => .ok { status := 206, body := "ab".toList }) []
        (Handle.mk "/f".toList 0 420) "wxyz".toList 0).buf = "abyz".toList ∧
    (Handle.ReadAt (fun _ _ => .ok { status := 206, body := "ab".toList }) []
        (Handle.mk "/f".toList 0 420) "wxyz".toList 0).n = 4 ∧
    (Handle.ReadAt (fun _ _ => .ok { status := 206, body := "ab".toList }) []
        (Handle.mk "/f".toList 0 420) "wxyz".toList 0).err = none ∧
    min "wxyz".toList.length "ab".toList.length = 2 := by
  decide

/-- What `ReadAt` does on a response: on status 206 it copies the body into
the buffer, up to the buffer's capacity, and returns the length of the
buffer and no error; on any other status it returns 0 and
`ErrorFromStatus(status)` and leaves the buffer alone. -/
theorem readAt_on_response (t : Transport) (log : List HTTPRequest) (h : Handle)
    (buf : GoString) (offset : Int) (r : HTTPResponse)
    (hr : t log (h.readRequest offset) = .ok r) :
    (r.status = 206 →
      Handle.ReadAt t log h buf offset =
        { buf := goCopy buf r.body, n := buf.length, err := none,
          log := log ++ [h.readRequest offset] }) ∧
    (r.status ≠ 206 →
      Handle.ReadAt t log h buf offset =
        { buf := buf, n := 0, err := some (.fuseErrno (ErrorFromStatus r.status)),
          log := log ++ [h.readRequest offset] }) := by
  constructor <;> intro hs <;> simp [Handle.ReadAt, Client.Do, hr, hs]

/-- C4 (counterexample): a 206 response whose body is the ASCII decimal of
k = 2147483648 makes `WriteAt` return 0 and a range error, not (k, nil). -/
theorem writeAt_count_out_of_range :
    "2147483648".toList = fmtNat 2147483648 ∧
    (Handle.WriteAt (fun _ _ => .ok { status := 206, body := "2147483648".toList }) []
        false (Handle.mk "/f".toList 1 420) "hello".toList 1 0).toOption.map
      (fun res => (res.n, res.err)) = some (0, some (.numError .errRange)) := by
  decide


/-- C4 (amended): when the `PUT` request receives a response, `WriteAt`
returns: on status 200 `(len(buf), nil)`; on status 206 whose body is the
ASCII decimal of k, `(k, nil)` when k < 2^31 and 0 with a range error when
k is 2^31 or more (the body is parsed as a signed 32-bit integer); on 206
with a body that is not a decimal integer, or that cannot be read, 0 and an
error; on any other status s, `(0, ErrorFromStatus(s))`. -/
theorem writeAt_on_response (t : Transport) (log : List HTTPRequest) (created : Bool)
    (h : Handle) (buf : GoString) (flags : Nat) (offset : Int) (r : HTTPResponse)
    (hr : t log (h.writeRequest created buf flags offset) = .ok r) :
    ∃ res, Handle.WriteAt t log created h buf flags offset = .ret res ∧
      (r.status = 200 → res.n = buf.length ∧ res.err = none) ∧
      (r.status = 206 → r.bodyErr = none → ∀ k : Nat, r.body = fmtNat k → k < 2 ^ 31 →
        res.n = k ∧ res.err = none) ∧
      (r.status = 206 → r.bodyErr = none → ∀ k : Nat, r.body = fmtNat k → 2 ^ 31 ≤ k →
        res.n = 0 ∧ res.err = some (.numError .errRange)) ∧
      (r.status = 206 → r.bodyErr = none → isDecimalInteger r.body = false →
        res.n = 0 ∧ res.err ≠ none) ∧
      (r.status = 206 → ∀ e, r.bodyErr = some e → res.n = 0 ∧ res.err = some e) ∧
      (r.status ≠ 200 → r.status ≠ 206 →
        res.n = 0 ∧ res.err = some (.fuseErrno (ErrorFromStatus r.status))) := by
  unfold Handle.WriteAt Client.Do
  simp only [hr]
  by_cases h200 : r.status = 200
  · rw [if_pos h200]
    refine ⟨_, rfl, ?_, ?_, ?_, ?_, ?_, ?_⟩ <;> intros <;> simp_all
  · rw [if_neg h200]
    by_cases h206 : r.status = 206
    · rw [if_neg (by simpa using h206)]
      cases hbe : r.bodyErr with
      | some e =>
        refine ⟨_, rfl, ?_, ?_, ?_, ?_, ?_, ?_⟩ <;> intros <;> simp_all
      | none =>
        cases hp : ParseInt r.body 32 with
        | error e =>
          refine ⟨_, rfl, ?_, ?_, ?_, ?_, ?_, ?_⟩
          · intro h; exact absurd h h200
          · intro _ _ k hk hlt
            have := ParseInt_fmtInt 32 (k : Int) (by decide) (by decide)
              (by have : (0 : Int) ≤ k := Int.ofNat_nonneg k
                  omega) (by norm_num; exact_mod_cast hlt)
            rw [show fmtInt (k : Int) = fmtNat k from rfl, ← hk, hp] at this
            simp at this
          · intro _ _ k hk hge
            have := ParseInt_fmtNat_big 32 k (by decide) (by decide) (by simpa using hge)
            rw [← hk, hp] at this
            simp at this
            simp [this]
          · intro _ _ _; simp
          · intro _ e he; simp at he
          · intro _ h; exact absurd h206 h
        | ok n =>
          have hdec := ParseInt_ok_isDecimalInteger 32 (by decide) _ _ hp
          refine ⟨_, rfl, ?_, ?_, ?_, ?_, ?_, ?_⟩
          · intro h; exact absurd h h200
          · intro _ _ k hk hlt
            have := ParseInt_fmtInt 32 (k : Int) (by decide) (by decide)
              (by have : (0 : Int) ≤ k := Int.ofNat_nonneg k
                  omega) (by norm_num; exact_mod_cast hlt)
            rw [show fmtInt (k : Int) = fmtNat k from rfl, ← hk, hp] at this
            simp at this
            simp [this]
          · intro _ _ k hk hge
            have := ParseInt_fmtNat_big 32 k (by decide) (by decide) (by simpa using hge)
            rw [← hk, hp] at this
            simp at this
          · intro _ _ hnd; rw [hdec] at hnd; simp at hnd
          · intro _ e he; simp at he
          · intro _ h; exact absurd h206 h
    · rw [if_pos (by simpa using h206)]
      refine ⟨_, rfl, ?_, ?_, ?_, ?_, ?_, ?_⟩ <;> intros <;> simp_all

/-- C4 (witness): 3 of 5 bytes written: a 206 response with body `3` makes
`WriteAt` return (3, nil). -/
theorem writeAt_on_response_witness :
    ∃ res, Handle.WriteAt (fun _ _ => .ok { status := 206, body := "3".toList }) []
        false (Handle.mk "/f".toList 1 420) "hello".toList 1 0 = .ret res ∧
      res.n = 3 ∧ res.err = none := by
  obtain ⟨res, h1, _, h3, _⟩ :=
    writeAt_on_response (fun _ _ => .ok { status := 206, body := "3".toList }) []
      false (Handle.mk "/f".toList 1 420) "hello".toList 1 0
      { status := 206, body := "3".toList } rfl
  exact ⟨res, h1, h3 rfl rfl 3 (by decide) (by decide)⟩


/-! ### Client: the name filter of `Dir.Lookup` -/

theorem Client.Head_eq (path : GoString) :
    Client.Head path = if requestURLValid path then some (headRequest path) else none :=
  rfl

/-- The method `Client.Stat` sends the one request `c.Head(path)` when that
request exists, and nothing when it does not. -/
theorem Client.Stat_log (fl : FallbackLayouts) (t : Transport) (log : List HTTPRequest)
    (path : GoString) :
    (Client.Stat fl t log path).2 =
      if requestURLValid path then log ++ [headRequest path] else log := by
  unfold Client.Stat
  rw [Client.Head_eq]
  by_cases hv : requestURLValid path = true
  · rw [if_pos hv, if_pos hv]
    simp only [Client.Do]
    cases t log (headRequest path) with
    | error e => rfl
    | ok r =>
      simp only
      split_ifs <;> rfl
  · rw [if_neg hv, if_neg hv]

/-- The method `Client.Stat` panics exactly when `c.Head(path)` is nil. -/
theorem Client.Stat_fault (fl : FallbackLayouts) (t : Transport) (log : List HTTPRequest)
    (path : GoString) :
    (Client.Stat fl t log path).1 = .fault ↔ requestURLValid path = false := by
  unfold Client.Stat
  rw [Client.Head_eq]
  by_cases hv : requestURLValid path = true
  · rw [if_pos hv]
    simp only [Client.Do]
    cases t log (headRequest path) with
    | error e => simp [hv]
    | ok r =>
      simp only
      split_ifs <;> simp [hv]
  · rw [if_neg hv]
    simp only [Bool.not_eq_true] at hv
    simp [hv]

/-- The requests of `Dir.Lookup`: for every name in the filter set or
beginning with `._` it returns `ENOENT` and sends no request; for every
other name it sends exactly one request, the `HEAD` (stat) of
`Join(d.path, name)`, when `http.NewRequest` accepts the URL of that path,
and otherwise it panics and sends nothing. -/
theorem Dir.Lookup_requests (fl : FallbackLayouts) (t : Transport) (log : List HTTPRequest)
    (fs : HTTPFS) (now : Int) (d : Dir) (name : GoString) :
    ((name ∈ ignoreNames ∨ "._".toList <+: name) →
      (Dir.Lookup fl t log fs now d name).node = .ret (.error (.fuseErrno .ENOENT)) ∧
      (Dir.Lookup fl t log fs now d name).log = log) ∧
    (¬ (name ∈ ignoreNames ∨ "._".toList <+: name) →
      requestURLValid (Join [d.path, name]) = true →
      (Dir.Lookup fl t log fs now d name).log = log ++ [headRequest (Join [d.path, name])]) ∧
    (¬ (name ∈ ignoreNames ∨ "._".toList <+: name) →
      requestURLValid (Join [d.path, name]) = false →
      (Dir.Lookup fl t log fs now d name).node = .fault ∧
      (Dir.Lookup fl t log fs now d name).log = log) := by
  have hlog := Client.Stat_log fl t log (Join [d.path, name])
  have hfault := Client.Stat_fault fl t log (Join [d.path, name])
  refine ⟨?_, ?_, ?_⟩
  · intro h
    have hc : ¬ (name ∉ ignoreNames ∧ ¬ ("._".toList <+: name)) := by tauto
    unfold Dir.Lookup
    rw [if_neg hc]
    exact ⟨rfl, rfl⟩
  · intro h hv
    have hc : name ∉ ignoreNames ∧ ¬ ("._".toList <+: name) := by tauto
    rw [if_pos hv] at hlog
    unfold Dir.Lookup
    rw [if_pos hc, ← hlog]
    simp only
    generalize Client.Stat fl t log (Join [d.path, name]) = cs
    rcases cs with ⟨res, log1⟩
    cases res with
    | fault => rfl
    | ret res =>
      cases res with
      | error e => rfl
      | ok stats =>
        simp only
        split_ifs <;> rfl
  · intro h hv
    have hc : name ∉ ignoreNames ∧ ¬ ("._".toList <+: name) := by tauto
    rw [hv] at hlog
    have hf := hfault.mpr hv
    unfold Dir.Lookup
    rw [if_pos hc]
    simp only
    rcases hcs : Client.Stat fl t log (Join [d.path, name]) with ⟨res, log1⟩
    rw [hcs] at hlog hf
    simp only at hlog hf
    subst hf
    simp only [Bool.false_eq_true, if_false] at hlog
    subst hlog
    exact ⟨rfl, rfl⟩

/-- C8: the name `100%`, which is not in the filter set and does not begin
with `._`, makes `Dir.Lookup` on the root directory panic with no request
sent, on a server that would answer every request: the URL of the path
`/100%` does not parse, `Client.NewRequest` drops the error and returns nil,
and `c.client.Do(nil)` panics.  The name `a b`, for comparison, is looked up
with one `HEAD` request of `/a b`. -/
theorem lookup_unparsable_name_panics :
    "100%".toList ∉ ignoreNames ∧ ¬ ("._".toList <+: "100%".toList) ∧
    Join ["/".toList, "100%".toList] = "/100%".toList ∧
    Client.Head "/100%".toList = none ∧
    (Dir.Lookup (FallbackLayouts.mk (fun _ => none) (fun _ => none))
        (fun _ _ => .ok { status := 200 }) [] { NodeID := 1 } 0
        { attr := { inode := 1, atime := 0, mtime := 0, ctime := 0, crtime := 0,
                    mode := ModeDir ||| 0o777 }, path := "/".toList }
        "100%".toList).node = .fault ∧
    (Dir.Lookup (FallbackLayouts.mk (fun _ => none) (fun _ => none))
        (fun _ _ => .ok { status := 200 }) [] { NodeID := 1 } 0
        { attr := { inode := 1, atime := 0, mtime := 0, ctime := 0, crtime := 0,
                    mode := ModeDir ||| 0o777 }, path := "/".toList }
        "100%".toList).log = [] ∧
    (Dir.Lookup (FallbackLayouts.mk (fun _ => none) (fun _ => none))
        (fun _ _ => .ok { status := 200 }) [] { NodeID := 1 } 0
        { attr := { inode := 1, atime := 0, mtime := 0, ctime := 0, crtime := 0,
                    mode := ModeDir ||| 0o777 }, path := "/".toList }
        "a b".toList).log = [headRequest "/a b".toList] := by
  refine ⟨by decide, by decide, by decide, by decide, rfl, by decide, by decide⟩

/-! ### Client: inode allocation -/

theorem allocAll_inodes (now : Int) :
    ∀ (calls : List AllocCall) (m : HTTPFS), m.NodeID + calls.length < 2 ^ 64 →
      (allocAll now m calls).1 = List.range' (m.NodeID + 1) calls.length ∧
      (allocAll now m calls).2.NodeID = m.NodeID + calls.length := by
  intro calls
  induction calls with
  | nil => intro m _; simp [allocAll]
  | cons c rest ih =>
    intro m h
    simp only [List.length_cons] at h
    have hmod : (m.NodeID + 1) % 2 ^ 64 = m.NodeID + 1 := Nat.mod_eq_of_lt (by omega)
    cases c with
    | newDir path mode =>
      have := ih (m.newDir now path mode).2
        (by simp only [HTTPFS.newDir, HTTPFS.nextID, hmod]; omega)
      simp only [HTTPFS.newDir, HTTPFS.nextID, hmod] at this
      simp only [allocAll, HTTPFS.newDir, HTTPFS.nextID, hmod, List.length_cons,
        List.range'_succ, this]
      constructor <;> first | trivial | omega
    | newFile path mode =>
      have := ih (m.newFile now path mode).2
        (by simp only [HTTPFS.newFile, HTTPFS.nextID, hmod]; omega)
      simp only [HTTPFS.newFile, HTTPFS.nextID, hmod] at this
      simp only [allocAll, HTTPFS.newFile, HTTPFS.nextID, hmod, List.length_cons,
        List.range'_succ, this]
      constructor <;> first | trivial | omega


/-- C9: `NewHTTPFS` returns with a root directory of inode 1, and in every
sequence of `newDir`/`newFile` calls on that `HTTPFS` that stays within the
64-bit counter, the k-th allocation (the root being the first) receives
inode k; so every inode is positive and strictly greater than all inodes
allocated before it. -/
theorem inode_allocation (now : Int) (calls : List AllocCall)
    (h : calls.length + 1 < 2 ^ 64) :
    ∃ fs root, NewHTTPFS now = .ret fs ∧ fs.root = some root ∧ root.attr.inode = 1 ∧
      root.attr.inode :: (allocAll now fs calls).1 = List.range' 1 (calls.length + 1) ∧
      List.Pairwise (fun a b => a < b) (root.attr.inode :: (allocAll now fs calls).1) ∧
      ∀ i ∈ root.attr.inode :: (allocAll now fs calls).1, 0 < i := by
  have hnew : NewHTTPFS now =
      .ret { NodeID := 1,
             root := some { attr := { inode := 1, atime := now, mtime := now, ctime := now,
                                      crtime := now, mode := ModeDir ||| (ModeDir ||| DefaultFileMode) },
                            path := "/".toList } } := by
    simp [NewHTTPFS, HTTPFS.newDir, HTTPFS.nextID]
  refine ⟨_, _, hnew, rfl, rfl, ?_⟩
  have hal := (allocAll_inodes now calls
    { NodeID := 1,
      root := some { attr := { inode := 1, atime := now, mtime := now, ctime := now,
                               crtime := now, mode := ModeDir ||| (ModeDir ||| DefaultFileMode) },
                     path := "/".toList } } (by simp only; omega)).1
  simp only at hal
  have heq : 1 :: List.range' 2 calls.length = List.range' 1 (calls.length + 1) := by
    rw [List.range'_succ]
  simp only [hal, heq]
  refine ⟨trivial, ?_, ?_⟩
  · exact List.pairwise_lt_range' 1 (calls.length + 1)
  · intro i hi
    rw [List.mem_range'_1] at hi
    omega

/-- C9 (witness): the root, then a directory and a file: inodes 1, 2, 3. -/
theorem inode_allocation_witness :
    ∃ fs root, NewHTTPFS 0 = .ret fs ∧ fs.root = some root ∧ root.attr.inode = 1 ∧
      root.attr.inode ::
          (allocAll 0 fs [.newDir "/a".toList 0o755, .newFile "/a/f".toList 0o644]).1 =
        [1, 2, 3] := by
  obtain ⟨fs, root, h1, h2, h3, h4, _⟩ :=
    inode_allocation 0 [.newDir "/a".toList 0o755, .newFile "/a/f".toList 0o644] (by decide)
  exact ⟨fs, root, h1, h2, h3, h4⟩


/-! ### Client: `File.Setattr` -/

theorem testBit_andNot (a b i : Nat) :
    (andNot a b).testBit i = (a.testBit i && !b.testBit i) := by
  unfold andNot
  rw [Nat.testBit_xor, Nat.testBit_and]
  cases a.testBit i <;> cases b.testBit i <;> rfl

theorem and_two_pow_ne_zero (a k : Nat) : a &&& 2 ^ k ≠ 0 ↔ a.testBit k = true := by
  constructor
  · intro h
    obtain ⟨i, hi⟩ := Nat.ne_zero_implies_bit_true h
    rw [Nat.testBit_and, Nat.testBit_two_pow] at hi
    simp only [Bool.and_eq_true, decide_eq_true_eq] at hi
    rw [hi.2]; exact hi.1
  · intro h h0
    have : (a &&& 2 ^ k).testBit k = true := by
      rw [Nat.testBit_and, Nat.testBit_two_pow_self, h]; rfl
    rw [h0] at this
    simp at this

/-- The bits left after `Setattr` has stripped size, mode, lock owner and
handle are zero exactly when no other bit is set. -/
theorem unhandled_bits (valid : Nat) :
    andNot (andNot (andNot valid SetattrSize) SetattrMode) (SetattrLockOwner ||| SetattrHandle) ≠ 0
      ↔ ∃ i, i ≠ 0 ∧ i ≠ 3 ∧ i ≠ 6 ∧ i ≠ 9 ∧ valid.testBit i = true := by
  have key : ∀ i, (andNot (andNot (andNot valid SetattrSize) SetattrMode)
      (SetattrLockOwner ||| SetattrHandle)).testBit i =
      (valid.testBit i && !decide (3 = i) && !decide (0 = i) &&
        !(decide (9 = i) || decide (6 = i))) := by
    intro i
    simp only [testBit_andNot, SetattrSize, SetattrMode, SetattrLockOwner, SetattrHandle,
      Nat.testBit_or, Nat.testBit_two_pow]
  constructor
  · intro h
    obtain ⟨i, hi⟩ := Nat.ne_zero_implies_bit_true h
    rw [key] at hi
    simp only [Bool.and_eq_true, Bool.not_eq_true', decide_eq_false_iff_not, Bool.or_eq_false_iff]
      at hi
    exact ⟨i, fun h => hi.1.2 h.symm, fun h => hi.1.1.2 h.symm, fun h => hi.2.2 h.symm,
      fun h => hi.2.1 h.symm, hi.1.1.1⟩
  · rintro ⟨i, h0, h3, h6, h9, hv⟩ hz
    have := key i
    rw [hz, Nat.zero_testBit, hv] at this
    have e3 : decide (3 = i) = false := decide_eq_false (fun h => h3 h.symm)
    have e0 : decide (0 = i) = false := decide_eq_false (fun h => h0 h.symm)
    have e9 : decide (9 = i) = false := decide_eq_false (fun h => h9 h.symm)
    have e6 : decide (6 = i) = false := decide_eq_false (fun h => h6 h.symm)
    rw [e3, e0, e9, e6] at this
    simp at this

theorem andNot_of_not_testBit (a k : Nat) (h : a.testBit k = false) : andNot a (2 ^ k) = a := by
  apply Nat.eq_of_testBit_eq
  intro i
  rw [testBit_andNot, Nat.testBit_two_pow]
  by_cases hk : k = i
  · subst hk; simp [h]
  · simp [hk]


theorem Client.call_log (t : Transport) (log : List HTTPRequest) (req : HTTPRequest) :
    (Client.call t log req).2 = log ++ [req] := by
  unfold Client.call Client.Do
  cases t log req with
  | error e => rfl
  | ok r =>
    simp only
    split_ifs <;> rfl

/-- C10: for every `Setattr` request with valid bits `valid`: a truncate
request is sent iff the size bit (bit 3) is set; a chmod request is sent,
after the truncate, iff the mode bit (bit 0) is set and the truncate, if
any, succeeded; the error of a failed call is returned; with no failed call
the result is `ENOSYS` iff a bit other than size, mode, handle (bit 6) and
lock owner (bit 9) is set, and success otherwise. -/
theorem setattr_calls_and_result (t : Transport) (log : List HTTPRequest) (f : File)
    (valid size mode : Nat) :
    ((File.Setattr t log f valid size mode).2 =
      log ++ (if valid.testBit 3 = true then [truncateRequest f.path size] else []) ++
        (if valid.testBit 0 = true ∧
            (valid.testBit 3 = true → (Client.Truncate t log f.path size).1 = none)
         then [chmodRequest f.path mode] else [])) ∧
    (valid.testBit 3 = true → ∀ e, (Client.Truncate t log f.path size).1 = some e →
      (File.Setattr t log f valid size mode).1 = some e) ∧
    ((valid.testBit 3 = true → (Client.Truncate t log f.path size).1 = none) →
      valid.testBit 0 = true →
      ∀ e, (Client.Chmod t
          (log ++ (if valid.testBit 3 = true then [truncateRequest f.path size] else []))
          f.path mode).1 = some e →
        (File.Setattr t log f valid size mode).1 = some e) ∧
    ((valid.testBit 3 = true → (Client.Truncate t log f.path size).1 = none) →
      (valid.testBit 0 = true →
        (Client.Chmod t
          (log ++ (if valid.testBit 3 = true then [truncateRequest f.path size] else []))
          f.path mode).1 = none) →
      ((∃ i, i ≠ 0 ∧ i ≠ 3 ∧ i ≠ 6 ∧ i ≠ 9 ∧ valid.testBit i = true) →
        (File.Setattr t log f valid size mode).1 = some (.fuseErrno .ENOSYS)) ∧
      (¬ (∃ i, i ≠ 0 ∧ i ≠ 3 ∧ i ≠ 6 ∧ i ≠ 9 ∧ valid.testBit i = true) →
        (File.Setattr t log f valid size mode).1 = none)) := by
  have hS : valid &&& SetattrSize ≠ 0 ↔ valid.testBit 3 = true := and_two_pow_ne_zero valid 3
  have hM1 : andNot valid SetattrSize &&& SetattrMode ≠ 0 ↔ valid.testBit 0 = true := by
    rw [show SetattrMode = 2 ^ 0 from rfl, and_two_pow_ne_zero, testBit_andNot,
      show SetattrSize = 2 ^ 3 from rfl, Nat.testBit_two_pow]
    simp
  have hlogT := Client.call_log t log (truncateRequest f.path size)
  have hU := unhandled_bits valid
  -- the valid bits after the size step are `andNot valid SetattrSize` in both cases
  have hv1 : valid.testBit 3 = false → andNot valid SetattrSize = valid :=
    andNot_of_not_testBit valid 3
  have hv2 : valid.testBit 0 = false →
      andNot (andNot valid SetattrSize) SetattrMode = andNot valid SetattrSize := by
    intro h
    apply andNot_of_not_testBit _ 0
    rw [testBit_andNot, h]; rfl
  by_cases h3 : valid.testBit 3 = true
  · have hs : valid &&& SetattrSize ≠ 0 := hS.mpr h3
    rcases htr : Client.Truncate t log f.path size with ⟨e1, l1⟩
    have hl1 : l1 = log ++ [truncateRequest f.path size] := by
      unfold Client.Truncate at htr; rw [htr] at hlogT; exact hlogT
    subst hl1
    cases e1 with
    | some e =>
      have hres : File.Setattr t log f valid size mode =
          (some e, log ++ [truncateRequest f.path size]) := by
        unfold File.Setattr; rw [if_pos hs, htr]
      rw [hres]
      refine ⟨?_, ?_, ?_, ?_⟩
      · simp [h3]
      · intro _ e1 he; simp at he; simp [he]
      · intro hn; exfalso; have := hn h3; simp at this
      · intro hn; exfalso; have := hn h3; simp at this
    | none =>
      by_cases h0 : valid.testBit 0 = true
      · have hm : andNot valid SetattrSize &&& SetattrMode ≠ 0 := hM1.mpr h0
        rcases hch : Client.Chmod t (log ++ [truncateRequest f.path size]) f.path mode
          with ⟨e2, l2⟩
        have hl2 : l2 = log ++ [truncateRequest f.path size] ++ [chmodRequest f.path mode] := by
          have := Client.call_log t (log ++ [truncateRequest f.path size])
            (chmodRequest f.path mode)
          unfold Client.Chmod at hch; rw [hch] at this; exact this
        subst hl2
        cases e2 with
        | some e =>
          have hres : File.Setattr t log f valid size mode =
              (some e, log ++ [truncateRequest f.path size] ++ [chmodRequest f.path mode]) := by
            unfold File.Setattr; rw [if_pos hs, htr]; simp only; rw [if_pos hm, hch]
          rw [hres]
          refine ⟨?_, ?_, ?_, ?_⟩
          · simp [h3, h0]
          · intro _ e1 he; simp at he
          · intro _ _ e1 he
            simp only [h3, if_true] at he; rw [hch] at he; simp at he; simp [he]
          · intro _ hc; exfalso
            have := hc h0
            simp only [h3, if_true] at this; rw [hch] at this; simp at this
        | none =>
          have hres : File.Setattr t log f valid size mode =
              (if andNot (andNot (andNot valid SetattrSize) SetattrMode)
                  (SetattrLockOwner ||| SetattrHandle) ≠ 0
               then some (.fuseErrno .ENOSYS) else none,
               log ++ [truncateRequest f.path size] ++ [chmodRequest f.path mode]) := by
            unfold File.Setattr; rw [if_pos hs, htr]; simp only; rw [if_pos hm, hch]
            simp only; split_ifs <;> rfl
          rw [hres]
          refine ⟨?_, ?_, ?_, ?_⟩
          · simp [h3, h0]
          · intro _ e1 he; simp at he
          · intro _ _ e1 he
            simp only [h3, if_true] at he; rw [hch] at he; simp at he
          · intro _ _
            exact ⟨fun hu => by simp only [if_pos (hU.mpr hu)],
              fun hu => by simp only [if_neg (fun h => hu (hU.mp h))]⟩
      · have hm : ¬ (andNot valid SetattrSize &&& SetattrMode ≠ 0) := fun h => h0 (hM1.mp h)
        have h0f : valid.testBit 0 = false := by simpa using h0
        have hres : File.Setattr t log f valid size mode =
            (if andNot (andNot (andNot valid SetattrSize) SetattrMode)
                (SetattrLockOwner ||| SetattrHandle) ≠ 0
             then some (.fuseErrno .ENOSYS) else none,
             log ++ [truncateRequest f.path size]) := by
          unfold File.Setattr; rw [if_pos hs, htr]; simp only; rw [if_neg hm]
          simp only; rw [hv2 h0f]; split_ifs <;> rfl
        rw [hres]
        refine ⟨?_, ?_, ?_, ?_⟩
        · simp [h3, h0]
        · intro _ e1 he; simp at he
        · intro _ h; exact absurd h h0
        · intro _ _
          exact ⟨fun hu => by simp only [if_pos (hU.mpr hu)],
            fun hu => by simp only [if_neg (fun h => hu (hU.mp h))]⟩
  · have hs : ¬ (valid &&& SetattrSize ≠ 0) := fun h => h3 (hS.mp h)
    have h3f : valid.testBit 3 = false := by simpa using h3
    have hM0 : valid &&& SetattrMode ≠ 0 ↔ valid.testBit 0 = true := and_two_pow_ne_zero valid 0
    rw [hv1 h3f] at hU hv2
    by_cases h0 : valid.testBit 0 = true
    · have hm : valid &&& SetattrMode ≠ 0 := hM0.mpr h0
      rcases hch : Client.Chmod t log f.path mode with ⟨e2, l2⟩
      have hl2 : l2 = log ++ [chmodRequest f.path mode] := by
        have := Client.call_log t log (chmodRequest f.path mode)
        unfold Client.Chmod at hch; rw [hch] at this; exact this
      subst hl2
      cases e2 with
      | some e =>
        have hres : File.Setattr t log f valid size mode =
            (some e, log ++ [chmodRequest f.path mode]) := by
          unfold File.Setattr; rw [if_neg hs]; simp only; rw [if_pos hm, hch]
        rw [hres]
        refine ⟨?_, ?_, ?_, ?_⟩
        · simp [h3, h0]
        · intro h; exact absurd h h3
        · intro _ _ e1 he
          simp [h3f, hch] at he; simp [he]
        · intro _ hc; exfalso
          have := hc h0
          simp [h3f, hch] at this
      | none =>
        have hres : File.Setattr t log f valid size mode =
            (if andNot (andNot valid SetattrMode) (SetattrLockOwner ||| SetattrHandle) ≠ 0
             then some (.fuseErrno .ENOSYS) else none,
             log ++ [chmodRequest f.path mode]) := by
          unfold File.Setattr; rw [if_neg hs]; simp only; rw [if_pos hm, hch]
          simp only; split_ifs <;> rfl
        rw [hres]
        refine ⟨?_, ?_, ?_, ?_⟩
        · simp [h3, h0]
        · intro h; exact absurd h h3
        · intro _ _ e1 he
          simp [h3f, hch] at he
        · intro _ _
          exact ⟨fun hu => by simp only [if_pos (hU.mpr hu)],
            fun hu => by simp only [if_neg (fun h => hu (hU.mp h))]⟩
    · have hm : ¬ (valid &&& SetattrMode ≠ 0) := fun h => h0 (hM0.mp h)
      have h0f : valid.testBit 0 = false := by simpa using h0
      have hres : File.Setattr t log f valid size mode =
          (if andNot (andNot valid SetattrMode) (SetattrLockOwner ||| SetattrHandle) ≠ 0
           then some (.fuseErrno .ENOSYS) else none, log) := by
        unfold File.Setattr; rw [if_neg hs]; simp only; rw [if_neg hm]
        simp only; rw [hv2 h0f]; split_ifs <;> rfl
      rw [hres]
      refine ⟨?_, ?_, ?_, ?_⟩
      · simp [h3, h0]
      · intro h; exact absurd h h3
      · intro _ h; exact absurd h h0
      · intro _ _
        exact ⟨fun hu => by simp only [if_pos (hU.mpr hu)],
          fun hu => by simp only [if_neg (fun h => hu (hU.mp h))]⟩



/-! ### The stat headers -/

theorem Header.Get_Set_same (h : Header) (k v : GoString) : (h.Set k v).Get k = v := by
  simp [Header.Get, Header.Set]

theorem find_filter_ne (k k2 : GoString) (hne : k2 ≠ k) (l : Header) :
    List.find? (fun kv => decide (kv.1 = k2)) (l.filter (fun kv => decide (kv.1 ≠ k))) =
      List.find? (fun kv => decide (kv.1 = k2)) l := by
  induction l with
  | nil => rfl
  | cons kv rest ih =>
    by_cases hk : kv.1 = k
    · have hk2 : ¬ (kv.1 = k2) := fun e => hne (by rw [← e, hk])
      rw [List.filter_cons_of_neg (by simpa using hk), List.find?_cons_of_neg _ (by simpa using hk2)]
      exact ih
    · rw [List.filter_cons_of_pos (by simpa using hk)]
      by_cases hk2 : kv.1 = k2
      · rw [List.find?_cons_of_pos _ (by simpa using hk2),
          List.find?_cons_of_pos _ (by simpa using hk2)]
      · rw [List.find?_cons_of_neg _ (by simpa using hk2),
          List.find?_cons_of_neg _ (by simpa using hk2)]
        exact ih

theorem Header.Get_Set_other (h : Header) (k k2 v : GoString) (hne : k2 ≠ k) :
    (h.Set k v).Get k2 = h.Get k2 := by
  unfold Header.Get Header.Set
  have hne2 : ¬ (k = k2) := fun e => hne e.symm
  rw [List.find?_cons_of_neg _ (by simpa using hne2), find_filter_ne k k2 hne h]

/-- The four stat headers on a response that had none of them. -/
theorem addStatHeaders_get (w : ResponseWriter) (stat : FileStat)
    (h1 : w.header.Get "Content-Length".toList = [])
    (h2 : w.header.Get "Last-Modified".toList = [])
    (h3 : w.header.Get "X-File-Mode".toList = [])
    (h4 : w.header.Get "X-Is-Dir".toList = []) :
    (addStatHeaders w stat).header.Get "Content-Length".toList = fmtInt stat.size ∧
    (addStatHeaders w stat).header.Get "Last-Modified".toList = formatHTTPTime stat.mtime ∧
    (addStatHeaders w stat).header.Get "X-File-Mode".toList = fmtNat stat.mode ∧
    (addStatHeaders w stat).header.Get "X-Is-Dir".toList = fmtBool stat.isdir := by
  have e1 : setIfEmpty w.header "Content-Length".toList (fmtInt stat.size) =
      w.header.Set "Content-Length".toList (fmtInt stat.size) := by
    unfold setIfEmpty; rw [if_pos h1]
  have e2 : setIfEmpty (w.header.Set "Content-Length".toList (fmtInt stat.size))
      "Last-Modified".toList (formatHTTPTime stat.mtime) =
      (w.header.Set "Content-Length".toList (fmtInt stat.size)).Set
        "Last-Modified".toList (formatHTTPTime stat.mtime) := by
    unfold setIfEmpty
    rw [if_pos (by rw [Header.Get_Set_other _ _ _ _ (by decide)]; exact h2)]
  have e3 : setIfEmpty ((w.header.Set "Content-Length".toList (fmtInt stat.size)).Set
        "Last-Modified".toList (formatHTTPTime stat.mtime))
      "X-File-Mode".toList (fmtNat stat.mode) =
      ((w.header.Set "Content-Length".toList (fmtInt stat.size)).Set
        "Last-Modified".toList (formatHTTPTime stat.mtime)).Set
        "X-File-Mode".toList (fmtNat stat.mode) := by
    unfold setIfEmpty
    rw [if_pos (by
      rw [Header.Get_Set_other _ _ _ _ (by decide), Header.Get_Set_other _ _ _ _ (by decide)]
      exact h3)]
  have e4 : setIfEmpty (((w.header.Set "Content-Length".toList (fmtInt stat.size)).Set
        "Last-Modified".toList (formatHTTPTime stat.mtime)).Set
        "X-File-Mode".toList (fmtNat stat.mode))
      "X-Is-Dir".toList (fmtBool stat.isdir) =
      (((w.header.Set "Content-Length".toList (fmtInt stat.size)).Set
        "Last-Modified".toList (formatHTTPTime stat.mtime)).Set
        "X-File-Mode".toList (fmtNat stat.mode)).Set
        "X-Is-Dir".toList (fmtBool stat.isdir) := by
    unfold setIfEmpty
    rw [if_pos (by
      rw [Header.Get_Set_other _ _ _ _ (by decide), Header.Get_Set_other _ _ _ _ (by decide),
        Header.Get_Set_other _ _ _ _ (by decide)]
      exact h4)]
  unfold addStatHeaders
  simp only [e1, e2, e3, e4]
  refine ⟨?_, ?_, ?_, ?_⟩
  · rw [Header.Get_Set_other _ _ _ _ (by decide), Header.Get_Set_other _ _ _ _ (by decide),
      Header.Get_Set_other _ _ _ _ (by decide), Header.Get_Set_same]
  · rw [Header.Get_Set_other _ _ _ _ (by decide), Header.Get_Set_other _ _ _ _ (by decide),
      Header.Get_Set_same]
  · rw [Header.Get_Set_other _ _ _ _ (by decide), Header.Get_Set_same]
  · rw [Header.Get_Set_same]

theorem SafeParseInt64_fmtInt (i : Int) (hlo : -9223372036854775808 ≤ i)
    (hhi : i ≤ 9223372036854775807) : SafeParseInt64 (fmtInt i) = i := by
  unfold SafeParseInt64
  rw [ParseInt_fmtInt 64 i (by decide) (by decide) (by norm_num; omega) (by norm_num; omega)]

theorem SafeParseBool_fmtBool (b : Bool) : SafeParseBool (fmtBool b) = b := by
  cases b <;> decide

theorem httpParseTime_formatHTTPTime (fl : FallbackLayouts) (t : Int)
    (hlo : -62167219200 ≤ t) (hhi : t ≤ 253402300799) :
    httpParseTime fl (formatHTTPTime t) = some t := by
  unfold httpParseTime
  rw [parseTimeFormat_formatHTTPTime t hlo hhi]


theorem toUint32_SafeParseInt64_fmtNat (mode : Nat) (h : mode < 2 ^ 32) :
    toUint32 (SafeParseInt64 (fmtNat mode)) = mode := by
  have := SafeParseInt64_fmtInt (mode : Int) (by omega) (by omega)
  rw [show fmtInt (mode : Int) = fmtNat mode from rfl] at this
  rw [this]
  unfold toUint32
  omega

/-- C7 (counterexample): a stat whose mtime is 253402300800
(10000-01-01T00:00:00Z) is sent as `Last-Modified: Sat, 01 Jan 10000
00:00:00 GMT`, which no layout of `http.ParseTime` accepts, whatever the
fallback layouts do with their remainder; `Client.Stat` decodes mtime 0. -/
theorem stat_roundtrip_year_10000 :
    (addStatHeaders {} (FileStat.mk "f".toList 700 420 253402300800 false)).header.Get
        "Last-Modified".toList = "Sat, 01 Jan 10000 00:00:00 GMT".toList ∧
    ((Client.Stat
        (FallbackLayouts.mk (fun _ => some 253402300800) (fun _ => some 253402300800))
        (fun _ _ => .ok
          { status := 200,
            header :=
              (addStatHeaders {} (FileStat.mk "f".toList 700 420 253402300800 false)).header })
        [] "/f".toList).1.toOption.bind Except.toOption).map (fun st => st.mtime) = some 0 := by
  decide

/-- C7 (amended): for every stat with a size in the `int64` range, a mode of
32 bits and an mtime in whole seconds within the years 0000 to 9999, the
headers `Content-Length`, `Last-Modified`, `X-File-Mode` and `X-Is-Dir`
written by `addStatHeaders` on a response that has none of them preset are
decoded by `Client.Stat` into a stat with equal size, mtime, mode and
is_dir; the path is one for which the `HEAD` request exists, as it must for
the response to be there. -/
theorem stat_header_roundtrip (fl : FallbackLayouts) (t : Transport) (log : List HTTPRequest)
    (path : GoString) (w : ResponseWriter) (stat : FileStat) (r : HTTPResponse)
    (hw : ∀ k ∈ statHeaderKeys, w.header.Get k = [])
    (hsize : -9223372036854775808 ≤ stat.size ∧ stat.size ≤ 9223372036854775807)
    (hmode : stat.mode < 2 ^ 32)
    (hmtime : -62167219200 ≤ stat.mtime ∧ stat.mtime ≤ 253402300799)
    (hpath : requestURLValid path = true)
    (hr : t log (headRequest path) = .ok r) (hstatus : r.status = 200)
    (hhdr : ∀ k ∈ statHeaderKeys, r.header.Get k = (addStatHeaders w stat).header.Get k) :
    Client.Stat fl t log path =
      (.ret (.ok { name := path, size := stat.size, mode := stat.mode, mtime := stat.mtime,
                   isdir := stat.isdir }),
       log ++ [headRequest path]) := by
  obtain ⟨g1, g2, g3, g4⟩ := addStatHeaders_get w stat
    (hw _ (by decide)) (hw _ (by decide)) (hw _ (by decide)) (hw _ (by decide))
  have k1 := hhdr "Content-Length".toList (by decide)
  have k2 := hhdr "Last-Modified".toList (by decide)
  have k3 := hhdr "X-File-Mode".toList (by decide)
  have k4 := hhdr "X-Is-Dir".toList (by decide)
  rw [g1] at k1; rw [g2] at k2; rw [g3] at k3; rw [g4] at k4
  unfold Client.Stat
  rw [Client.Head_eq, if_pos hpath]
  unfold Client.Do
  simp only [hr]
  rw [if_neg (by simp [hstatus])]
  rw [k1, k2, k3, k4, SafeParseInt64_fmtInt _ hsize.1 hsize.2,
    toUint32_SafeParseInt64_fmtNat _ hmode, SafeParseBool_fmtBool,
    httpParseTime_formatHTTPTime fl _ hmtime.1 hmtime.2]

/-- C7 (witness): the stat of a 700-byte file of mode 0644 modified at
2020-01-02T03:04:05Z comes back unchanged. -/
theorem stat_header_roundtrip_witness :
    Client.Stat (FallbackLayouts.mk (fun _ => none) (fun _ => none))
        (fun _ _ => .ok
          { status := 200,
            header := (addStatHeaders {} (FileStat.mk "f".toList 700 420 1577934245 false)).header })
        [] "/f".toList =
      (.ret (.ok { name := "/f".toList, size := 700, mode := 420, mtime := 1577934245,
                   isdir := false }),
       [headRequest "/f".toList]) :=
  stat_header_roundtrip (FallbackLayouts.mk (fun _ => none) (fun _ => none))
    (fun _ _ => .ok
      { status := 200,
        header := (addStatHeaders {} (FileStat.mk "f".toList 700 420 1577934245 false)).header })
    [] "/f".toList {} (FileStat.mk "f".toList 700 420 1577934245 false)
    { status := 200,
      header := (addStatHeaders {} (FileStat.mk "f".toList 700 420 1577934245 false)).header }
    (by decide) (by decide) (by decide) (by decide) (by decide) rfl rfl (fun _ _ => rfl)

/-! ### Client: the `created` flag and `Dir.Create` -/

theorem Handle.writeRequest_flags (h : Handle) (created : Bool) (buf : GoString) (flags : Nat)
    (offset : Int) :
    (h.writeRequest created buf flags offset).query.Get "flags".toList =
      fmtNat (if created then flags ||| O_CREATE ||| O_EXCL else flags) := by
  cases created
  · simp [Handle.writeRequest, Header.Get]
  · simp [Handle.writeRequest, Header.Get, Nat.lor_assoc]

/-- Whenever the transport answers, `WriteAt` returns, the flag `created` is
false afterwards and exactly the request `writeRequest` has been sent. -/
theorem Handle.WriteAt_returns (t : Transport) (log : List HTTPRequest) (created : Bool)
    (h : Handle) (buf : GoString) (flags : Nat) (offset : Int) (r : HTTPResponse)
    (hr : t log (h.writeRequest created buf flags offset) = .ok r) :
    ∃ res, Handle.WriteAt t log created h buf flags offset = .ret res ∧
      res.created = false ∧ res.log = log ++ [h.writeRequest created buf flags offset] := by
  unfold Handle.WriteAt Client.Do
  simp only [hr]
  have hc : (if created = true then false else created) = false := by cases created <;> rfl
  rw [hc]
  split_ifs
  · exact ⟨_, rfl, rfl, rfl⟩
  · exact ⟨_, rfl, rfl, rfl⟩
  · cases r.bodyErr with
    | some e => exact ⟨_, rfl, rfl, rfl⟩
    | none =>
      cases ParseInt r.body 32 with
      | error e => exact ⟨_, rfl, rfl, rfl⟩
      | ok n => exact ⟨_, rfl, rfl, rfl⟩

/-- C11: the `flags` query parameter `WriteAt` transmits is the decimal of
`fl | O_CREATE | O_EXCL` when the owning file has `created = true` and of
`fl` alone when it has `created = false`; whenever the request is answered,
`WriteAt` returns with `created = false`, so after a successful write the
flag is false and a false flag stays false.  A file returned by `Dir.Create`
has `created = true` and an attached handle with the request's flags and
mode, and `Dir.Create` returns a file whenever the name does not exist. -/
theorem created_flag_protocol (fl : FallbackLayouts) (t : Transport) (log : List HTTPRequest)
    (h : Handle) (buf : GoString) (flags : Nat) (offset : Int)
    (fs : HTTPFS) (now : Int) (d : Dir) (name : GoString) (mode cflags : Nat) :
    (h.writeRequest true buf flags offset).query.Get "flags".toList =
      fmtNat (flags ||| O_CREATE ||| O_EXCL) ∧
    (h.writeRequest false buf flags offset).query.Get "flags".toList = fmtNat flags ∧
    (∀ created r, t log (h.writeRequest created buf flags offset) = .ok r →
      ∃ res, Handle.WriteAt t log created h buf flags offset = .ret res ∧
        res.created = false ∧ res.log = log ++ [h.writeRequest created buf flags offset]) ∧
    (∀ f, (Dir.Create fl t log fs now d name mode cflags).file = .ret (.ok f) →
      f.created = true ∧
      f.handle = some { path := Join [d.path, name], flags := cflags, perm := mode }) ∧
    ((Dir.exists fl t log d name).1 = .ret false →
      ∃ f, (Dir.Create fl t log fs now d name mode cflags).file = .ret (.ok f)) := by
  refine ⟨?_, ?_, ?_, ?_, ?_⟩
  · exact Handle.writeRequest_flags h true buf flags offset
  · exact Handle.writeRequest_flags h false buf flags offset
  · intro created r hr
    exact Handle.WriteAt_returns t log created h buf flags offset r hr
  · intro f hf
    unfold Dir.Create at hf
    rcases hex : Dir.exists fl t log d name with ⟨ex, log1⟩
    rw [hex] at hf
    cases ex with
    | fault => simp at hf
    | ret b =>
      cases b with
      | true => simp at hf
      | false =>
        simp only [Outcome.ret.injEq, Except.ok.injEq] at hf
        subst hf
        exact ⟨rfl, rfl⟩
  · intro hex
    unfold Dir.Create
    rcases hex2 : Dir.exists fl t log d name with ⟨ex, log1⟩
    rw [hex2] at hex
    simp only at hex
    subst hex
    exact ⟨_, rfl⟩


/-- Witness for C11: a write on a freshly created file, answered with 200. -/
theorem created_flag_protocol_witness :
    ∃ res, Handle.WriteAt (fun _ _ => .ok { status := 200 }) [] true
        { path := "/d/f".toList, flags := 1, perm := 0o644 } "abc".toList 1 0 = .ret res ∧
      res.created = false ∧
      res.log = [] ++ [Handle.writeRequest { path := "/d/f".toList, flags := 1, perm := 0o644 }
        true "abc".toList 1 0] :=
  (created_flag_protocol (FallbackLayouts.mk (fun _ => none) (fun _ => none))
    (fun _ _ => .ok { status := 200 }) []
    { path := "/d/f".toList, flags := 1, perm := 0o644 } "abc".toList 1 0 {} 0
    { attr := { inode := 1, atime := 0, mtime := 0, ctime := 0, crtime := 0,
                mode := ModeDir ||| 0o755 }, path := "/d".toList }
    "f".toList 0o644 1).2.2.1 true { status := 200 } rfl

/-! ### MKDIR: the permission parameter -/

/-- Whatever permission `Client.Mkdir` is given for a plain path, the server
creates the directory with the mode 0777: the request has no parameter
`perm`. -/
theorem handleMKDIR_mkdirRequest (dir path : GoString) (perm : Nat) (err : Option GoError)
    (w : ResponseWriter) (r : Request) (hr : (mkdirRequest path perm).atServer = some r) :
    (handleMKDIR dir r err w).1 = [Syscall.mkdir (localPath dir path) 0o777] := by
  have h : utils.SafeParseInt [] 0o777 = 0o777 := by decide
  unfold HTTPRequest.atServer at hr
  split_ifs at hr
  simp only [Option.some.injEq] at hr
  subst hr
  cases err <;>
    simp [handleMKDIR, mkdirRequest, Header.Get, h]

/-- C13: `Client.Mkdir("/d", 0755)` builds a request that carries the
permission under the key `mode` and has no parameter `perm`; the handler
sees the path `/d`, the one parameter `mode` and the header
`Content-Length: 0`, and on this request the server dispatcher creates the
directory with the default mode 0777, not with 0755. -/
theorem mkdir_permission_not_transmitted :
    (mkdirRequest "/d".toList 0o755).query = [("mode".toList, "493".toList)] ∧
    (mkdirRequest "/d".toList 0o755).query.Get "perm".toList = [] ∧
    (mkdirRequest "/d".toList 0o755).atServer =
      some { urlPath := "/d".toList, query := [("mode".toList, "493".toList)],
             header := [("Content-Length".toList, "0".toList)] } ∧
    (handleMKDIR "/srv".toList
        { urlPath := "/d".toList, query := [("mode".toList, "493".toList)],
          header := [("Content-Length".toList, "0".toList)] } none {}).1 =
      [Syscall.mkdir "/srv/d".toList 0o777] := by
  refine ⟨by decide, by decide, by decide, ?_⟩
  rw [handleMKDIR_mkdirRequest "/srv".toList "/d".toList 0o755 none {} _ (by decide)]
  decide

/-! ### `Dir.Link` -/

/-- The method `Dir.Link` panics on every call, before any request. -/
theorem Dir.Link_fault (fl : FallbackLayouts) (t : Transport) (log : List HTTPRequest) (d : Dir)
    (newName : GoString) (old : Node) :
    (Dir.Link fl t log d newName old).node = .fault ∧
    (Dir.Link fl t log d newName old).log = log :=
  ⟨rfl, rfl⟩

/-- C14: on a server that answers every request with 200 (so that the new
name exists) and on a server that answers every request with 404 (so that it
does not), `Dir.Link` panics in its first statement: it returns neither a
node nor ENOENT, and it sends no request. -/
theorem link_panics_before_any_request :
    (Dir.Link (FallbackLayouts.mk (fun _ => none) (fun _ => none))
        (fun _ _ => .ok { status := 200 }) []
        { attr := { inode := 1, atime := 0, mtime := 0, ctime := 0, crtime := 0,
                    mode := ModeDir ||| 0o755 }, path := "/".toList }
        "b".toList
        (.file { attr := { inode := 2, atime := 0, mtime := 0, ctime := 0, crtime := 0,
                           mode := 0o644 }, path := "/a".toList })).node = .fault ∧
    (Dir.Link (FallbackLayouts.mk (fun _ => none) (fun _ => none))
        (fun _ _ => .ok { status := 200 }) []
        { attr := { inode := 1, atime := 0, mtime := 0, ctime := 0, crtime := 0,
                    mode := ModeDir ||| 0o755 }, path := "/".toList }
        "b".toList
        (.file { attr := { inode := 2, atime := 0, mtime := 0, ctime := 0, crtime := 0,
                           mode := 0o644 }, path := "/a".toList })).log = [] ∧
    (Dir.Link (FallbackLayouts.mk (fun _ => none) (fun _ => none))
        (fun _ _ => .ok { status := 404 }) []
        { attr := { inode := 1, atime := 0, mtime := 0, ctime := 0, crtime := 0,
                    mode := ModeDir ||| 0o755 }, path := "/".toList }
        "b".toList
        (.file { attr := { inode := 2, atime := 0, mtime := 0, ctime := 0, crtime := 0,
                           mode := 0o644 }, path := "/a".toList })).node = .fault ∧
    (Dir.Link (FallbackLayouts.mk (fun _ => none) (fun _ => none))
        (fun _ _ => .ok { status := 404 }) []
        { attr := { inode := 1, atime := 0, mtime := 0, ctime := 0, crtime := 0,
                    mode := ModeDir ||| 0o755 }, path := "/".toList }
        "b".toList
        (.file { attr := { inode := 2, atime := 0, mtime := 0, ctime := 0, crtime := 0,
                           mode := 0o644 }, path := "/a".toList })).log = [] :=
  ⟨rfl, rfl, rfl, rfl⟩

/-! ### Transport failures in `ReadAt` and `WriteAt` -/

/-- On a failed `Do`, `ReadAt` returns `(0, EIO)` and leaves the buffer. -/
theorem Handle.ReadAt_transport_error (t : Transport) (log : List HTTPRequest) (h : Handle)
    (buf : GoString) (offset : Int) (e : GoError)
    (hr : t log (h.readRequest offset) = .error e) :
    Handle.ReadAt t log h buf offset =
      { buf := buf, n := 0, err := some (.fuseErrno Errno.EIO),
        log := log ++ [h.readRequest offset] } := by
  simp [Handle.ReadAt, Client.Do, hr]

/-- On a failed `Do`, `WriteAt` panics. -/
theorem Handle.WriteAt_transport_error (t : Transport) (log : List HTTPRequest)
    (created : Bool) (h : Handle) (buf : GoString) (flags : Nat) (offset : Int) (e : GoError)
    (hr : t log (h.writeRequest created buf flags offset) = .error e) :
    Handle.WriteAt t log created h buf flags offset = .fault := by
  simp [Handle.WriteAt, Client.Do, hr]

/-- C17: when the transport fails on every request, `ReadAt` with a buffer
of three bytes at offset 0 returns `(0, EIO)`, but `WriteAt` of three bytes
at offset 0 panics instead of returning `(0, EIO)`. -/
theorem writeAt_transport_failure_faults :
    ((Handle.ReadAt (fun _ _ => .error (.other "connection refused".toList)) []
        { path := "/f".toList, flags := 2, perm := 0o644 } "xyz".toList 0).n = 0 ∧
     (Handle.ReadAt (fun _ _ => .error (.other "connection refused".toList)) []
        { path := "/f".toList, flags := 2, perm := 0o644 } "xyz".toList 0).err =
        some (.fuseErrno Errno.EIO)) ∧
    Handle.WriteAt (fun _ _ => .error (.other "connection refused".toList)) [] false
        { path := "/f".toList, flags := 2, perm := 0o644 } "abc".toList 2 0 = .fault := by
  refine ⟨?_, ?_⟩
  · rw [Handle.ReadAt_transport_error _ _ _ _ _ (.other "connection refused".toList) rfl]
    exact ⟨rfl, rfl⟩
  · exact Handle.WriteAt_transport_error _ _ _ _ _ _ _ (.other "connection refused".toList) rfl


/-! ### `Dir.Rename`: lock order -/

theorem Dir.exists_log (fl : FallbackLayouts) (t : Transport) (log : List HTTPRequest) (d : Dir)
    (name : GoString) :
    (Dir.exists fl t log d name).2 =
      if requestURLValid (Join [d.path, name]) then log ++ [headRequest (Join [d.path, name])]
      else log := by
  have h := Client.Stat_log fl t log (Join [d.path, name])
  unfold Dir.exists
  rcases hs : Client.Stat fl t log (Join [d.path, name]) with ⟨res, log1⟩
  rw [hs] at h
  cases res with
  | fault => exact h
  | ret res => cases res <;> exact h

/-- The method `Dir.exists` panics exactly when the request of the stat
cannot be built. -/
theorem Dir.exists_fault (fl : FallbackLayouts) (t : Transport) (log : List HTTPRequest)
    (d : Dir) (name : GoString) :
    (Dir.exists fl t log d name).1 = .fault ↔ requestURLValid (Join [d.path, name]) = false := by
  have h := Client.Stat_fault fl t log (Join [d.path, name])
  unfold Dir.exists
  rcases hs : Client.Stat fl t log (Join [d.path, name]) with ⟨res, log1⟩
  rw [hs] at h
  cases res with
  | fault => simpa using h
  | ret res =>
    cases res with
    | error e => simp only at h ⊢; rw [← h]; simp
    | ok st => simp only at h ⊢; rw [← h]; simp

/-- C16: the events of `Dir.Rename` from `d` into the directory `nd` are, in
this order: the lock of `d` alone when both have the same inode, otherwise
the lock of the directory with the smaller inode and then the lock of the
other one; the requests sent (the stat of the old name and, when it exists,
the rename); the unlocks of all locks taken.  This holds whatever the
transport answers (missing old name, transport error, error status,
success).  `Dir.Rename` panics only when the request of the stat cannot be
built for the old name; then no request is sent, and the locks are taken and
released as on every other path. -/
theorem rename_lock_order (fl : FallbackLayouts) (t : Transport) (log : List HTTPRequest)
    (d nd : Dir) (oldName newName : GoString) :
    ((Dir.Rename fl t log d oldName newName (.dir nd)).err = .fault ↔
      requestURLValid (Join [d.path, oldName]) = false) ∧
    (Dir.Rename fl t log d oldName newName (.dir nd)).log =
      log ++ (if (Dir.exists fl t log d oldName).1 = .ret true then
          [headRequest (Join [d.path, oldName]),
           renameRequest (Join [d.path, oldName]) (Join [nd.path, newName])]
        else if (Dir.exists fl t log d oldName).1 = .ret false then
          [headRequest (Join [d.path, oldName])]
        else []) ∧
    (Dir.Rename fl t log d oldName newName (.dir nd)).events =
      (if d.attr.inode = nd.attr.inode then [Event.lock d.attr.inode]
       else [Event.lock (min d.attr.inode nd.attr.inode),
             Event.lock (max d.attr.inode nd.attr.inode)]) ++
      (if (Dir.exists fl t log d oldName).1 = .ret true then
          [Event.request (headRequest (Join [d.path, oldName])),
           Event.request (renameRequest (Join [d.path, oldName]) (Join [nd.path, newName]))]
        else if (Dir.exists fl t log d oldName).1 = .ret false then
          [Event.request (headRequest (Join [d.path, oldName]))]
        else []) ++
      (if d.attr.inode = nd.attr.inode then [Event.unlock d.attr.inode]
       else [Event.unlock (max d.attr.inode nd.attr.inode),
             Event.unlock (min d.attr.inode nd.attr.inode)]) := by
  have hlog := Dir.exists_log fl t log d oldName
  have hfault := Dir.exists_fault fl t log d oldName
  have hlocks : lockPair d nd =
      ((if d.attr.inode = nd.attr.inode then [Event.lock d.attr.inode]
        else [Event.lock (min d.attr.inode nd.attr.inode),
              Event.lock (max d.attr.inode nd.attr.inode)]),
       (if d.attr.inode = nd.attr.inode then [Event.unlock d.attr.inode]
        else [Event.unlock (max d.attr.inode nd.attr.inode),
              Event.unlock (min d.attr.inode nd.attr.inode)])) := by
    unfold lockPair
    by_cases h1 : d.attr.inode = nd.attr.inode
    · rw [if_pos h1, if_pos h1, if_pos h1]
    · rw [if_neg h1, if_neg h1, if_neg h1]
      by_cases h2 : d.attr.inode < nd.attr.inode
      · rw [if_pos h2, Nat.min_eq_left (Nat.le_of_lt h2), Nat.max_eq_right (Nat.le_of_lt h2)]
      · have h3 : nd.attr.inode ≤ d.attr.inode := Nat.le_of_not_lt h2
        rw [if_neg h2, Nat.min_eq_right h3, Nat.max_eq_left h3]
  unfold Dir.Rename assertDir
  simp only [hlocks]
  rcases hex : Dir.exists fl t log d oldName with ⟨ex, log1⟩
  rw [hex] at hlog hfault
  simp only at hlog hfault
  cases ex with
  | fault =>
    have hv : requestURLValid (Join [d.path, oldName]) = false := hfault.mp rfl
    rw [hv] at hlog
    simp only [Bool.false_eq_true, if_false] at hlog
    subst hlog
    refine ⟨by simp [hv], by simp, ?_⟩
    simp
  | ret b =>
    have hv : requestURLValid (Join [d.path, oldName]) = true := by
      cases hq : requestURLValid (Join [d.path, oldName]) with
      | true => rfl
      | false => exact absurd (hfault.mpr hq) (by simp)
    rw [if_pos hv] at hlog
    subst hlog
    cases b with
    | false =>
      refine ⟨by simp [hv], by simp, ?_⟩
      simp
    | true =>
      have hc := Client.call_log t (log ++ [headRequest (Join [d.path, oldName])])
        (renameRequest (Join [d.path, oldName]) (Join [nd.path, newName]))
      unfold Client.Rename
      refine ⟨by simp [hv], by simp [hc], ?_⟩
      simp [hc]

/-! ### The handle of a `File` -/

/-- C18 (counterexample): a file that is opened and then released still has
its handle, so a following `Read` is sent to the server and returns the data
of the response, not ENOTSUP. -/
theorem read_after_release_is_served :
    File.Read (fun _ _ => .ok { status := 206, body := "abc".toList }) []
      (File.Release (File.Open
        { attr := { inode := 2, atime := 0, mtime := 0, ctime := 0, crtime := 0, mode := 0o644 },
          path := "/f".toList } 0)).2 0 3 =
    { data := "abc".toList, err := none,
      log := [Handle.readRequest { path := "/f".toList, flags := 0, perm := 0o644 } 0] } := by
  decide

/-- C18 (amended): `File.Open` attaches a handle with the file's path, the
request's flags and the file's mode; `File.Release` on the opened file
returns nil and leaves the file as it is, handle included, so that `Read`
and `Write` after it behave as before it and are sent to the server.  A
file returned by `Dir.Create` has a handle too, and `File.Release` leaves
it.  On a file without a handle (never opened), `Read` and `Write` report
ENOTSUP without any transport call. -/
theorem handle_attached_from_open (fl : FallbackLayouts) (t : Transport)
    (log : List HTTPRequest) (f : File) (flags : Nat) (offset : Int) (size : Nat)
    (data : GoString) (fileFlags : Nat) (fs : HTTPFS) (now : Int) (d : Dir) (name : GoString)
    (mode cflags : Nat) (hf : f.handle = none) :
    (File.Open f flags).handle =
      some { path := f.path, flags := flags, perm := f.attr.mode } ∧
    File.Release (File.Open f flags) = (.ret none, File.Open f flags) ∧
    File.Read t log (File.Release (File.Open f flags)).2 offset size =
      File.Read t log (File.Open f flags) offset size ∧
    File.Write t log (File.Release (File.Open f flags)).2 data fileFlags offset =
      File.Write t log (File.Open f flags) data fileFlags offset ∧
    (File.Read t log (File.Open f flags) offset size).log =
      log ++ [Handle.readRequest { path := f.path, flags := flags, perm := f.attr.mode }
        offset] ∧
    (∀ g, (Dir.Create fl t log fs now d name mode cflags).file = .ret (.ok g) →
      g.handle = some { path := Join [d.path, name], flags := cflags, perm := mode } ∧
      File.Release g = (.ret none, g)) ∧
    File.Read t log f offset size =
      { data := [], err := some (.fuseErrno .ENOTSUP), log := log } ∧
    File.Write t log f data fileFlags offset =
      .ret { size := 0, err := some (.fuseErrno .ENOTSUP), file := f, log := log } := by
  refine ⟨rfl, rfl, rfl, rfl, ?_, ?_, ?_, ?_⟩
  · unfold File.Read File.Open Handle.ReadAt Client.Do
    simp only
    cases t log (Handle.readRequest { path := f.path, flags := flags, perm := f.attr.mode }
      offset) with
    | error e => rfl
    | ok r =>
      simp only
      split_ifs <;> rfl
  · intro g hg
    unfold Dir.Create at hg
    rcases hex : Dir.exists fl t log d name with ⟨ex, log1⟩
    rw [hex] at hg
    cases ex with
    | fault => simp at hg
    | ret b =>
      cases b with
      | true => simp at hg
      | false =>
        simp only [Outcome.ret.injEq, Except.ok.injEq] at hg
        subst hg
        exact ⟨rfl, rfl⟩
  · unfold File.Read
    rw [hf]
  · unfold File.Write
    rw [hf]

/-- Witness for C18: a fresh file, never opened. -/
theorem handle_attached_from_open_witness :
    (File.Read (fun _ _ => .ok { status := 206, body := "abc".toList }) []
      { attr := { inode := 2, atime := 0, mtime := 0, ctime := 0, crtime := 0, mode := 0o644 },
        path := "/f".toList } 0 3).err = some (.fuseErrno .ENOTSUP) ∧
    (File.Read (fun _ _ => .ok { status := 206, body := "abc".toList }) []
      { attr := { inode := 2, atime := 0, mtime := 0, ctime := 0, crtime := 0, mode := 0o644 },
        path := "/f".toList } 0 3).log = [] := by
  have h := (handle_attached_from_open (FallbackLayouts.mk (fun _ => none) (fun _ => none))
    (fun _ _ => .ok { status := 206, body := "abc".toList }) []
    { attr := { inode := 2, atime := 0, mtime := 0, ctime := 0, crtime := 0, mode := 0o644 },
      path := "/f".toList } 0 0 3 [] 0 {} 0
    { attr := { inode := 1, atime := 0, mtime := 0, ctime := 0, crtime := 0,
                mode := ModeDir ||| 0o755 }, path := "/".toList }
    "g".toList 0o644 1 rfl).2.2.2.2.2.2.1
  rw [h]
  exact ⟨rfl, rfl⟩

/-! ### The flag `created` after a failed write -/

/-- C19 (counterexample): a write on a freshly created file that the server
answers with 403 returns EPERM, and `created` is false afterwards, not
true. -/
theorem created_cleared_by_failed_write :
    Handle.WriteAt (fun _ _ => .ok { status := 403 }) [] true
      { path := "/f".toList, flags := 1, perm := 0o644 } "abc".toList 1 0 =
    .ret { n := 0, err := some (.fuseErrno .EPERM), created := false,
           log := [Handle.writeRequest { path := "/f".toList, flags := 1, perm := 0o644 }
             true "abc".toList 1 0] } := by
  decide

/-- C19 (amended): a `WriteAt` on a file with `created = true` that is
answered with a status other than 200 and 206 returns 0 and the error of
that status after one request, and `created` is false afterwards, so that
the next write transmits its flags alone, without `O_CREATE|O_EXCL`. -/
theorem created_cleared_by_answered_write (t : Transport) (log : List HTTPRequest)
    (h : Handle) (buf : GoString) (flags : Nat) (offset : Int) (r : HTTPResponse)
    (hr : t log (h.writeRequest true buf flags offset) = .ok r)
    (h200 : r.status ≠ 200) (h206 : r.status ≠ 206) :
    ∃ res, Handle.WriteAt t log true h buf flags offset = .ret res ∧
      res.n = 0 ∧ res.err = some (.fuseErrno (ErrorFromStatus r.status)) ∧
      res.log = log ++ [h.writeRequest true buf flags offset] ∧
      res.created = false ∧
      ∀ (buf2 : GoString) (flags2 : Nat) (offset2 : Int),
        (h.writeRequest res.created buf2 flags2 offset2).query.Get "flags".toList =
          fmtNat flags2 := by
  unfold Handle.WriteAt Client.Do
  simp only [hr]
  rw [if_neg h200, if_pos h206]
  refine ⟨_, rfl, rfl, rfl, rfl, rfl, ?_⟩
  intro buf2 flags2 offset2
  exact Handle.writeRequest_flags h false buf2 flags2 offset2

/-- Witness for C19: the status 403. -/
theorem created_cleared_by_answered_write_witness :
    ∃ res, Handle.WriteAt (fun _ _ => .ok { status := 403 }) [] true
        { path := "/f".toList, flags := 1, perm := 0o644 } "abc".toList 1 0 = .ret res ∧
      res.n = 0 ∧ res.err = some (.fuseErrno (ErrorFromStatus 403)) ∧
      res.log = [] ++ [Handle.writeRequest { path := "/f".toList, flags := 1, perm := 0o644 }
        true "abc".toList 1 0] ∧
      res.created = false ∧
      ∀ (buf2 : GoString) (flags2 : Nat) (offset2 : Int),
        (Handle.writeRequest { path := "/f".toList, flags := 1, perm := 0o644 }
          res.created buf2 flags2 offset2).query.Get "flags".toList = fmtNat flags2 :=
  created_cleared_by_answered_write (fun _ _ => .ok { status := 403 }) []
    { path := "/f".toList, flags := 1, perm := 0o644 } "abc".toList 1 0 { status := 403 }
    rfl (by decide) (by decide)

/-! ### `Dir.Symlink` and the attributes of the directory -/

/-- Whatever the transport answers, the receiver of `Dir.Symlink` has the
bit `os.ModeSymlink` in its mode afterwards, and nothing else changed. -/
theorem Dir.Symlink_dir (fl : FallbackLayouts) (t : Transport) (log : List HTTPRequest)
    (d : Dir) (target newName : GoString) :
    (Dir.Symlink fl t log d target newName).dir =
      { d with attr := { d.attr with mode := d.attr.mode ||| ModeSymlink } } := by
  unfold Dir.Symlink
  simp only
  rcases Dir.exists fl t log
    { d with attr := { d.attr with mode := d.attr.mode ||| ModeSymlink } } newName
    with ⟨ex, log1⟩
  cases ex with
  | fault => rfl
  | ret b =>
    cases b with
    | true => rfl
    | false =>
      simp only
      rcases Client.Symlink t log1 (Join [d.path, target]) (Join [d.path, newName])
        with ⟨err, log2⟩
      cases err with
      | fault => rfl
      | ret e => cases e <;> rfl

/-- C20: `Dir.Symlink` on a directory created with the mode 0755 changes the
mode `Dir.Attr` reports from `ModeDir | 0755` to `ModeDir | ModeSymlink |
0755`, both when the call succeeds (the name is free and the server accepts
the link: two requests, the directory itself is returned as the node) and
when it fails (the name exists: one request, ENOENT). -/
theorem symlink_changes_directory_mode :
    Dir.Attr (HTTPFS.newDir {} 0 "/d".toList 0o755).1 =
      { inode := 1, atime := 0, mtime := 0, ctime := 0, crtime := 0,
        mode := ModeDir ||| 0o755 } ∧
    (Dir.Symlink (FallbackLayouts.mk (fun _ => none) (fun _ => none))
        (fun _ req => if req.method = "HEAD".toList then .ok { status := 404 }
          else .ok { status := 200 }) []
        (HTTPFS.newDir {} 0 "/d".toList 0o755).1 "t".toList "l".toList).log =
      [headRequest "/d/l".toList, symlinkRequest "/d/t".toList "/d/l".toList] ∧
    (Dir.Symlink (FallbackLayouts.mk (fun _ => none) (fun _ => none))
        (fun _ req => if req.method = "HEAD".toList then .ok { status := 404 }
          else .ok { status := 200 }) []
        (HTTPFS.newDir {} 0 "/d".toList 0o755).1 "t".toList "l".toList).node =
      .ret (.ok (.dir { attr := { inode := 1, atime := 0, mtime := 0, ctime := 0, crtime := 0,
                                  mode := ModeDir ||| 0o755 ||| ModeSymlink },
                        path := "/d".toList })) ∧
    Dir.Attr (Dir.Symlink (FallbackLayouts.mk (fun _ => none) (fun _ => none))
        (fun _ req => if req.method = "HEAD".toList then .ok { status := 404 }
          else .ok { status := 200 }) []
        (HTTPFS.newDir {} 0 "/d".toList 0o755).1 "t".toList "l".toList).dir =
      { inode := 1, atime := 0, mtime := 0, ctime := 0, crtime := 0,
        mode := ModeDir ||| ModeSymlink ||| 0o755 } ∧
    (Dir.Symlink (FallbackLayouts.mk (fun _ => none) (fun _ => none))
        (fun _ _ => .ok { status := 200 }) []
        (HTTPFS.newDir {} 0 "/d".toList 0o755).1 "t".toList "l".toList).log =
      [headRequest "/d/l".toList] ∧
    (Dir.Symlink (FallbackLayouts.mk (fun _ => none) (fun _ => none))
        (fun _ _ => .ok { status := 200 }) []
        (HTTPFS.newDir {} 0 "/d".toList 0o755).1 "t".toList "l".toList).node =
      .ret (.error (.fuseErrno .ENOENT)) ∧
    Dir.Attr (Dir.Symlink (FallbackLayouts.mk (fun _ => none) (fun _ => none))
        (fun _ _ => .ok { status := 200 }) []
        (HTTPFS.newDir {} 0 "/d".toList 0o755).1 "t".toList "l".toList).dir =
      { inode := 1, atime := 0, mtime := 0, ctime := 0, crtime := 0,
        mode := ModeDir ||| ModeSymlink ||| 0o755 } := by
  refine ⟨by decide, by decide, rfl, ?_, by decide, rfl, ?_⟩
  · rw [Dir.Symlink_dir]
    decide
  · rw [Dir.Symlink_dir]
    decide

/-! ### HTML directory listings -/

/-- On an `a` element whose first `href` is not empty, and on every other
node, `visitNode` returns; it appends the entry of the `href`, if any. -/
theorem visitNode_hrefs (type : NodeType) (data : GoString) (attr : List (GoString × GoString))
    (entries : List Entry)
    (h : ∀ x ∈ hrefsFrom (.node type data attr .null .null), x ≠ []) :
    visitNode type data attr entries =
      .ret (entries ++ (hrefsFrom (.node type data attr .null .null)).map hrefEntry) := by
  unfold visitNode
  simp only [hrefsFrom, List.append_nil] at h ⊢
  by_cases hc : type = .elementNode ∧ data = "a".toList
  · rw [if_pos hc] at h ⊢
    rw [if_pos hc]
    cases hf : attr.find? (fun a => a.1 = "href".toList) with
    | none => simp
    | some a =>
      rw [hf] at h
      have hne : a.2 ≠ [] := h a.2 (by simp)
      cases hl : a.2.getLast? with
      | none => exact absurd (List.getLast?_eq_none_iff.mp hl) hne
      | some c => simp [hrefEntry, hl]
  · rw [if_neg hc, if_neg hc]
    simp

/-- When no `href` reached from `n` is empty, the loop over `n` and its
following siblings returns and appends one entry per `href`, in document
order. -/
theorem walkFrom_hrefs (n : HtmlNode) :
    ∀ entries : List Entry, (∀ x ∈ hrefsFrom n, x ≠ []) →
      walkFrom n entries = .ret (entries ++ (hrefsFrom n).map hrefEntry) := by
  induction n with
  | null => intro entries _; simp [walkFrom, hrefsFrom]
  | node type data attr firstChild nextSibling ih1 ih2 =>
    intro entries h
    have hv := visitNode_hrefs type data attr entries (by
      intro x hx
      apply h
      simp only [hrefsFrom, List.append_nil] at hx
      simp only [hrefsFrom, List.mem_append]
      exact Or.inl (Or.inl hx))
    have h1 := ih1 (entries ++ (hrefsFrom (.node type data attr .null .null)).map hrefEntry) (by
      intro x hx
      apply h
      simp only [hrefsFrom, List.mem_append]
      exact Or.inl (Or.inr hx))
    have h2 := ih2 (entries ++ (hrefsFrom (.node type data attr .null .null)).map hrefEntry ++
        (hrefsFrom firstChild).map hrefEntry) (by
      intro x hx
      apply h
      simp only [hrefsFrom, List.mem_append]
      exact Or.inr hx)
    unfold walkFrom
    rw [hv]
    simp only
    rw [h1]
    simp only
    rw [h2]
    simp [hrefsFrom]

/-- The closure `walk` on a node is the loop on that node without its
siblings. -/
theorem walk_eq_walkFrom (type : NodeType) (data : GoString)
    (attr : List (GoString × GoString)) (firstChild nextSibling : HtmlNode)
    (entries : List Entry) :
    walk (.node type data attr firstChild nextSibling) entries =
      walkFrom (.node type data attr firstChild .null) entries := by
  simp only [walk, walkFrom]
  cases visitNode type data attr entries with
  | fault => rfl
  | ret e1 =>
    simp only
    cases walkFrom firstChild e1 with
    | fault => rfl
    | ret e2 => simp only [walkFrom]

/-- When no `href` of the document is empty, `walk` returns one entry per
`href`, in document order. -/
theorem walk_hrefs (type : NodeType) (data : GoString) (attr : List (GoString × GoString))
    (firstChild nextSibling : HtmlNode)
    (h : ∀ x ∈ hrefsFrom (.node type data attr firstChild .null), x ≠ []) :
    walk (.node type data attr firstChild nextSibling) [] =
      .ret ((hrefsFrom (.node type data attr firstChild .null)).map hrefEntry) := by
  rw [walk_eq_walkFrom, walkFrom_hrefs _ [] h, List.nil_append]

/-- C12: on a `text/html` listing whose document holds the element
`<a href="">`, `walk` and with it `Client.Readdir` panic after the one `GET`
request, instead of returning an entry with the empty name.  On a listing
with the elements `<a href="foo%2F">` and `<a href="bar//">`, the entry of
`foo%2F` has the name `foo` but is not a directory, although the decoded
value `foo/` ends in a slash; the entry of `bar//` is the directory `bar`. -/
theorem readdir_html_empty_href_panics :
    walk (.node .documentNode [] []
        (.node .elementNode "html".toList []
          (.node .elementNode "body".toList []
            (.node .elementNode "a".toList [("href".toList, [])] .null .null) .null)
          .null) .null) [] = .fault ∧
    (Client.Readdir
        { htmlParse := fun _ => .ok (.node .documentNode [] []
            (.node .elementNode "html".toList []
              (.node .elementNode "body".toList []
                (.node .elementNode "a".toList [("href".toList, [])] .null .null) .null)
              .null) .null),
          jsonUnmarshal := fun _ => .ok [] }
        (fun _ _ => .ok { status := 200,
                          header := [("Content-Type".toList, "text/html; charset=utf-8".toList)],
                          body := "<a href=></a>".toList })
        [] "/d".toList) = (.fault, [getRequest "/d".toList]) ∧
    QueryUnescape "foo%2F".toList = some "foo/".toList ∧
    walk (.node .documentNode [] []
        (.node .elementNode "html".toList []
          (.node .elementNode "body".toList []
            (.node .elementNode "a".toList [("href".toList, "foo%2F".toList)]
              (.node .textNode "foo".toList [] .null .null)
              (.node .elementNode "a".toList [("href".toList, "bar//".toList)] .null .null))
            .null)
          .null) .null) [] =
      .ret [{ Name := "foo".toList, IsDir := false }, { Name := "bar".toList, IsDir := true }] := by
  refine ⟨by decide, rfl, by decide, by decide⟩

/-! ### The safe parsers -/

theorem foldl_decimal_ge (ds : GoString) :
    ∀ a : Nat, a ≤ ds.foldl (fun a c => a * 10 + (c.toNat - 48)) a := by
  induction ds with
  | nil => intro a; simp
  | cons c cs ih =>
    intro a
    simp only [List.foldl_cons]
    have := ih (a * 10 + (c.toNat - 48))
    omega

/-- On a string of decimal digits the loop of `ParseUint` returns the value
the digits denote when it is at most `maxVal`, and the range error with
`maxVal` otherwise. -/
theorem parseUintLoop_value (maxVal : Nat) (hmax : maxVal < 2 ^ 64) :
    ∀ (ds : GoString) (a : Nat), (∀ c ∈ ds, 48 ≤ c.toNat ∧ c.toNat ≤ 57) → a ≤ maxVal →
      parseUintLoop maxVal ds a =
        if ds.foldl (fun a c => a * 10 + (c.toNat - 48)) a ≤ maxVal then
          (ds.foldl (fun a c => a * 10 + (c.toNat - 48)) a, none)
        else (maxVal, some .errRange) := by
  have e64 : (2 : Nat) ^ 64 = 18446744073709551616 := by norm_num
  rw [e64] at hmax
  intro ds
  induction ds with
  | nil => intro a _ ha; simp [parseUintLoop, ha]
  | cons c cs ih =>
    intro a hd ha
    have hc := hd c (List.mem_cons_self c cs)
    have hge := foldl_decimal_ge cs (a * 10 + (c.toNat - 48))
    unfold parseUintLoop
    rw [if_pos hc]
    simp only [List.foldl_cons, e64]
    by_cases h1 : a ≥ cutoff64
    · rw [if_pos h1]
      have h1b : 1844674407370955162 ≤ a := h1
      rw [if_neg (by omega)]
    · rw [if_neg h1]
      have h1b : a < 1844674407370955162 := Nat.lt_of_not_le h1
      by_cases h2 : (a * 10 + (c.toNat - 48)) % 18446744073709551616 < a * 10 ∨
          (a * 10 + (c.toNat - 48)) % 18446744073709551616 > maxVal
      · rw [if_pos h2, if_neg (by omega)]
      · rw [if_neg h2]
        have hmod : (a * 10 + (c.toNat - 48)) % 18446744073709551616 =
            a * 10 + (c.toNat - 48) := by omega
        rw [hmod]
        exact ih _ (fun x hx => hd x (List.mem_cons_of_mem c hx)) (by omega)

theorem ParseUint_digits (bitSize : Nat) (hb : bitSize ≤ 64) (ds : GoString) (hne : ds ≠ [])
    (hd : ∀ c ∈ ds, 48 ≤ c.toNat ∧ c.toNat ≤ 57) :
    ParseUint ds bitSize =
      if decimalValue ds ≤ 2 ^ bitSize - 1 then (decimalValue ds, none)
      else (2 ^ bitSize - 1, some .errRange) := by
  have hpow : 2 ^ bitSize ≤ 2 ^ 64 := Nat.pow_le_pow_right (by decide) hb
  have hpos : 0 < 2 ^ bitSize := Nat.pow_pos (by decide)
  unfold ParseUint decimalValue
  rw [if_neg hne]
  exact parseUintLoop_value (2 ^ bitSize - 1) (by omega) ds 0 hd (Nat.zero_le _)

/-- On a base-10 integer literal `ParseInt` returns the value when it fits
in `bitSize` signed bits, and the range error otherwise. -/
theorem ParseInt_literal (bitSize : Nat) (hb2 : 2 ≤ bitSize) (hb : bitSize ≤ 64)
    (s : GoString) (n : Int) (h : decimalLiteral s = some n) :
    ParseInt s bitSize =
      if -(2 ^ (bitSize - 1) : Int) ≤ n ∧ n < (2 ^ (bitSize - 1) : Int) then .ok n
      else .error .errRange := by
  have hpow : 2 ^ bitSize = 2 * 2 ^ (bitSize - 1) := by
    conv_lhs => rw [show bitSize = (bitSize - 1) + 1 by omega]
    rw [Nat.pow_succ]; ring
  have hpos : 2 ≤ 2 ^ (bitSize - 1) := by
    calc 2 = 2 ^ 1 := by norm_num
      _ ≤ 2 ^ (bitSize - 1) := Nat.pow_le_pow_right (by decide) (by omega)
  have hcast : ((2 ^ (bitSize - 1) : Nat) : Int) = (2 ^ (bitSize - 1) : Int) := by push_cast; rfl
  unfold decimalLiteral at h
  by_cases hi : isDecimalInteger s = true
  · rw [if_pos hi] at h
    simp only [Option.some.injEq] at h
    unfold isDecimalInteger at hi
    simp only [Bool.and_eq_true, decide_eq_true_eq, List.all_eq_true] at hi
    obtain ⟨hne, hd⟩ := hi
    have hs : s ≠ [] := by
      intro hs
      subst hs
      simp at hne
    have hu := ParseUint_digits bitSize hb _ hne hd
    unfold ParseInt
    rw [if_neg hs]
    simp only
    generalize hv : decimalValue
      (if s.head? = some '+' ∨ s.head? = some '-' then s.drop 1 else s) = v at h hu
    rw [hu]
    by_cases hneg : s.head? = some '-'
    · rw [if_pos hneg] at h
      subst h
      by_cases hv1 : v ≤ 2 ^ bitSize - 1
      · rw [if_pos hv1]
        simp only [hneg, decide_True, not_true_eq_false, false_and, if_false, true_and, if_true]
        by_cases hv2 : v > 2 ^ (bitSize - 1)
        · rw [if_pos hv2, if_neg (by rw [← hcast]; omega)]
        · rw [if_neg hv2, if_pos (by rw [← hcast]; omega)]
      · rw [if_neg hv1]
        simp only [hneg, decide_True, not_true_eq_false, false_and, if_false, true_and, if_true]
        rw [if_pos (by omega), if_neg (by rw [← hcast]; omega)]
    · rw [if_neg hneg] at h
      subst h
      by_cases hv1 : v ≤ 2 ^ bitSize - 1
      · rw [if_pos hv1]
        simp only [hneg, decide_False, Bool.false_eq_true, not_false_eq_true, true_and, false_and,
          if_false]
        by_cases hv2 : v ≥ 2 ^ (bitSize - 1)
        · rw [if_pos hv2, if_neg (by rw [← hcast]; omega)]
        · rw [if_neg hv2, if_pos (by rw [← hcast]; omega)]
      · rw [if_neg hv1]
        simp only [hneg, decide_False, Bool.false_eq_true, not_false_eq_true, true_and, false_and,
          if_false]
        rw [if_pos (by omega), if_neg (by rw [← hcast]; omega)]
  · rw [if_neg hi] at h
    exact absurd h (by simp)

/-- The call `ParseInt(s, 10, bitSize)` succeeds exactly on the base-10
integer literals that fit in `bitSize` signed bits, with their value. -/
theorem ParseInt_strict (bitSize : Nat) (hb2 : 2 ≤ bitSize) (hb : bitSize ≤ 64) (s : GoString) :
    (ParseInt s bitSize).toOption = strictParseInt bitSize s := by
  unfold strictParseInt
  cases hl : decimalLiteral s with
  | none =>
    cases hp : ParseInt s bitSize with
    | error e => rfl
    | ok i =>
      have hi := ParseInt_ok_isDecimalInteger bitSize hb2 s i hp
      unfold decimalLiteral at hl
      rw [if_pos hi] at hl
      exact absurd hl (by simp)
  | some n =>
    rw [ParseInt_literal bitSize hb2 hb s n hl]
    simp only
    split_ifs <;> rfl

theorem ParseBool_strict (s : GoString) : ParseBool s = strictParseBool s := by
  by_cases h : s ∈ ["1".toList, "t".toList, "T".toList, "TRUE".toList, "true".toList,
      "True".toList, "0".toList, "f".toList, "F".toList, "FALSE".toList, "false".toList,
      "False".toList]
  · simp only [List.mem_cons, List.mem_singleton, List.not_mem_nil, or_false] at h
    rcases h with h | h | h | h | h | h | h | h | h | h | h | h <;> subst h <;> decide
  · simp only [List.mem_cons, List.mem_singleton, List.not_mem_nil, or_false, not_or] at h
    obtain ⟨h1, h2, h3, h4, h5, h6, h7, h8, h9, h10, h11, h12⟩ := h
    have hA : ParseBool s = none := by
      unfold ParseBool
      rw [if_neg, if_neg]
      · intro hm
        simp only [List.mem_cons, List.mem_singleton, List.not_mem_nil, or_false] at hm
        rcases hm with hm | hm | hm | hm | hm | hm <;> contradiction
      · intro hm
        simp only [List.mem_cons, List.mem_singleton, List.not_mem_nil, or_false] at hm
        rcases hm with hm | hm | hm | hm | hm | hm <;> contradiction
    have hB : boolLiterals.find? (fun p => p.1 = s) = none := by
      rw [List.find?_eq_none]
      intro p hp
      unfold boolLiterals at hp
      simp only [List.mem_cons, List.mem_singleton, List.not_mem_nil, or_false] at hp
      rcases hp with hp | hp | hp | hp | hp | hp | hp | hp | hp | hp | hp | hp <;>
        subst hp <;> simp only [decide_eq_true_eq] <;> intro hs <;> exact absurd hs.symm ‹_›
    unfold strictParseBool
    rw [hA, hB]
    rfl

theorem utils.SafeParseInt_strict (s : GoString) (d : Int) :
    utils.SafeParseInt s d = (strictParseInt 32 s).getD d := by
  rw [← ParseInt_strict 32 (by decide) (by decide) s]
  unfold utils.SafeParseInt
  cases ParseInt s 32 <;> rfl

theorem utils.SafeParseInt64_strict (s : GoString) (d : Int) :
    utils.SafeParseInt64 s d = (strictParseInt 64 s).getD d := by
  rw [← ParseInt_strict 64 (by decide) (by decide) s]
  unfold utils.SafeParseInt64
  cases ParseInt s 64 <;> rfl

theorem utils.SafeParseBool_strict (s : GoString) (d : Bool) :
    utils.SafeParseBool s d = (strictParseBool s).getD d := by
  rw [← ParseBool_strict s]
  unfold utils.SafeParseBool
  cases ParseBool s <;> rfl

/-- C15: for every string `s` and default `d`, `utils.SafeParseInt(s, d)` is
the value of `s` when `s` is a base-10 integer literal that fits in 32
signed bits and `d` otherwise; `utils.SafeParseInt64(s, d)` is the same with
64 bits; `utils.SafeParseBool(s, d)` is the value of `s` when `s` is one of
the twelve boolean literals and `d` otherwise.  So `"4294967297"` and
`"asdf"` give `d` with 32 bits, `"4294967297"` gives 4294967297 with 64
bits, and `"yes"`, `"y"`, `"no"`, `"nah"` give the boolean default. -/
theorem safe_parsers_strict (s : GoString) (d : Int) (db : Bool) :
    utils.SafeParseInt s d = (strictParseInt 32 s).getD d ∧
    utils.SafeParseInt64 s d = (strictParseInt 64 s).getD d ∧
    utils.SafeParseBool s db = (strictParseBool s).getD db ∧
    utils.SafeParseInt "4294967297".toList d = d ∧
    utils.SafeParseInt "asdf".toList d = d ∧
    utils.SafeParseInt64 "4294967297".toList d = 4294967297 ∧
    utils.SafeParseBool "yes".toList db = db ∧
    utils.SafeParseBool "y".toList db = db ∧
    utils.SafeParseBool "no".toList db = db ∧
    utils.SafeParseBool "nah".toList db = db := by
  have e1 : strictParseInt 32 "4294967297".toList = none := by decide
  have e2 : strictParseInt 32 "asdf".toList = none := by decide
  have e3 : strictParseInt 64 "4294967297".toList = some 4294967297 := by decide
  have e4 : strictParseBool "yes".toList = none := by decide
  have e5 : strictParseBool "y".toList = none := by decide
  have e6 : strictParseBool "no".toList = none := by decide
  have e7 : strictParseBool "nah".toList = none := by decide
  refine ⟨utils.SafeParseInt_strict s d, utils.SafeParseInt64_strict s d,
    utils.SafeParseBool_strict s db, ?_, ?_, ?_, ?_, ?_, ?_, ?_⟩
  · rw [utils.SafeParseInt_strict, e1]; rfl
  · rw [utils.SafeParseInt_strict, e2]; rfl
  · rw [utils.SafeParseInt64_strict, e3]; rfl
  · rw [utils.SafeParseBool_strict, e4]; rfl
  · rw [utils.SafeParseBool_strict, e5]; rfl
  · rw [utils.SafeParseBool_strict, e6]; rfl
  · rw [utils.SafeParseBool_strict, e7]; rfl

end Httpfs
